import Mathlib

/-!
# uthreads: the round-robin scheduler

A shallow embedding of `src/scheduler.cpp`, `src/thread.h` and `src/uthreads.cpp`.

* A `Thread*` is represented by the `id` of the descriptor it points to (`id` is
  `const`); the descriptor itself is owned by `threadArray`, so `p->state` and
  `p->nQuantum` are read from the slot table. Reading through a pointer whose
  descriptor is no longer in the table has no defined result.
* `MAX_THREAD_NUM` is declared in `uthreads.h`, which is not among the sources: it is
  the parameter `M` of every definition.
* `nQuantum` is an `unsigned int` (wraps at `2 ^ 32`), `totalQuantums` is an `int`
  whose overflow is undefined behaviour: a switch at `INT_MAX` has no defined result.
* Undefined behaviour (null dereference, `front()` of an empty deque, signed
  overflow) is `none` / `Outcome.undefined`.
* The disposition of `SIGVTALRM` is the boolean `sigIgnored`.
-/

namespace Uthreads

/-- Thread state enum of `thread.h`. -/
inductive State where
  | READY
  | RUNNING
  | BLOCKED
  deriving DecidableEq, Repr

/-- The bookkeeping fields of `struct Thread` (`env`, `stack` and `func` carry no
scheduling information). -/
structure Thread where
  id : Nat
  nQuantum : Nat
  state : State
  deriving DecidableEq, Repr

/-- Constructor `Thread(int _id, f)`: `nQuantum = 0`, `state = READY`. -/
def Thread.new (tid : Nat) : Thread := ⟨tid, 0, State.READY⟩

/-- The default thread id of the main thread. -/
def MAIN_THREAD_ID : Nat := 0

/-- Largest value of a 32-bit `int`. -/
def INT_MAX : Int := 2147483647

/-- Modulus of `unsigned int`. -/
def UINT_MOD : Nat := 4294967296

/-- The fields of `struct Scheduler`, plus the disposition of `SIGVTALRM`. -/
structure Scheduler where
  threadArray : Nat → Option Thread
  syncMatrix : Nat → Nat → Nat
  numSyncedThreads : Nat → Int
  readyList : List Nat
  running : Option Nat
  totalQuantums : Int
  quantum_usecs : Int
  sigIgnored : Bool

/-- The static instance after `Scheduler::Scheduler()`: zero-initialised storage,
arrays cleared by the constructor. -/
def Scheduler.fresh : Scheduler :=
  { threadArray := fun _ => none
    syncMatrix := fun _ _ => 0
    numSyncedThreads := fun _ => 0
    readyList := []
    running := none
    totalQuantums := 0
    quantum_usecs := 0
    sigIgnored := false }

/-- What a call does: it returns `v` to its caller with the bookkeeping `s` the
operation (including a switch it triggers) leaves; or control is transferred and the
call never returns (`terminate` of the running thread); or the process exits; or the
behaviour is undefined. -/
inductive Outcome where
  | ret (v : Int) (s : Scheduler)
  | noret (s : Scheduler)
  | exit (status : Int)
  | undefined

/-- The bookkeeping an operation leaves, when there is one. -/
def Outcome.state? : Outcome → Option Scheduler
  | Outcome.ret _ s => some s
  | Outcome.noret s => some s
  | Outcome.exit _ => none
  | Outcome.undefined => none

/-- The value returned to the caller, when the call returns. -/
def Outcome.value? : Outcome → Option Int
  | Outcome.ret v _ => some v
  | _ => none

/-- `Scheduler::setQuantumLength`. -/
def setQuantumLength (s : Scheduler) (q : Int) : Scheduler :=
  { s with quantum_usecs := q }

/-- `Scheduler::blockTimerThreadSwitch`: `signal(SIGVTALRM, SIG_IGN)`. -/
def blockTimerThreadSwitch (s : Scheduler) : Scheduler :=
  { s with sigIgnored := true }

/-- `Scheduler::unblockTimerThreadSwitch`: `signal(SIGVTALRM, switchThread)`. -/
def unblockTimerThreadSwitch (s : Scheduler) : Scheduler :=
  { s with sigIgnored := false }

/-- The values that `setitimer` accepts as the `tv_usec` field of a `timeval`: the
microseconds part has to lie in `[0, 999999]`, otherwise the call fails (`EINVAL`). -/
def validTimerUsec (usec : Int) : Bool :=
  decide (0 ≤ usec ∧ usec < 1000000)

/-- `Scheduler::initializeTimer`: `sigaction` installs `switchThread` as the handler of
`SIGVTALRM`, then `setitimer(ITIMER_VIRTUAL, ...)` arms the timer with `tv_sec = 0` and
`tv_usec = quantum_usecs` for the first expiry and for the interval. `none` is the
`exit(1)` that follows a failing `setitimer`. -/
def initializeTimer (s : Scheduler) : Option Scheduler :=
  if validTimerUsec s.quantum_usecs then some { s with sigIgnored := false } else none

/-- `Scheduler::inReadyList`. -/
def inReadyList (s : Scheduler) (tid : Nat) : Bool :=
  s.readyList.any (fun b => b == tid)

/-- `Scheduler::removeFromReadyList`: erases the first entry with the given id. -/
def removeFromReadyList (s : Scheduler) (tid : Nat) : Scheduler :=
  { s with readyList := s.readyList.erase tid }

/-- `Scheduler::id`: the first empty cell of the thread array, `-1` if there is none. -/
def Scheduler.id (M : Nat) (s : Scheduler) : Int :=
  match (List.range M).find? (fun i => (s.threadArray i).isNone) with
  | some i => (i : Int)
  | none => -1

/-- `Scheduler::quantums`. -/
def Scheduler.quantums (M : Nat) (s : Scheduler) (tid : Int) : Int :=
  if tid < 0 ∨ tid ≥ M then -1
  else match s.threadArray tid.toNat with
    | none => -1
    | some th => (th.nQuantum : Int)

/-- Writes `v` to `a[i][j]`. -/
def setCell (a : Nat → Nat → Nat) (i j v : Nat) : Nat → Nat → Nat :=
  Function.update a i (Function.update (a i) j v)

/-- One iteration of the loop of `Scheduler::unsync`, for index `i`. -/
def unsyncStep (tid : Nat) (s : Scheduler) (i : Nat) : Scheduler :=
  let thread := s.threadArray i
  let s1 : Scheduler :=
    if s.syncMatrix tid i ≠ 0 then
      { s with numSyncedThreads :=
          Function.update s.numSyncedThreads i (s.numSyncedThreads i - 1) }
    else s
  let s2 : Scheduler := { s1 with syncMatrix := setCell s1.syncMatrix tid i 0 }
  let s3 : Scheduler :=
    match thread with
    | some th =>
      if s2.numSyncedThreads i = 0 ∧ th.state ≠ State.BLOCKED ∧ inReadyList s2 i = false then
        { s2 with readyList := s2.readyList ++ [th.id] }
      else s2
    | none => s2
  if s3.threadArray tid = none then
    { s3 with
      syncMatrix := setCell s3.syncMatrix i tid 0
      numSyncedThreads := Function.update s3.numSyncedThreads tid 0 }
  else s3

/-- `Scheduler::unsync`: the loop over `i = 0 .. MAX_THREAD_NUM - 1`. -/
def unsync (M : Nat) (s : Scheduler) (tid : Nat) : Scheduler :=
  (List.range M).foldl (unsyncStep tid) s

/-- The `do … while (next->state == BLOCKED)` loop of `nextThread` on the deque:
the selected thread and what is left of the deque; `none` when `front()` is taken of an
empty deque or a popped pointer has no descriptor. -/
def popLoop (ta : Nat → Option Thread) : List Nat → Option (Nat × List Nat)
  | [] => none
  | next :: rest =>
    match ta next with
    | none => none
    | some th => if th.state = State.BLOCKED then popLoop ta rest else some (next, rest)

/-- `nextThread`: `some (none, s)` is the `nullptr` result on an empty ready list. -/
def nextThread (s : Scheduler) : Option (Option Nat × Scheduler) :=
  if s.readyList = [] then some (none, s)
  else
    match popLoop s.threadArray s.readyList with
    | none => none
    | some (next, rest) => some (some next, { s with readyList := rest })

/-- The first statements of `switchThread`: the timer signal is ignored and, when the
running thread was not terminated, the threads synced with it are released. -/
def preSwitch (M : Nat) (s : Scheduler) : Scheduler :=
  match s.running with
  | some r => unsync M (blockTimerThreadSwitch s) r
  | none => blockTimerThreadSwitch s

/-- `switchThread`: the handler of `SIGVTALRM`, also called by the scheduler. -/
def switchThread (M : Nat) (s0 : Scheduler) : Option Scheduler :=
  let running := s0.running
  let s2 := preSwitch M s0
  match nextThread s2 with
  | none => none
  | some (next, s3) =>
    let prevThread := running
    let s4? : Option Scheduler :=
      match prevThread with
      | none => some s3
      | some p =>
        match s3.threadArray p with
        | none => none
        | some th =>
          if th.state ≠ State.BLOCKED then
            some { s3 with threadArray :=
              Function.update s3.threadArray p (some { th with state := State.READY }) }
          else some s3
    match s4? with
    | none => none
    | some s4 =>
      let s5 : Scheduler := { s4 with running := next }
      match s5.running with
      | none => none
      | some n =>
        match s5.threadArray n with
        | none => none
        | some th =>
          let dispatched : Thread :=
            { th with state := State.RUNNING, nQuantum := (th.nQuantum + 1) % UINT_MOD }
          let s6 : Scheduler :=
            { s5 with threadArray := Function.update s5.threadArray n (some dispatched) }
          if s6.totalQuantums ≥ INT_MAX then none
          else
            let s7 : Scheduler := { s6 with totalQuantums := s6.totalQuantums + 1 }
            some (unblockTimerThreadSwitch s7)

/-- `Scheduler::add`. `Outcome.ret 0 s` is the plain return of the `void` function with
the bookkeeping `s`; for the main thread the process exits with status 1 when the timer
cannot be armed. -/
def Scheduler.add (M : Nat) (s : Scheduler) (thread : Thread) : Outcome :=
  let s1 : Scheduler := { s with threadArray := Function.update s.threadArray thread.id (some thread) }
  let s2 : Scheduler := { s1 with readyList := s1.readyList ++ [thread.id] }
  if thread.id = MAIN_THREAD_ID then
    let s3 : Scheduler :=
      { s2 with threadArray := Function.update s2.threadArray thread.id (some { thread with state := State.RUNNING }) }
    let s4 : Scheduler := { s3 with running := some thread.id }
    match initializeTimer s4 with
    | none => Outcome.exit 1
    | some s5 =>
      match switchThread M s5 with
      | none => Outcome.undefined
      | some s6 => Outcome.ret 0 s6
  else Outcome.ret 0 s2

/-- The statements of `Scheduler::terminate` between the validity checks and the test
`running == nullptr`, for the live thread `t` while `r` is running: `running` is cleared
when `t` is the running thread, the slot is emptied, the threads synced with `t` are
released and `t` leaves the ready list. -/
def terminateBody (M : Nat) (s : Scheduler) (r t : Nat) : Scheduler :=
  let s1 : Scheduler := if r = t then { s with running := none } else s
  let s2 : Scheduler := { s1 with threadArray := Function.update s1.threadArray t none }
  let s3 := unsync M s2 t
  removeFromReadyList s3 t

/-- `Scheduler::terminate`. -/
def Scheduler.terminate (M : Nat) (s : Scheduler) (tid : Int) : Outcome :=
  if tid < 0 ∨ tid ≥ M ∨ s.threadArray tid.toNat = none then Outcome.ret (-1) s
  else if tid.toNat = MAIN_THREAD_ID then Outcome.exit 0
  else
    match s.running with
    | none => Outcome.undefined
    | some r =>
      let s4 := terminateBody M s r tid.toNat
      if s4.running = none then
        match switchThread M (unblockTimerThreadSwitch s4) with
        | none => Outcome.undefined
        | some s5 => Outcome.noret s5
      else Outcome.ret 0 s4

/-- The statements of `Scheduler::block` that mark the thread `th` of slot `t` as
blocked and take it off the ready list. -/
def blockBody (s : Scheduler) (t : Nat) (th : Thread) : Scheduler :=
  let s1 : Scheduler :=
    { s with threadArray :=
        Function.update s.threadArray t (some { th with state := State.BLOCKED }) }
  removeFromReadyList s1 t

/-- `Scheduler::block`. -/
def Scheduler.block (M : Nat) (s : Scheduler) (tid : Int) : Outcome :=
  if tid < 0 ∨ tid ≥ M ∨ tid.toNat = MAIN_THREAD_ID ∨ s.threadArray tid.toNat = none then
    Outcome.ret (-1) s
  else
    match s.threadArray tid.toNat with
    | none => Outcome.ret (-1) s
    | some th =>
      if th.state = State.BLOCKED then Outcome.ret 0 s
      else
        let s2 := blockBody s tid.toNat th
        if s2.running = some th.id then
          match switchThread M (unblockTimerThreadSwitch s2) with
          | none => Outcome.undefined
          | some s3 => Outcome.ret 0 s3
        else Outcome.ret 0 s2

/-- The statements of `Scheduler::resume` after the validity check, for the thread
`thread` of slot `t`. -/
def resumeBody (s : Scheduler) (t : Nat) (thread : Thread) : Scheduler :=
  let s1 : Scheduler :=
    { s with threadArray :=
        Function.update s.threadArray t (some { thread with state := State.READY }) }
  if s1.numSyncedThreads t ≠ 0 then s1
  else if s1.readyList.any (fun b => b == t) then s1
  else { s1 with readyList := s1.readyList ++ [thread.id] }

/-- `Scheduler::resume`. -/
def Scheduler.resume (M : Nat) (s : Scheduler) (tid : Int) : Outcome :=
  if tid < 0 ∨ tid ≥ M ∨ s.threadArray tid.toNat = none then Outcome.ret (-1) s
  else
    match s.threadArray tid.toNat with
    | none => Outcome.ret (-1) s
    | some thread => Outcome.ret 0 (resumeBody s tid.toNat thread)

/-- The update of the sync arrays in `Scheduler::sync`: the running thread `r` waits
for `t`. -/
def syncBody (s : Scheduler) (t r : Nat) : Scheduler :=
  if s.syncMatrix t r ≠ 1 then
    { s with
      syncMatrix := setCell s.syncMatrix t r 1
      numSyncedThreads := Function.update s.numSyncedThreads r (s.numSyncedThreads r + 1) }
  else s

/-- `Scheduler::sync`. -/
def Scheduler.sync (M : Nat) (s : Scheduler) (tid : Int) : Outcome :=
  if tid < 0 ∨ tid ≥ M ∨ s.threadArray tid.toNat = none then Outcome.ret (-1) s
  else
    match s.running with
    | none => Outcome.undefined
    | some r =>
      if r = MAIN_THREAD_ID then Outcome.ret (-1) s
      else
        match switchThread M (unblockTimerThreadSwitch (syncBody s tid.toNat r)) with
        | none => Outcome.undefined
        | some s2 => Outcome.ret 0 s2

/-- Applies `f` to the bookkeeping of a returning outcome (the statements of a facade
function that follow the call into the scheduler). -/
def Outcome.andThen (o : Outcome) (f : Scheduler → Scheduler) : Outcome :=
  match o with
  | Outcome.ret v s => Outcome.ret v (f s)
  | other => other

/-- `uthread_init`. -/
def uthread_init (M : Nat) (s : Scheduler) (quantum_usecs : Int) : Outcome :=
  if quantum_usecs ≤ 0 then Outcome.ret (-1) s
  else
    let s1 := setQuantumLength s quantum_usecs
    let mainThread := Thread.new MAIN_THREAD_ID
    match Scheduler.add M s1 mainThread with
    | Outcome.ret _ s2 => Outcome.ret 0 s2
    | other => other

/-- `uthread_spawn`. -/
def uthread_spawn (M : Nat) (s : Scheduler) : Outcome :=
  let s1 := blockTimerThreadSwitch s
  let tid := Scheduler.id M s1
  if tid = -1 then Outcome.ret (-1) s1
  else
    let thread := Thread.new tid.toNat
    match Scheduler.add M s1 thread with
    | Outcome.ret _ s2 => Outcome.ret tid (unblockTimerThreadSwitch s2)
    | other => other

/-- `uthread_terminate`. -/
def uthread_terminate (M : Nat) (s : Scheduler) (tid : Int) : Outcome :=
  (Scheduler.terminate M (blockTimerThreadSwitch s) tid).andThen unblockTimerThreadSwitch

/-- `uthread_block`. -/
def uthread_block (M : Nat) (s : Scheduler) (tid : Int) : Outcome :=
  (Scheduler.block M (blockTimerThreadSwitch s) tid).andThen unblockTimerThreadSwitch

/-- `uthread_resume`. -/
def uthread_resume (M : Nat) (s : Scheduler) (tid : Int) : Outcome :=
  (Scheduler.resume M (blockTimerThreadSwitch s) tid).andThen unblockTimerThreadSwitch

/-- `uthread_sync`. -/
def uthread_sync (M : Nat) (s : Scheduler) (tid : Int) : Outcome :=
  (Scheduler.sync M (blockTimerThreadSwitch s) tid).andThen unblockTimerThreadSwitch

/-- `uthread_get_tid`: `running->id`. -/
def uthread_get_tid (s : Scheduler) : Option Int :=
  s.running.map (fun r => (r : Int))

/-- `uthread_get_total_quantums`. -/
def uthread_get_total_quantums (s : Scheduler) : Int := s.totalQuantums

/-- `uthread_get_quantums`. -/
def uthread_get_quantums (M : Nat) (s : Scheduler) (tid : Int) : Int :=
  Scheduler.quantums M s tid

/-- The calls a running thread can make after `uthread_init`, and the timer signal. -/
inductive Op where
  | spawn
  | terminate (tid : Int)
  | block (tid : Int)
  | resume (tid : Int)
  | sync (tid : Int)
  | timer
  deriving DecidableEq, Repr

/-- Delivery of `SIGVTALRM`: discarded while the signal is ignored, otherwise the
handler `switchThread` runs. -/
def timerSignal (M : Nat) (s : Scheduler) : Outcome :=
  if s.sigIgnored then Outcome.ret 0 s
  else
    match switchThread M s with
    | none => Outcome.undefined
    | some s1 => Outcome.ret 0 s1

/-- The outcome of one operation. -/
def applyOp (M : Nat) (s : Scheduler) : Op → Outcome
  | Op.spawn => uthread_spawn M s
  | Op.terminate tid => uthread_terminate M s tid
  | Op.block tid => uthread_block M s tid
  | Op.resume tid => uthread_resume M s tid
  | Op.sync tid => uthread_sync M s tid
  | Op.timer => timerSignal M s

/-- Runs a sequence of operations, each from the bookkeeping the previous one left. -/
def runOps (M : Nat) : Scheduler → List Op → Option Scheduler
  | s, [] => some s
  | s, op :: ops =>
    match (applyOp M s op).state? with
    | none => none
    | some s1 => runOps M s1 ops

/-- The bookkeeping after a successful `uthread_init(q)` on the fresh scheduler. -/
def initState (M : Nat) (q : Int) : Option Scheduler :=
  match uthread_init M Scheduler.fresh q with
  | Outcome.ret 0 s => some s
  | _ => none

/-- The states reached from a successful `uthread_init` by a finite sequence of calls
and timer signals (`MAX_THREAD_NUM` is at least one: slot `0` exists). -/
def Reachable (M : Nat) (s : Scheduler) : Prop :=
  0 < M ∧ ∃ (q : Int) (s0 : Scheduler) (ops : List Op),
    initState M q = some s0 ∧ runOps M s0 ops = some s

/-! ## Predicates used in the statements -/

/-- The number of rows `i < M` with `syncMatrix[i][j] != 0`. -/
def syncCount (M : Nat) (m : Nat → Nat → Nat) (j : Nat) : Nat :=
  ((Finset.range M).filter (fun i => m i j ≠ 0)).card

/-- The counter of `i` after the decrement in the loop body of `unsync`. -/
def decCounter (tid : Nat) (s : Scheduler) (i : Nat) : Int :=
  if s.syncMatrix tid i ≠ 0 then s.numSyncedThreads i - 1 else s.numSyncedThreads i

/-- Well-formedness of the bookkeeping. The id `x`, when there is one, is the thread
that `terminate` is removing: its ready-list entry and its sync column are exempt until
the removal is complete. -/
structure Wf (M : Nat) (x : Option Nat) (s : Scheduler) : Prop where
  slot : ∀ i th, s.threadArray i = some th → th.id = i ∧ i < M
  main : ∃ th, s.threadArray 0 = some th ∧ th.state ≠ State.BLOCKED
  main_sync : s.numSyncedThreads 0 = 0
  col0 : ∀ i, s.syncMatrix i 0 = 0
  bin : ∀ i j, s.syncMatrix i j ≤ 1
  ready : ∀ i ∈ s.readyList, some i ≠ x →
    ∃ th, s.threadArray i = some th ∧ th.state ≠ State.BLOCKED
  nodup : s.readyList.Nodup
  runState : ∀ i th, s.threadArray i = some th → th.state = State.RUNNING → s.running = some i
  runLive : ∀ r, s.running = some r → ∃ th, s.threadArray r = some th
  quant : ∀ i th, s.threadArray i = some th → (th.nQuantum : Int) ≤ s.totalQuantums
  total : s.totalQuantums ≤ INT_MAX
  counted : ∀ j, j < M → some j ≠ x → s.numSyncedThreads j = syncCount M s.syncMatrix j

/-- The invariant of the states between operations: well-formed bookkeeping and a
running thread that is live and not blocked. -/
def Inv (M : Nat) (s : Scheduler) : Prop :=
  Wf M none s ∧ ∃ r th, s.running = some r ∧ s.threadArray r = some th ∧ th.state ≠ State.BLOCKED

/-- The listed bookkeeping of two states agrees: slot table (hence every thread's state
and `nQuantum`), ready list, sync matrix, counters, running pointer, `totalQuantums`. -/
def SameBookkeeping (s t : Scheduler) : Prop :=
  t.threadArray = s.threadArray ∧ t.readyList = s.readyList ∧ t.syncMatrix = s.syncMatrix ∧
    t.numSyncedThreads = s.numSyncedThreads ∧ t.running = s.running ∧
    t.totalQuantums = s.totalQuantums

/-- The `nQuantum` of the thread in slot `i`, when the slot is occupied. -/
def nQuantumOf (s : Scheduler) (i : Nat) : Option Nat :=
  (s.threadArray i).map Thread.nQuantum

/-- The `state` of the thread in slot `i`, when the slot is occupied. -/
def stateOf (s : Scheduler) (i : Nat) : Option State :=
  (s.threadArray i).map Thread.state

/-- The run of `n` consecutive timer-driven switches (the handler `switchThread`). -/
def timerSwitches (M : Nat) : Nat → Scheduler → Option Scheduler
  | 0, s => some s
  | n + 1, s =>
    match switchThread M s with
    | none => none
    | some s1 => timerSwitches M n s1

/-- The sum of `nQuantum` over the live threads. -/
def sumQuantums (M : Nat) (s : Scheduler) : Int :=
  ∑ i in Finset.range M, (((nQuantumOf s i).getD 0 : Nat) : Int)

/-- An operation other than `terminate`. -/
def Op.isTerminate : Op → Bool
  | Op.terminate _ => true
  | _ => false

/-- The states reached from a successful `uthread_init` by operations none of which
is a `terminate` call. -/
def ReachableNoTerminate (M : Nat) (s : Scheduler) : Prop :=
  0 < M ∧ ∃ (q : Int) (s0 : Scheduler) (ops : List Op),
    initState M q = some s0 ∧ runOps M s0 ops = some s ∧ ∀ op ∈ ops, op.isTerminate = false

/-- The descriptor of slot `i` after a switch that dispatches `n`, given the descriptor
`th` before the switch and the outgoing thread `prev`. -/
def switchedThread (prev : Option Nat) (n i : Nat) (th : Thread) : Thread :=
  { id := th.id
    nQuantum := if i = n then (th.nQuantum + 1) % UINT_MOD else th.nQuantum
    state := if i = n then State.RUNNING
      else if prev = some i ∧ th.state ≠ State.BLOCKED then State.READY else th.state }

/-- The bookkeeping a switch leaves when it dispatches `n` and leaves `rest` in the
ready list. -/
def switchResult (M : Nat) (s : Scheduler) (n : Nat) (rest : List Nat) : Scheduler :=
  { threadArray := fun i => (s.threadArray i).map (switchedThread s.running n i)
    syncMatrix := (preSwitch M s).syncMatrix
    numSyncedThreads := (preSwitch M s).numSyncedThreads
    readyList := rest
    running := some n
    totalQuantums := s.totalQuantums + 1
    quantum_usecs := s.quantum_usecs
    sigIgnored := false }

/-- The bookkeeping of `Scheduler::add(mainThread)` on the fresh scheduler when
`switchThread` is called: slot `0` holds the main thread, marked `RUNNING`, which is also
in the ready list. -/
def bootState (q : Int) : Scheduler :=
  { threadArray := Function.update (fun _ => none) 0 (some ⟨0, 0, State.RUNNING⟩)
    syncMatrix := fun _ _ => 0
    numSyncedThreads := fun _ => 0
    readyList := [0]
    running := some 0
    totalQuantums := 0
    quantum_usecs := q
    sigIgnored := false }

/-- The run of `uthread_init(q)` on the fresh scheduler followed by the operations
`ops`. -/
def traceRun (M : Nat) (q : Int) (ops : List Op) : Option Scheduler :=
  match initState M q with
  | none => none
  | some s0 => runOps M s0 ops

/-- The bookkeeping after `uthread_init(q)` and the operations `ops` (the fresh
scheduler when the run is not defined). -/
def traceState (M : Nat) (q : Int) (ops : List Op) : Scheduler :=
  (traceRun M q ops).getD Scheduler.fresh

/-- The call returns `-1` and leaves the listed bookkeeping of `s` unchanged. -/
def FailsUnchanged (o : Outcome) (s : Scheduler) : Prop :=
  ∃ s1, o = Outcome.ret (-1) s1 ∧ SameBookkeeping s s1

/-- Whether the operation triggers a switch: a timer signal that is not ignored,
`terminate` or `block` of the running thread (other than the main thread), and a `sync`
call that does not fail. -/
def switches (M : Nat) (s : Scheduler) : Op → Bool
  | Op.timer => !s.sigIgnored
  | Op.terminate tid => decide (0 < tid ∧ s.running = some tid.toNat)
  | Op.block tid => decide (0 < tid ∧ s.running = some tid.toNat)
  | Op.sync tid =>
    decide (0 ≤ tid ∧ tid < M ∧ (s.threadArray tid.toNat).isSome = true ∧
      s.running ≠ some MAIN_THREAD_ID)
  | _ => false

/-- The step `op` from `s` to `s1` does not touch the quantum counter of slot `i`: a thread
that is live in `s` and is not the thread that `op` terminates is live in `s1` with the
`nQuantum` it had, and a slot that is empty in `s` stays empty or holds a new thread with
`nQuantum` 0. -/
def KeepsQuantum (s s1 : Scheduler) (op : Op) (i : Nat) : Prop :=
  (s.threadArray i ≠ none → op ≠ Op.terminate (i : Int) →
    s1.threadArray i ≠ none ∧ nQuantumOf s1 i = nQuantumOf s i) ∧
  (s.threadArray i = none → s1.threadArray i = none ∨ nQuantumOf s1 i = some 0)

/-- The step `op` from `s` to `s1` dispatches `n`: `n` is live in `s` and is the running
thread of `s1`, its `nQuantum` and `totalQuantums` are one larger, and the quantum counter
of every other slot is not touched. -/
def Dispatches (s s1 : Scheduler) (op : Op) (n : Nat) : Prop :=
  s1.running = some n ∧ s1.totalQuantums = s.totalQuantums + 1 ∧
  (∃ k, nQuantumOf s n = some k ∧ nQuantumOf s1 n = some (k + 1)) ∧
  ∀ i, i ≠ n → KeepsQuantum s s1 op i

/-- The step `op` from `s` to `s1` dispatches nothing: `totalQuantums` is the same and the
quantum counter of no slot is touched. -/
def Undisturbed (s s1 : Scheduler) (op : Op) : Prop :=
  s1.totalQuantums = s.totalQuantums ∧ ∀ i, KeepsQuantum s s1 op i

/-- How a step may change the `nQuantum` of slot `i` when it does not dispatch `i`: not
at all, or the slot is emptied by a `terminate`, or the slot was empty and holds a new
thread with `nQuantum` 0. -/
def QFrame (isTerm : Bool) (s s1 : Scheduler) (i : Nat) : Prop :=
  nQuantumOf s1 i = nQuantumOf s i ∨ (isTerm = true ∧ s1.threadArray i = none) ∨
    (s.threadArray i = none ∧ nQuantumOf s1 i = some 0)

/-- The effect of one step on the quantum counters: a switching operation dispatches one
thread, any other operation dispatches none. -/
def StepEffect (M : Nat) (s s1 : Scheduler) (op : Op) : Prop :=
  (switches M s op = true →
    ∃ n, n < M ∧ s1.running = some n ∧ s1.totalQuantums = s.totalQuantums + 1 ∧
      (∃ k, nQuantumOf s n = some k ∧ nQuantumOf s1 n = some (k + 1)) ∧
      ∀ i, i ≠ n → QFrame op.isTerminate s s1 i) ∧
  (switches M s op = false →
    s1.totalQuantums = s.totalQuantums ∧ ∀ i, QFrame op.isTerminate s s1 i)

/-- The state has exactly the live threads of `T`, three in number, none of them
blocked, and every counter of `numSyncedThreads` is zero. -/
def ThreeReady (M : Nat) (s : Scheduler) (T : Finset Nat) : Prop :=
  T.card = 3 ∧ (∀ i, s.threadArray i ≠ none ↔ i ∈ T) ∧
  (∀ i th, s.threadArray i = some th → th.state ≠ State.BLOCKED) ∧
  (∀ j, j < M → s.numSyncedThreads j = 0)

/-- The bookkeeping part of an operation, before the switch it may trigger: `w` is what
the statements of the operation make of `s` (apart from the disposition of `SIGVTALRM`).
`idle` covers the calls that fail, `block` of a blocked thread and the timer signal. -/
inductive Body (M : Nat) (s : Scheduler) : Op → Scheduler → Prop where
  | idle (op : Op) : Body M s op s
  | spawn (i : Nat) (hi : i ≠ 0) (hiM : i < M) (hn : s.threadArray i = none)
      (hmin : ∀ j, j < i → s.threadArray j ≠ none) :
      Body M s Op.spawn
        { s with
          threadArray := Function.update s.threadArray i (some (Thread.new i))
          readyList := s.readyList ++ [i] }
  | terminate (tid : Int) (r : Nat) (th : Thread) (h0 : tid.toNat ≠ 0) (hnn : 0 ≤ tid)
      (hth : s.threadArray tid.toNat = some th) (hr : s.running = some r) :
      Body M s (Op.terminate tid) (terminateBody M s r tid.toNat)
  | block (tid : Int) (th : Thread) (h0 : tid.toNat ≠ 0) (hnn : 0 ≤ tid)
      (hth : s.threadArray tid.toNat = some th) (hb : th.state ≠ State.BLOCKED) :
      Body M s (Op.block tid) (blockBody s tid.toNat th)
  | resume (tid : Int) (th : Thread) (hnn : 0 ≤ tid) (hth : s.threadArray tid.toNat = some th) :
      Body M s (Op.resume tid) (resumeBody s tid.toNat th)
  | sync (tid : Int) (r : Nat) (th : Thread) (hnn : 0 ≤ tid)
      (hth : s.threadArray tid.toNat = some th) (hr : s.running = some r)
      (hr0 : r ≠ MAIN_THREAD_ID) :
      Body M s (Op.sync tid) (syncBody s tid.toNat r)

/-- The bookkeeping on which `switchThread` can be called: it is well formed and, when the
running thread has just been terminated, the main thread is in the ready list. -/
def SwitchReady (M : Nat) (w : Scheduler) : Prop :=
  Wf M none w ∧ (w.running = none → 0 ∈ w.readyList)

/-- No runnable thread is off the ready list: a live thread with state `READY` and a zero
counter is in the ready list. -/
def NoStranded (s : Scheduler) : Prop :=
  ∀ i th, s.threadArray i = some th → th.state = State.READY → s.numSyncedThreads i = 0 →
    i ∈ s.readyList

/-- The diagonal of the sync matrix is zero. -/
def Diag (s : Scheduler) : Prop := ∀ i, s.syncMatrix i i = 0

/-- The diagonal of the sync matrix is zero except, possibly, at the running thread (the
state of `sync` between the update of the sync arrays and the switch). -/
def PreDiag (s : Scheduler) : Prop := ∀ i, s.running ≠ some i → s.syncMatrix i i = 0

/-- The bookkeeping of `Scheduler::terminate` when it calls `unsync(tid)`: `running` is
cleared when `t` is the running thread `r`, and the slot of `t` is empty. -/
def terminateCleared (s : Scheduler) (r t : Nat) : Scheduler :=
  let s1 : Scheduler := if r = t then { s with running := none } else s
  { s1 with threadArray := Function.update s1.threadArray t none }

/-- The invariant of the states between operations, extended: no runnable thread is off
the ready list and the diagonal of the sync matrix is zero. -/
def Inv2 (M : Nat) (s : Scheduler) : Prop :=
  Inv M s ∧ NoStranded s ∧ Diag s

/-- The calls of `unsync(target)` made from a reachable state `s`, with the bookkeeping
`u` on which the loop starts: by `switchThread` for the running thread (as the handler of
the timer signal, after `block` of the running thread, after the update of `sync`), and by
`terminate` for the thread it removes. -/
inductive UnsyncCall (M : Nat) : Scheduler → Nat → Prop where
  | timer (s : Scheduler) (r : Nat) (hr : Reachable M s) (hrun : s.running = some r) :
      UnsyncCall M (blockTimerThreadSwitch s) r
  | block (s : Scheduler) (t : Nat) (th : Thread) (hr : Reachable M s) (ht0 : t ≠ 0)
      (hth : s.threadArray t = some th) (hb : th.state ≠ State.BLOCKED)
      (hrun : s.running = some t) :
      UnsyncCall M (blockTimerThreadSwitch (unblockTimerThreadSwitch
        (blockBody (blockTimerThreadSwitch s) t th))) t
  | sync (s : Scheduler) (t r : Nat) (th : Thread) (hr : Reachable M s)
      (hth : s.threadArray t = some th) (hrun : s.running = some r)
      (hr0 : r ≠ MAIN_THREAD_ID) :
      UnsyncCall M (blockTimerThreadSwitch (unblockTimerThreadSwitch
        (syncBody (blockTimerThreadSwitch s) t r))) r
  | terminate (s : Scheduler) (t r : Nat) (th : Thread) (hr : Reachable M s) (ht0 : t ≠ 0)
      (hth : s.threadArray t = some th) (hrun : s.running = some r) :
      UnsyncCall M (terminateCleared (blockTimerThreadSwitch s) r t) t

/-- The number of iterations of the `do … while (next->state == BLOCKED)` loop of
`nextThread` on the deque (one `front()` and one `pop_front()` each); `none` when `front()`
is taken of an empty deque or a popped pointer has no descriptor. -/
def popIterations (ta : Nat → Option Thread) : List Nat → Option Nat
  | [] => none
  | next :: rest =>
    match ta next with
    | none => none
    | some th =>
      if th.state = State.BLOCKED then (popIterations ta rest).map (· + 1) else some 1

/-- The calls of `switchThread` made from the state `s`, with the bookkeeping `w` on which
the switcher starts: as the handler of the timer signal, by `terminate` of the running
thread `r`, by `block` of the running thread `r`, and by `sync(t)` of the running thread
`r`. -/
inductive SwitcherCall (M : Nat) (s : Scheduler) : Scheduler → Prop where
  | timer : SwitcherCall M s s
  | terminate (r : Nat) (hrun : s.running = some r) (hr0 : r ≠ MAIN_THREAD_ID) :
      SwitcherCall M s
        (unblockTimerThreadSwitch (terminateBody M (blockTimerThreadSwitch s) r r))
  | block (r : Nat) (th : Thread) (hrun : s.running = some r) (hr0 : r ≠ MAIN_THREAD_ID)
      (hth : s.threadArray r = some th) (hb : th.state ≠ State.BLOCKED) :
      SwitcherCall M s (unblockTimerThreadSwitch (blockBody (blockTimerThreadSwitch s) r th))
  | sync (t r : Nat) (th : Thread) (hth : s.threadArray t = some th)
      (hrun : s.running = some r) (hr0 : r ≠ MAIN_THREAD_ID) :
      SwitcherCall M s (unblockTimerThreadSwitch (syncBody (blockTimerThreadSwitch s) t r))

/-! ## Lemmas -/

theorem inReadyList_eq (s : Scheduler) (tid : Nat) :
    inReadyList s tid = decide (tid ∈ s.readyList) := by
  unfold inReadyList
  rw [Bool.eq_iff_iff]
  simp [List.any_eq_true]

theorem unsyncStep_threadArray (tid : Nat) (s : Scheduler) (i : Nat) :
    (unsyncStep tid s i).threadArray = s.threadArray := by
  unfold unsyncStep
  simp only []
  split_ifs <;> (try split) <;> (try split_ifs) <;> rfl

theorem unsyncStep_running (tid : Nat) (s : Scheduler) (i : Nat) :
    (unsyncStep tid s i).running = s.running := by
  unfold unsyncStep
  simp only []
  split_ifs <;> (try split) <;> (try split_ifs) <;> rfl

theorem unsyncStep_totalQuantums (tid : Nat) (s : Scheduler) (i : Nat) :
    (unsyncStep tid s i).totalQuantums = s.totalQuantums := by
  unfold unsyncStep
  simp only []
  split_ifs <;> (try split) <;> (try split_ifs) <;> rfl

theorem unsyncStep_sigIgnored (tid : Nat) (s : Scheduler) (i : Nat) :
    (unsyncStep tid s i).sigIgnored = s.sigIgnored := by
  unfold unsyncStep
  simp only []
  split_ifs <;> (try split) <;> (try split_ifs) <;> rfl

theorem unsyncStep_quantum_usecs (tid : Nat) (s : Scheduler) (i : Nat) :
    (unsyncStep tid s i).quantum_usecs = s.quantum_usecs := by
  unfold unsyncStep
  simp only []
  split_ifs <;> (try split) <;> (try split_ifs) <;> rfl

theorem unsyncStep_readyList (tid : Nat) (s : Scheduler) (i : Nat) :
    (unsyncStep tid s i).readyList =
      match s.threadArray i with
      | some th =>
        if decCounter tid s i = 0 ∧ th.state ≠ State.BLOCKED ∧ i ∉ s.readyList then
          s.readyList ++ [th.id]
        else s.readyList
      | none => s.readyList := by
  unfold unsyncStep decCounter
  simp only [inReadyList_eq]
  cases h : s.threadArray i with
  | none => simp only []; split_ifs <;> rfl
  | some th =>
    by_cases h1 : s.syncMatrix tid i = 0 <;> simp [h1] <;> split_ifs <;> simp_all

theorem unsyncStep_numSyncedThreads (tid : Nat) (s : Scheduler) (i : Nat) :
    (unsyncStep tid s i).numSyncedThreads =
      if s.threadArray tid = none then
        Function.update (Function.update s.numSyncedThreads i (decCounter tid s i)) tid 0
      else Function.update s.numSyncedThreads i (decCounter tid s i) := by
  unfold unsyncStep decCounter
  have e : ∀ (f : Nat → Int), Function.update f i (f i) = f := fun f => Function.update_eq_self i f
  cases h : s.threadArray i <;> by_cases h1 : s.syncMatrix tid i = 0 <;>
    by_cases h2 : s.threadArray tid = none <;> simp [h1, h2, e] <;> split_ifs <;> simp [h2]

theorem unsyncStep_syncMatrix (tid : Nat) (s : Scheduler) (i : Nat) :
    (unsyncStep tid s i).syncMatrix =
      if s.threadArray tid = none then setCell (setCell s.syncMatrix tid i 0) i tid 0
      else setCell s.syncMatrix tid i 0 := by
  unfold unsyncStep
  cases h : s.threadArray i <;> by_cases h1 : s.syncMatrix tid i = 0 <;>
    by_cases h2 : s.threadArray tid = none <;> simp [h1, h2] <;> split_ifs <;> simp [h2]

theorem setCell_apply (m : Nat → Nat → Nat) (a b v i j : Nat) :
    setCell m a b v i j = if i = a ∧ j = b then v else m i j := by
  unfold setCell
  by_cases h1 : i = a
  · subst h1
    by_cases h2 : j = b
    · subst h2; simp
    · simp [h2]
  · simp [h1]

theorem syncCount_congr (M : Nat) (m m' : Nat → Nat → Nat) (j : Nat)
    (h : ∀ i, i < M → m' i j = m i j) : syncCount M m' j = syncCount M m j := by
  unfold syncCount
  congr 1
  apply Finset.filter_congr
  intro i hi
  rw [h i (Finset.mem_range.mp hi)]

theorem syncCount_setCell_other (M : Nat) (m : Nat → Nat → Nat) (a b v j : Nat) (h : j ≠ b) :
    syncCount M (setCell m a b v) j = syncCount M m j := by
  apply syncCount_congr
  intro i _
  simp [setCell_apply, h]

theorem syncCount_clear (M : Nat) (m : Nat → Nat → Nat) (a b : Nat) (ha : a < M)
    (h : m a b ≠ 0) : (syncCount M (setCell m a b 0) b : Int) = syncCount M m b - 1 := by
  unfold syncCount
  have e : (Finset.range M).filter (fun i => setCell m a b 0 i b ≠ 0)
      = ((Finset.range M).filter (fun i => m i b ≠ 0)).erase a := by
    ext i
    simp only [Finset.mem_filter, Finset.mem_range, Finset.mem_erase, setCell_apply]
    by_cases hia : i = a
    · subst hia; simp
    · simp [hia]
  rw [e, Finset.card_erase_of_mem (by simp [ha, h])]
  have : 0 < ((Finset.range M).filter (fun i => m i b ≠ 0)).card :=
    Finset.card_pos.mpr ⟨a, by simp [ha, h]⟩
  omega

theorem syncCount_clear_zero (M : Nat) (m : Nat → Nat → Nat) (a b : Nat)
    (h : m a b = 0) : syncCount M (setCell m a b 0) b = syncCount M m b := by
  apply syncCount_congr
  intro i _
  simp only [setCell_apply]
  split_ifs with h1
  · rw [h1.1, h]
  · rfl

theorem syncCount_set (M : Nat) (m : Nat → Nat → Nat) (a b : Nat) (ha : a < M)
    (h : m a b = 0) : syncCount M (setCell m a b 1) b = syncCount M m b + 1 := by
  unfold syncCount
  have e : (Finset.range M).filter (fun i => setCell m a b 1 i b ≠ 0)
      = insert a ((Finset.range M).filter (fun i => m i b ≠ 0)) := by
    ext i
    simp only [Finset.mem_filter, Finset.mem_range, Finset.mem_insert, setCell_apply]
    by_cases hia : i = a
    · subst hia; simp [ha]
    · simp [hia]
  rw [e, Finset.card_insert_of_not_mem (by simp [h])]

theorem unsyncStep_wf (M : Nat) (x : Option Nat) (tid : Nat) (s : Scheduler) (i : Nat)
    (htid : tid < M) (hx : s.threadArray tid = none → x = some tid) (h : Wf M x s) :
    Wf M x (unsyncStep tid s i) := by
  have hdec0 : decCounter tid s 0 = 0 := by
    unfold decCounter; simp [h.col0, h.main_sync]
  refine ⟨?_, ?_, ?_, ?_, ?_, ?_, ?_, ?_, ?_, ?_, ?_, ?_⟩
  · simpa [unsyncStep_threadArray] using h.slot
  · simpa [unsyncStep_threadArray] using h.main
  · rw [unsyncStep_numSyncedThreads]
    split_ifs
    · by_cases h0 : (0:Nat) = tid
      · subst h0; simp
      · by_cases h1 : (0:Nat) = i
        · subst h1; simp [Function.update_noteq h0, hdec0]
        · simp [Function.update_noteq h0, Function.update_noteq h1, h.main_sync]
    · by_cases h1 : (0:Nat) = i
      · subst h1; simp [hdec0]
      · simp [Function.update_noteq h1, h.main_sync]
  · intro k
    rw [unsyncStep_syncMatrix]
    split_ifs <;> simp only [setCell_apply] <;> split_ifs <;> simp [h.col0]
  · intro k j
    rw [unsyncStep_syncMatrix]
    split_ifs <;> simp only [setCell_apply] <;> split_ifs <;> simp [h.bin]
  · intro k hk hkx
    rw [unsyncStep_threadArray]
    rw [unsyncStep_readyList] at hk
    cases hi : s.threadArray i with
    | none => rw [hi] at hk; exact h.ready k hk hkx
    | some th =>
      rw [hi] at hk
      simp only [] at hk
      split_ifs at hk with hc
      · rcases List.mem_append.mp hk with hk | hk
        · exact h.ready k hk hkx
        · simp only [List.mem_singleton] at hk
          rw [hk, (h.slot i th hi).1]
          exact ⟨th, hi, hc.2.1⟩
      · exact h.ready k hk hkx
  · rw [unsyncStep_readyList]
    cases hi : s.threadArray i with
    | none => exact h.nodup
    | some th =>
      simp only []
      split_ifs with hc
      · rw [(h.slot i th hi).1]
        exact List.Nodup.append h.nodup (List.nodup_singleton i) (by simpa using hc.2.2)
      · exact h.nodup
  · simpa [unsyncStep_threadArray, unsyncStep_running] using h.runState
  · simpa [unsyncStep_threadArray, unsyncStep_running] using h.runLive
  · simpa [unsyncStep_threadArray, unsyncStep_totalQuantums] using h.quant
  · simpa [unsyncStep_totalQuantums] using h.total
  · intro j hj hjx
    have hcol : syncCount M (unsyncStep tid s i).syncMatrix j
        = syncCount M (setCell s.syncMatrix tid i 0) j := by
      rw [unsyncStep_syncMatrix]
      split_ifs with hn
      · apply syncCount_setCell_other
        intro e
        exact hjx (by rw [hx hn, e])
      · rfl
    have hnum : (unsyncStep tid s i).numSyncedThreads j
        = Function.update s.numSyncedThreads i (decCounter tid s i) j := by
      rw [unsyncStep_numSyncedThreads]
      split_ifs with hn
      · have : j ≠ tid := fun e => hjx (by rw [hx hn, e])
        simp [Function.update_noteq this]
      · rfl
    rw [hcol, hnum]
    by_cases hji : j = i
    · subst hji
      simp only [Function.update_same]
      unfold decCounter
      by_cases hz : s.syncMatrix tid j = 0
      · simp [hz, syncCount_clear_zero M _ _ _ hz, h.counted j hj hjx]
      · simp [hz, syncCount_clear M _ _ _ htid hz, h.counted j hj hjx]
    · rw [Function.update_noteq hji, syncCount_setCell_other M _ _ _ _ _ hji]
      exact h.counted j hj hjx

theorem range_foldl_induct {α : Type} (P : Nat → α → Prop) (f : α → Nat → α) (M : Nat) (a : α)
    (h0 : P 0 a) (hstep : ∀ k b, k < M → P k b → P (k + 1) (f b k)) :
    P M ((List.range M).foldl f a) := by
  induction M with
  | zero => simpa using h0
  | succ n ih =>
    rw [List.range_succ, List.foldl_append]
    simp only [List.foldl_cons, List.foldl_nil]
    apply hstep n _ (Nat.lt_succ_self n)
    apply ih
    intro k b hk hp
    exact hstep k b (Nat.lt_succ_of_lt hk) hp

theorem unsync_threadArray (M : Nat) (s : Scheduler) (tid : Nat) :
    (unsync M s tid).threadArray = s.threadArray := by
  unfold unsync
  refine range_foldl_induct (fun _ (b : Scheduler) => b.threadArray = s.threadArray) (unsyncStep tid) M s ?_ ?_
  · rfl
  · intro k b _ hb; rw [unsyncStep_threadArray, hb]

theorem unsync_running (M : Nat) (s : Scheduler) (tid : Nat) :
    (unsync M s tid).running = s.running := by
  unfold unsync
  refine range_foldl_induct (fun _ (b : Scheduler) => b.running = s.running) (unsyncStep tid) M s ?_ ?_
  · rfl
  · intro k b _ hb; rw [unsyncStep_running, hb]

theorem unsync_totalQuantums (M : Nat) (s : Scheduler) (tid : Nat) :
    (unsync M s tid).totalQuantums = s.totalQuantums := by
  unfold unsync
  refine range_foldl_induct (fun _ (b : Scheduler) => b.totalQuantums = s.totalQuantums) (unsyncStep tid) M s ?_ ?_
  · rfl
  · intro k b _ hb; rw [unsyncStep_totalQuantums, hb]

theorem unsync_sigIgnored (M : Nat) (s : Scheduler) (tid : Nat) :
    (unsync M s tid).sigIgnored = s.sigIgnored := by
  unfold unsync
  refine range_foldl_induct (fun _ (b : Scheduler) => b.sigIgnored = s.sigIgnored) (unsyncStep tid) M s ?_ ?_
  · rfl
  · intro k b _ hb; rw [unsyncStep_sigIgnored, hb]

theorem unsync_quantum_usecs (M : Nat) (s : Scheduler) (tid : Nat) :
    (unsync M s tid).quantum_usecs = s.quantum_usecs := by
  unfold unsync
  refine range_foldl_induct (fun _ (b : Scheduler) => b.quantum_usecs = s.quantum_usecs) (unsyncStep tid) M s ?_ ?_
  · rfl
  · intro k b _ hb; rw [unsyncStep_quantum_usecs, hb]

theorem unsync_wf (M : Nat) (x : Option Nat) (tid : Nat) (s : Scheduler)
    (htid : tid < M) (hx : s.threadArray tid = none → x = some tid) (h : Wf M x s) :
    Wf M x (unsync M s tid) := by
  unfold unsync
  refine (range_foldl_induct (fun _ (b : Scheduler) => b.threadArray = s.threadArray ∧ Wf M x b)
    (unsyncStep tid) M s ⟨rfl, h⟩ ?_).2
  intro k b _ hb
  refine ⟨by rw [unsyncStep_threadArray, hb.1], ?_⟩
  exact unsyncStep_wf M x tid b k htid (by rw [hb.1]; exact hx) hb.2

theorem unsyncStep_prefix (tid : Nat) (s : Scheduler) (i : Nat) :
    ∃ extra, (unsyncStep tid s i).readyList = s.readyList ++ extra := by
  rw [unsyncStep_readyList]
  cases s.threadArray i with
  | none => exact ⟨[], by simp⟩
  | some th =>
    simp only []
    split_ifs
    · exact ⟨[th.id], rfl⟩
    · exact ⟨[], by simp⟩

theorem unsync_prefix (M : Nat) (s : Scheduler) (tid : Nat) :
    ∃ extra, (unsync M s tid).readyList = s.readyList ++ extra := by
  unfold unsync
  refine range_foldl_induct (fun _ (b : Scheduler) => ∃ extra, b.readyList = s.readyList ++ extra) (unsyncStep tid) M s ?_ ?_
  · exact ⟨[], by simp⟩
  · intro k b _ hb
    obtain ⟨e1, h1⟩ := hb
    obtain ⟨e2, h2⟩ := unsyncStep_prefix tid b k
    exact ⟨e1 ++ e2, by rw [h2, h1, List.append_assoc]⟩

theorem unsync_mem_mono (M : Nat) (s : Scheduler) (tid j : Nat) (h : j ∈ s.readyList) :
    j ∈ (unsync M s tid).readyList := by
  obtain ⟨e, he⟩ := unsync_prefix M s tid
  rw [he]; exact List.mem_append_left _ h

/-- After the loop of `unsync`, every live thread that is not blocked and whose counter
is zero is in the ready list. -/
theorem unsync_complete (M : Nat) (x : Option Nat) (tid : Nat) (s : Scheduler)
    (htid : tid < M) (hx : s.threadArray tid = none → x = some tid) (h : Wf M x s) :
    ∀ i th, s.threadArray i = some th → th.state ≠ State.BLOCKED →
      (unsync M s tid).numSyncedThreads i = 0 → i ∈ (unsync M s tid).readyList := by
  have key := range_foldl_induct
    (fun k (b : Scheduler) => b.threadArray = s.threadArray ∧ Wf M x b ∧
      (∀ i th, i < k → s.threadArray i = some th → th.state ≠ State.BLOCKED →
        b.numSyncedThreads i = 0 → i ∈ b.readyList))
    (unsyncStep tid) M s ⟨rfl, h, fun i th hi => absurd hi (Nat.not_lt_zero i)⟩ ?_
  · intro i th hi hb hz
    exact key.2.2 i th (h.slot i th hi).2 hi hb hz
  · intro k b _ hb
    obtain ⟨hta, hw, hc⟩ := hb
    refine ⟨by rw [unsyncStep_threadArray, hta],
      unsyncStep_wf M x tid b k htid (by rw [hta]; exact hx) hw, ?_⟩
    intro i th hi hlive hnb hz
    have hitid : s.threadArray tid = none → i ≠ tid := by
      intro hn e; subst e; rw [hn] at hlive; exact absurd hlive (by simp)
    rw [unsyncStep_numSyncedThreads, hta] at hz
    have hz' : Function.update b.numSyncedThreads k (decCounter tid b k) i = 0 := by
      split_ifs at hz with hn
      · rwa [Function.update_noteq (hitid hn)] at hz
      · exact hz
    rw [unsyncStep_readyList]
    by_cases hik : i = k
    · subst hik
      rw [Function.update_same] at hz'
      rw [hta, hlive]
      simp only []
      split_ifs with hc
      · rw [(h.slot i th hlive).1]; simp
      · by_contra hni
        exact hc ⟨hz', hnb, fun hm => hni hm⟩
    · rw [Function.update_noteq hik] at hz'
      have hmem := hc i th (by omega) hlive hnb hz'
      cases b.threadArray k with
      | none => exact hmem
      | some th' =>
        simp only []
        split_ifs
        · exact List.mem_append_left _ hmem
        · exact hmem

theorem preSwitch_threadArray (M : Nat) (s : Scheduler) :
    (preSwitch M s).threadArray = s.threadArray := by
  unfold preSwitch
  cases s.running with
  | none => rfl
  | some r => simp only []; rw [unsync_threadArray]; rfl

theorem preSwitch_running (M : Nat) (s : Scheduler) :
    (preSwitch M s).running = s.running := by
  unfold preSwitch
  cases h : s.running with
  | none => simpa [blockTimerThreadSwitch] using h
  | some r => simp only []; rw [unsync_running]; simpa [blockTimerThreadSwitch] using h

theorem preSwitch_totalQuantums (M : Nat) (s : Scheduler) :
    (preSwitch M s).totalQuantums = s.totalQuantums := by
  unfold preSwitch
  cases s.running with
  | none => rfl
  | some r => simp only []; rw [unsync_totalQuantums]; rfl

theorem preSwitch_quantum_usecs (M : Nat) (s : Scheduler) :
    (preSwitch M s).quantum_usecs = s.quantum_usecs := by
  unfold preSwitch
  cases s.running with
  | none => rfl
  | some r => simp only []; rw [unsync_quantum_usecs]; rfl

theorem wf_blockTimer (M : Nat) (x : Option Nat) (s : Scheduler) (h : Wf M x s) :
    Wf M x (blockTimerThreadSwitch s) :=
  ⟨h.slot, h.main, h.main_sync, h.col0, h.bin, h.ready, h.nodup, h.runState, h.runLive,
    h.quant, h.total, h.counted⟩

theorem wf_unblockTimer (M : Nat) (x : Option Nat) (s : Scheduler) (h : Wf M x s) :
    Wf M x (unblockTimerThreadSwitch s) :=
  ⟨h.slot, h.main, h.main_sync, h.col0, h.bin, h.ready, h.nodup, h.runState, h.runLive,
    h.quant, h.total, h.counted⟩

theorem preSwitch_wf (M : Nat) (s : Scheduler) (h : Wf M none s) : Wf M none (preSwitch M s) := by
  unfold preSwitch
  cases hr : s.running with
  | none => exact wf_blockTimer M none s h
  | some r =>
    simp only []
    obtain ⟨th, hth⟩ := h.runLive r hr
    apply unsync_wf M none r _ (h.slot r th hth).2 _ (wf_blockTimer M none s h)
    intro hn
    have : s.threadArray r = none := hn
    rw [hth] at this; exact absurd this (by simp)

theorem preSwitch_main_mem (M : Nat) (s : Scheduler) (h : Wf M none s)
    (hrun : s.running = none → 0 ∈ s.readyList) : 0 ∈ (preSwitch M s).readyList := by
  have hw := preSwitch_wf M s h
  unfold preSwitch at hw ⊢
  cases hr : s.running with
  | none => exact hrun hr
  | some r =>
    rw [hr] at hw
    simp only [] at hw ⊢
    obtain ⟨th, hth⟩ := h.runLive r hr
    obtain ⟨t0, ht0, hnb⟩ := h.main
    apply unsync_complete M none r _ (h.slot r th hth).2 _ (wf_blockTimer M none s h) 0 t0 ht0 hnb
      hw.main_sync
    intro hn
    have : s.threadArray r = none := hn
    rw [hth] at this; exact absurd this (by simp)

theorem popLoop_head (ta : Nat → Option Thread) (n : Nat) (rest : List Nat) (th : Thread)
    (h : ta n = some th) (hnb : th.state ≠ State.BLOCKED) :
    popLoop ta (n :: rest) = some (n, rest) := by
  simp [popLoop, h, hnb]

/-- The form of the result of `switchThread` on well-formed bookkeeping. -/
theorem switchThread_spec (M : Nat) (s : Scheduler) (h : Wf M none s)
    (hrun : s.running = none → 0 ∈ s.readyList) :
    ∃ n rest thn, (preSwitch M s).readyList = n :: rest ∧ s.threadArray n = some thn ∧
      thn.state ≠ State.BLOCKED ∧
      switchThread M s =
        if s.totalQuantums ≥ INT_MAX then none
        else some (switchResult M s n rest) := by
  have hw := preSwitch_wf M s h
  have hmem := preSwitch_main_mem M s h hrun
  have hta := preSwitch_threadArray M s
  have htot := preSwitch_totalQuantums M s
  have hq := preSwitch_quantum_usecs M s
  cases hl : (preSwitch M s).readyList with
  | nil => rw [hl] at hmem; exact absurd hmem (by simp)
  | cons n rest =>
    obtain ⟨thn, hthn, hnb⟩ := hw.ready n (by rw [hl]; simp) (by simp)
    rw [hta] at hthn
    refine ⟨n, rest, thn, rfl, hthn, hnb, ?_⟩
    have hnext : nextThread (preSwitch M s)
        = some (some n, { preSwitch M s with readyList := rest }) := by
      unfold nextThread
      rw [hl, hta, popLoop_head s.threadArray n rest thn hthn hnb]
      simp [hta]
    unfold switchThread switchResult
    simp only [hnext]
    cases hr : s.running with
    | none =>
      simp only [hta, hthn, htot, hq, unblockTimerThreadSwitch]
      split_ifs
      · rfl
      · congr 2
        funext i
        by_cases hi : i = n
        · subst hi; simp [hthn, switchedThread]
        · rw [Function.update_noteq hi]
          cases hti : s.threadArray i with
          | none => rfl
          | some th => simp [switchedThread, hi]
    | some p =>
      obtain ⟨thp, hthp⟩ := h.runLive p hr
      simp only [hta, hthp]
      by_cases hb : thp.state = State.BLOCKED
      · have hpn : p ≠ n := by
          intro e; subst e; rw [hthn] at hthp; cases hthp; exact hnb hb
        simp only [hb, ne_eq, not_true_eq_false, if_false, hthn, htot, hq, hta,
          unblockTimerThreadSwitch]
        split_ifs
        · rfl
        · congr 2
          funext i
          by_cases hi : i = n
          · subst hi; simp [hthn, switchedThread]
          · rw [Function.update_noteq hi]
            cases hti : s.threadArray i with
            | none => rfl
            | some th =>
              simp only [Option.map_some', switchedThread, hi, if_false]
              by_cases hip : i = p
              · subst hip; rw [hthp] at hti; cases hti
                cases thp; simp only [] at hb; simp [hb]
              · have : ¬ (some p = some i) := by simpa using fun e => hip e.symm
                simp [this]
      · simp only [hb, ne_eq, not_false_eq_true, if_true, htot, hq, hta, unblockTimerThreadSwitch]
        by_cases hpn : p = n
        · subst hpn
          rw [hthn] at hthp; cases hthp
          simp only [Function.update_same, Function.update_idem]
          split_ifs
          · rfl
          · congr 2
            funext i
            by_cases hi : i = p
            · subst hi; simp [hthn, switchedThread]
            · rw [Function.update_noteq hi]
              cases hti : s.threadArray i with
              | none => rfl
              | some th =>
                have : ¬ (some p = some i) := by simpa using fun e => hi e.symm
                simp [switchedThread, hi, this]
        · have hnp : n ≠ p := fun e => hpn e.symm
          simp only [Function.update_noteq hnp, hthn]
          split_ifs
          · rfl
          · congr 2
            funext i
            by_cases hi : i = n
            · subst hi; simp [hthn, switchedThread]
            · rw [Function.update_noteq hi]
              by_cases hip : i = p
              · subst hip
                simp [hthp, switchedThread, hi, hb]
              · rw [Function.update_noteq hip]
                cases hti : s.threadArray i with
                | none => rfl
                | some th =>
                  have : ¬ (some p = some i) := by simpa using fun e => hip e.symm
                  simp [switchedThread, hi, this]

theorem switchedThread_not_blocked (prev : Option Nat) (n i : Nat) (th : Thread)
    (h : th.state ≠ State.BLOCKED) : (switchedThread prev n i th).state ≠ State.BLOCKED := by
  unfold switchedThread
  simp only []
  split_ifs <;> simp [h]

theorem switchResult_inv (M : Nat) (s : Scheduler) (h : Wf M none s) (n : Nat) (rest : List Nat)
    (thn : Thread) (hl : (preSwitch M s).readyList = n :: rest) (hthn : s.threadArray n = some thn)
    (htot : s.totalQuantums < INT_MAX) :
    Inv M (switchResult M s n rest) := by
  have hw := preSwitch_wf M s h
  have hta := preSwitch_threadArray M s
  have hnd : (n :: rest).Nodup := hl ▸ hw.nodup
  refine ⟨⟨?_, ?_, hw.main_sync, hw.col0, hw.bin, ?_, ?_, ?_, ?_, ?_, ?_, hw.counted⟩, ?_⟩
  · intro i th hi
    simp only [switchResult] at hi
    cases hti : s.threadArray i with
    | none => rw [hti] at hi; simp at hi
    | some t0 =>
      rw [hti] at hi
      simp only [Option.map_some', Option.some.injEq] at hi
      rw [← hi]
      exact h.slot i t0 hti
  · obtain ⟨t0, ht0, hb0⟩ := h.main
    exact ⟨switchedThread s.running n 0 t0, by simp [switchResult, ht0],
      switchedThread_not_blocked _ _ _ _ hb0⟩
  · intro i hi _
    have him : i ∈ (preSwitch M s).readyList := by
      rw [hl]; exact List.mem_cons_of_mem _ hi
    obtain ⟨t0, ht0, hb0⟩ := hw.ready i him (by simp)
    rw [hta] at ht0
    exact ⟨switchedThread s.running n i t0, by simp [switchResult, ht0],
      switchedThread_not_blocked _ _ _ _ hb0⟩
  · exact (List.nodup_cons.mp hnd).2
  · intro i th hi hrs
    simp only [switchResult] at hi ⊢
    cases hti : s.threadArray i with
    | none => rw [hti] at hi; simp at hi
    | some t0 =>
      rw [hti] at hi
      simp only [Option.map_some', Option.some.injEq] at hi
      rw [← hi] at hrs
      by_cases hin : i = n
      · rw [hin]
      · exfalso
        simp only [switchedThread, hin, if_false] at hrs
        split_ifs at hrs with hc
        · exact hc (by
            constructor
            · exact h.runState i t0 hti hrs
            · rw [hrs]; simp)
  · intro r hr
    simp only [switchResult, Option.some.injEq] at hr ⊢
    subst hr
    simp [hthn]
  · intro i th hi
    simp only [switchResult] at hi ⊢
    cases hti : s.threadArray i with
    | none => rw [hti] at hi; simp at hi
    | some t0 =>
      rw [hti] at hi
      simp only [Option.map_some', Option.some.injEq] at hi
      rw [← hi]
      have hq := h.quant i t0 hti
      simp only [switchedThread]
      split_ifs
      · have : (t0.nQuantum + 1) % UINT_MOD ≤ t0.nQuantum + 1 := Nat.mod_le _ _
        omega
      · omega
  · simp only [switchResult]; omega
  · exact ⟨n, switchedThread s.running n n thn, rfl, by simp [switchResult, hthn],
      by simp [switchedThread]⟩

/-- A defined switch on well-formed bookkeeping is the dispatch of the front of the
ready list as the waiters were released; it re-establishes the invariant. -/
theorem switchThread_some (M : Nat) (s s1 : Scheduler) (h : Wf M none s)
    (hrun : s.running = none → 0 ∈ s.readyList) (hs : switchThread M s = some s1) :
    ∃ n rest thn, (preSwitch M s).readyList = n :: rest ∧ s.threadArray n = some thn ∧
      thn.state ≠ State.BLOCKED ∧ s.totalQuantums < INT_MAX ∧ s1 = switchResult M s n rest ∧
      Inv M s1 := by
  obtain ⟨n, rest, thn, hl, hthn, hnb, he⟩ := switchThread_spec M s h hrun
  rw [hs] at he
  split_ifs at he with hge
  have hlt : s.totalQuantums < INT_MAX := lt_of_not_ge hge
  have e : s1 = switchResult M s n rest := by simpa using he
  exact ⟨n, rest, thn, hl, hthn, hnb, hlt, e, e ▸ switchResult_inv M s h n rest thn hl hthn hlt⟩

/-- A switch on well-formed bookkeeping is defined unless `totalQuantums` overflows. -/
theorem switchThread_defined (M : Nat) (s : Scheduler) (h : Wf M none s)
    (hrun : s.running = none → 0 ∈ s.readyList) (htot : s.totalQuantums < INT_MAX) :
    ∃ s1, switchThread M s = some s1 := by
  obtain ⟨n, rest, thn, hl, hthn, hnb, he⟩ := switchThread_spec M s h hrun
  rw [he]
  split_ifs with hge
  · exact absurd htot (not_lt_of_ge hge)
  · exact ⟨_, rfl⟩

theorem find_range_some (p : Nat → Bool) (M i : Nat) (h : (List.range M).find? p = some i) :
    i < M ∧ p i = true ∧ ∀ j, j < i → p j = false := by
  induction M with
  | zero => simp at h
  | succ n ih =>
    rw [List.range_succ, List.find?_append] at h
    cases hf : (List.range n).find? p with
    | some k =>
      rw [hf] at h
      simp only [Option.or_some, Option.some.injEq] at h
      subst h
      obtain ⟨h1, h2, h3⟩ := ih hf
      exact ⟨Nat.lt_succ_of_lt h1, h2, h3⟩
    | none =>
      rw [hf] at h
      simp only [Option.none_or, List.find?_cons, List.find?_nil] at h
      have hall : ∀ j, j < n → p j = false := by
        intro j hj
        have := List.find?_eq_none.mp hf j (List.mem_range.mpr hj)
        simpa using this
      cases hpn : p n with
      | false => rw [hpn] at h; simp at h
      | true =>
        rw [hpn] at h
        simp only [Option.some.injEq] at h
        subst h
        exact ⟨Nat.lt_succ_self _, hpn, hall⟩

theorem find_range_none (p : Nat → Bool) (M : Nat) (h : (List.range M).find? p = none) :
    ∀ j, j < M → p j = false := by
  intro j hj
  have := List.find?_eq_none.mp h j (List.mem_range.mpr hj)
  simpa using this

/-- `Scheduler::id` returns the smallest index of an empty slot, `-1` when there is none. -/
theorem id_spec (M : Nat) (s : Scheduler) :
    (∃ i : Nat, Scheduler.id M s = (i : Int) ∧ i < M ∧ s.threadArray i = none ∧
        ∀ j, j < i → s.threadArray j ≠ none) ∨
    (Scheduler.id M s = -1 ∧ ∀ j, j < M → s.threadArray j ≠ none) := by
  unfold Scheduler.id
  cases hf : (List.range M).find? (fun i => (s.threadArray i).isNone) with
  | some i =>
    left
    obtain ⟨h1, h2, h3⟩ := find_range_some _ M i hf
    refine ⟨i, rfl, h1, by simpa using h2, ?_⟩
    intro j hj hn
    have := h3 j hj
    simp [hn] at this
  | none =>
    right
    refine ⟨rfl, ?_⟩
    intro j hj hn
    have := find_range_none _ M hf j hj
    simp [hn] at this

/-- The bookkeeping after a successful `uthread_spawn` that allocates slot `i`. -/
theorem spawn_spec (M : Nat) (s : Scheduler) (i : Nat) (hid : Scheduler.id M s = (i : Int))
    (hi : i ≠ 0) :
    uthread_spawn M s = Outcome.ret i
      { s with
        threadArray := Function.update s.threadArray i (some (Thread.new i))
        readyList := s.readyList ++ [i]
        sigIgnored := false } := by
  have hid' : Scheduler.id M (blockTimerThreadSwitch s) = (i : Int) := hid
  unfold uthread_spawn
  simp only [hid']
  have : ¬ ((i : Int) = -1) := by omega
  simp [this, Scheduler.add, Thread.new, MAIN_THREAD_ID, hi, unblockTimerThreadSwitch,
    blockTimerThreadSwitch]

theorem spawn_full (M : Nat) (s : Scheduler) (hid : Scheduler.id M s = -1) :
    uthread_spawn M s = Outcome.ret (-1) (blockTimerThreadSwitch s) := by
  have hid' : Scheduler.id M (blockTimerThreadSwitch s) = -1 := hid
  unfold uthread_spawn
  simp [hid']

theorem inv_pos (M : Nat) (s : Scheduler) (h : Inv M s) : 0 < M := by
  obtain ⟨th, h0, _⟩ := h.1.main
  exact (h.1.slot 0 th h0).2

theorem wf_total_nonneg (M : Nat) (x : Option Nat) (s : Scheduler) (h : Wf M x s) :
    0 ≤ s.totalQuantums := by
  obtain ⟨th, h0, _⟩ := h.main
  have := h.quant 0 th h0
  omega

theorem spawn_inv (M : Nat) (s : Scheduler) (h : Inv M s) (i : Nat) (hi : i ≠ 0) (hiM : i < M)
    (hn : s.threadArray i = none) :
    Inv M { s with
        threadArray := Function.update s.threadArray i (some (Thread.new i))
        readyList := s.readyList ++ [i]
        sigIgnored := false } := by
  obtain ⟨hw, r, thr, hr, hthr, hrb⟩ := h
  have hnotin : i ∉ s.readyList := by
    intro hm
    obtain ⟨th, hth, _⟩ := hw.ready i hm (by simp)
    rw [hn] at hth; simp at hth
  have upd : ∀ k th, Function.update s.threadArray i (some (Thread.new i)) k = some th →
      (k = i ∧ th = Thread.new i) ∨ (k ≠ i ∧ s.threadArray k = some th) := by
    intro k th hk
    by_cases hki : k = i
    · subst hki; simp at hk; exact Or.inl ⟨rfl, hk.symm⟩
    · rw [Function.update_noteq hki] at hk; exact Or.inr ⟨hki, hk⟩
  have keep : ∀ k th, s.threadArray k = some th →
      Function.update s.threadArray i (some (Thread.new i)) k = some th := by
    intro k th hk
    have : k ≠ i := by intro e; subst e; rw [hn] at hk; simp at hk
    rw [Function.update_noteq this]; exact hk
  refine ⟨⟨?_, ?_, hw.main_sync, hw.col0, hw.bin, ?_, ?_, ?_, ?_, ?_, hw.total, hw.counted⟩, ?_⟩
  · intro k th hk
    rcases upd k th hk with ⟨e1, e2⟩ | ⟨_, e2⟩
    · subst e1 e2; exact ⟨rfl, hiM⟩
    · exact hw.slot k th e2
  · obtain ⟨t0, ht0, hb0⟩ := hw.main
    exact ⟨t0, keep 0 t0 ht0, hb0⟩
  · intro k hk _
    rcases List.mem_append.mp hk with hk | hk
    · obtain ⟨th, hth, hb⟩ := hw.ready k hk (by simp)
      exact ⟨th, keep k th hth, hb⟩
    · simp only [List.mem_singleton] at hk
      subst hk
      exact ⟨Thread.new k, by simp, by simp [Thread.new]⟩
  · exact List.Nodup.append hw.nodup (List.nodup_singleton i) (by simpa using hnotin)
  · intro k th hk hs
    rcases upd k th hk with ⟨_, e2⟩ | ⟨_, e2⟩
    · subst e2; simp [Thread.new] at hs
    · exact hw.runState k th e2 hs
  · intro r' hr'
    obtain ⟨th, hth⟩ := hw.runLive r' hr'
    exact ⟨th, keep r' th hth⟩
  · intro k th hk
    rcases upd k th hk with ⟨_, e2⟩ | ⟨_, e2⟩
    · subst e2
      have := wf_total_nonneg M none s hw
      simpa [Thread.new] using this
    · exact hw.quant k th e2
  · exact ⟨r, thr, hr, keep r thr hthr, hrb⟩

/-- When the slot of `tid` is empty (`terminate`), the loop of `unsync` clears the column
of `tid` and its counter. -/
theorem unsync_purge (M : Nat) (s : Scheduler) (tid : Nat) (htid : tid < M)
    (hn : s.threadArray tid = none) :
    (∀ i, i < M → (unsync M s tid).syncMatrix i tid = 0) ∧
      (unsync M s tid).numSyncedThreads tid = 0 := by
  have key := range_foldl_induct
    (fun k (b : Scheduler) => b.threadArray = s.threadArray ∧
      (∀ i, i < k → b.syncMatrix i tid = 0) ∧ (0 < k → b.numSyncedThreads tid = 0))
    (unsyncStep tid) M s ⟨rfl, fun i hi => absurd hi (Nat.not_lt_zero i),
      fun h => absurd h (Nat.lt_irrefl 0)⟩ ?_
  · exact ⟨key.2.1, key.2.2 (Nat.lt_of_le_of_lt (Nat.zero_le _) htid)⟩
  · intro k b _ hb
    obtain ⟨hta, hz, _⟩ := hb
    have hbn : b.threadArray tid = none := by rw [hta]; exact hn
    refine ⟨by rw [unsyncStep_threadArray, hta], ?_, ?_⟩
    · intro i hi
      rw [unsyncStep_syncMatrix]
      simp only [hbn, if_true, setCell_apply]
      split_ifs with h1 h2
      · rfl
      · rfl
      · have : i < k := by
          rcases Nat.lt_succ_iff_lt_or_eq.mp hi with h | h
          · exact h
          · exact absurd ⟨h, trivial⟩ h1
        exact hz i this
    · intro _
      rw [unsyncStep_numSyncedThreads]
      simp [hbn]

theorem syncCount_zero (M : Nat) (m : Nat → Nat → Nat) (j : Nat) (h : ∀ i, i < M → m i j = 0) :
    syncCount M m j = 0 := by
  unfold syncCount
  rw [Finset.card_eq_zero, Finset.filter_eq_empty_iff]
  intro i hi
  simp [h i (Finset.mem_range.mp hi)]

theorem syncCount_eq_zero (M : Nat) (m : Nat → Nat → Nat) (j : Nat) (h : syncCount M m j = 0) :
    ∀ i, i < M → m i j = 0 := by
  unfold syncCount at h
  rw [Finset.card_eq_zero, Finset.filter_eq_empty_iff] at h
  intro i hi
  have := h (Finset.mem_range.mpr hi)
  simpa using this

theorem terminateBody_threadArray (M : Nat) (s : Scheduler) (r t : Nat) :
    (terminateBody M s r t).threadArray = Function.update s.threadArray t none := by
  unfold terminateBody removeFromReadyList
  simp only [unsync_threadArray]
  split_ifs <;> rfl

theorem terminateBody_running (M : Nat) (s : Scheduler) (r t : Nat) (hr : s.running = some r) :
    (terminateBody M s r t).running = if r = t then none else some r := by
  unfold terminateBody removeFromReadyList
  simp only [unsync_running]
  split_ifs
  · rfl
  · exact hr

theorem terminateBody_totalQuantums (M : Nat) (s : Scheduler) (r t : Nat) :
    (terminateBody M s r t).totalQuantums = s.totalQuantums := by
  unfold terminateBody removeFromReadyList
  simp only [unsync_totalQuantums]
  split_ifs <;> rfl

/-- The bookkeeping `terminate` leaves before its final test is well formed, and the main
thread is in the ready list unless it is the running thread. -/
theorem terminateBody_wf (M : Nat) (s : Scheduler) (r t : Nat) (th : Thread) (h : Inv M s)
    (hr : s.running = some r) (ht0 : t ≠ 0) (hth : s.threadArray t = some th) :
    Wf M none (terminateBody M s r t) ∧ 0 ∈ (terminateBody M s r t).readyList := by
  obtain ⟨hw, _⟩ := h
  have htM : t < M := (hw.slot t th hth).2
  -- the bookkeeping once the slot is emptied
  have hw2 : Wf M (some t)
      { (if r = t then { s with running := none } else s) with
        threadArray := Function.update (if r = t then { s with running := none } else s).threadArray t
          none } := by
    have hta : (if r = t then { s with running := none } else s).threadArray = s.threadArray := by
      split_ifs <;> rfl
    have hrl : (if r = t then { s with running := none } else s).readyList = s.readyList := by
      split_ifs <;> rfl
    have hns : (if r = t then { s with running := none } else s).numSyncedThreads
        = s.numSyncedThreads := by split_ifs <;> rfl
    have hsm : (if r = t then { s with running := none } else s).syncMatrix = s.syncMatrix := by
      split_ifs <;> rfl
    have htq : (if r = t then { s with running := none } else s).totalQuantums
        = s.totalQuantums := by split_ifs <;> rfl
    have hrn : (if r = t then { s with running := none } else s).running
        = if r = t then none else some r := by split_ifs <;> simp [hr]
    have upd : ∀ k th', Function.update s.threadArray t none k = some th' →
        k ≠ t ∧ s.threadArray k = some th' := by
      intro k th' hk
      by_cases hkt : k = t
      · subst hkt; simp at hk
      · rw [Function.update_noteq hkt] at hk; exact ⟨hkt, hk⟩
    refine ⟨?_, ?_, ?_, ?_, ?_, ?_, ?_, ?_, ?_, ?_, ?_, ?_⟩
    · intro k th' hk
      simp only [hta] at hk
      exact hw.slot k th' (upd k th' hk).2
    · obtain ⟨t0, h0, hb0⟩ := hw.main
      refine ⟨t0, ?_, hb0⟩
      simp only [hta]
      rw [Function.update_noteq (Ne.symm ht0)]; exact h0
    · simp only [hns]; exact hw.main_sync
    · simp only [hsm]; exact hw.col0
    · simp only [hsm]; exact hw.bin
    · intro k hk hkx
      simp only [hrl] at hk
      simp only [hta]
      have hkt : k ≠ t := fun e => hkx (by rw [e])
      rw [Function.update_noteq hkt]
      exact hw.ready k hk (by simp)
    · simp only [hrl]; exact hw.nodup
    · intro k th' hk hs
      simp only [hta] at hk
      obtain ⟨hkt, hk'⟩ := upd k th' hk
      have := hw.runState k th' hk' hs
      simp only [hrn]
      rw [hr] at this
      simp only [Option.some.injEq] at this
      subst this
      simp [Ne.symm hkt]
      exact fun e => absurd e hkt
    · intro r' hr'
      simp only [hrn] at hr'
      simp only [hta]
      split_ifs at hr' with hrt
      simp only [Option.some.injEq] at hr'
      subst hr'
      rw [Function.update_noteq hrt]
      exact hw.runLive r hr
    · intro k th' hk
      simp only [hta] at hk
      simp only [htq]
      exact hw.quant k th' (upd k th' hk).2
    · simp only [htq]; exact hw.total
    · intro j hj hjx
      simp only [hns, hsm]
      exact hw.counted j hj (by simp)
  have hn2 : ({ (if r = t then { s with running := none } else s) with
        threadArray := Function.update (if r = t then { s with running := none } else s).threadArray t
          none } : Scheduler).threadArray t = none := by simp
  have hw3 := unsync_wf M (some t) t _ htM (fun _ => rfl) hw2
  have hp := unsync_purge M _ t htM hn2
  obtain ⟨t0, h0, hb0⟩ := hw2.main
  have hmain := unsync_complete M (some t) t _ htM (fun _ => rfl) hw2 0 t0 h0 hb0 hw3.main_sync
  constructor
  · unfold terminateBody removeFromReadyList
    refine ⟨hw3.slot, hw3.main, hw3.main_sync, hw3.col0, hw3.bin, ?_, ?_, hw3.runState,
      hw3.runLive, hw3.quant, hw3.total, ?_⟩
    · intro k hk _
      have hk' := (List.Nodup.mem_erase_iff hw3.nodup).mp hk
      exact hw3.ready k hk'.2 (by simpa using hk'.1)
    · exact List.Nodup.erase _ hw3.nodup
    · intro j hj _
      by_cases hjt : j = t
      · subst hjt
        simp only []
        rw [hp.2, syncCount_zero M _ j hp.1]; rfl
      · exact hw3.counted j hj (by simpa using hjt)
  · unfold terminateBody removeFromReadyList
    exact (List.mem_erase_of_ne (Ne.symm ht0)).mpr hmain

theorem blockBody_wf (M : Nat) (s : Scheduler) (t : Nat) (th : Thread) (h : Inv M s)
    (ht0 : t ≠ 0) (hth : s.threadArray t = some th) :
    Wf M none (blockBody s t th) := by
  obtain ⟨hw, _⟩ := h
  have upd : ∀ k th', Function.update s.threadArray t (some { th with state := State.BLOCKED }) k
      = some th' → (k = t ∧ th' = { th with state := State.BLOCKED }) ∨
        (k ≠ t ∧ s.threadArray k = some th') := by
    intro k th' hk
    by_cases hkt : k = t
    · subst hkt; simp at hk; exact Or.inl ⟨rfl, hk.symm⟩
    · rw [Function.update_noteq hkt] at hk; exact Or.inr ⟨hkt, hk⟩
  unfold blockBody removeFromReadyList
  refine ⟨?_, ?_, hw.main_sync, hw.col0, hw.bin, ?_, ?_, ?_, ?_, ?_, hw.total, hw.counted⟩
  · intro k th' hk
    rcases upd k th' hk with ⟨e1, e2⟩ | ⟨_, e2⟩
    · subst e1 e2; exact hw.slot k th hth
    · exact hw.slot k th' e2
  · obtain ⟨t0, h0, hb0⟩ := hw.main
    refine ⟨t0, ?_, hb0⟩
    simp only []
    rw [Function.update_noteq (Ne.symm ht0)]; exact h0
  · intro k hk _
    have hk' := (List.Nodup.mem_erase_iff hw.nodup).mp hk
    simp only []
    rw [Function.update_noteq hk'.1]
    exact hw.ready k hk'.2 (by simp)
  · exact List.Nodup.erase _ hw.nodup
  · intro k th' hk hs
    rcases upd k th' hk with ⟨_, e2⟩ | ⟨_, e2⟩
    · subst e2; simp at hs
    · exact hw.runState k th' e2 hs
  · intro r hr
    obtain ⟨thr, hthr⟩ := hw.runLive r hr
    by_cases hrt : r = t
    · subst hrt; exact ⟨{ th with state := State.BLOCKED }, by simp⟩
    · exact ⟨thr, by simp only []; rw [Function.update_noteq hrt]; exact hthr⟩
  · intro k th' hk
    rcases upd k th' hk with ⟨e1, e2⟩ | ⟨_, e2⟩
    · subst e1 e2; exact hw.quant k th hth
    · exact hw.quant k th' e2

theorem blockBody_inv (M : Nat) (s : Scheduler) (t : Nat) (th : Thread) (h : Inv M s)
    (ht0 : t ≠ 0) (hth : s.threadArray t = some th) (hrun : s.running ≠ some t) :
    Inv M (blockBody s t th) := by
  refine ⟨blockBody_wf M s t th h ht0 hth, ?_⟩
  obtain ⟨_, r, thr, hr, hthr, hrb⟩ := h
  have hrt : r ≠ t := by intro e; subst e; exact hrun hr
  refine ⟨r, thr, hr, ?_, hrb⟩
  unfold blockBody removeFromReadyList
  simp only []
  rw [Function.update_noteq hrt]; exact hthr

theorem resumeBody_inv (M : Nat) (s : Scheduler) (t : Nat) (th : Thread) (h : Inv M s)
    (hth : s.threadArray t = some th) : Inv M (resumeBody s t th) := by
  obtain ⟨hw, r, thr, hr, hthr, hrb⟩ := h
  have upd : ∀ k th', Function.update s.threadArray t (some { th with state := State.READY }) k
      = some th' → (k = t ∧ th' = { th with state := State.READY }) ∨
        (k ≠ t ∧ s.threadArray k = some th') := by
    intro k th' hk
    by_cases hkt : k = t
    · subst hkt; simp at hk; exact Or.inl ⟨rfl, hk.symm⟩
    · rw [Function.update_noteq hkt] at hk; exact Or.inr ⟨hkt, hk⟩
  have live : ∀ k thk, s.threadArray k = some thk → thk.state ≠ State.BLOCKED →
      ∃ th', Function.update s.threadArray t (some { th with state := State.READY }) k = some th' ∧
        th'.state ≠ State.BLOCKED := by
    intro k thk hk hb
    by_cases hkt : k = t
    · subst hkt; exact ⟨{ th with state := State.READY }, by simp, by simp⟩
    · exact ⟨thk, by rw [Function.update_noteq hkt]; exact hk, hb⟩
  have hid : th.id = t := (hw.slot t th hth).1
  -- the bookkeeping once the state is READY
  have h1 : Inv M
      { s with threadArray := (Function.update s.threadArray t (some { th with state := State.READY })) } := by
    refine ⟨⟨?_, ?_, hw.main_sync, hw.col0, hw.bin, ?_, hw.nodup, ?_, ?_, ?_, hw.total,
      hw.counted⟩, ?_⟩
    · intro k th' hk
      rcases upd k th' hk with ⟨e1, e2⟩ | ⟨_, e2⟩
      · subst e1 e2; exact hw.slot k th hth
      · exact hw.slot k th' e2
    · obtain ⟨t0, h0, hb0⟩ := hw.main
      exact live 0 t0 h0 hb0
    · intro k hk _
      obtain ⟨thk, hk1, hk2⟩ := hw.ready k hk (by simp)
      exact live k thk hk1 hk2
    · intro k th' hk hs
      rcases upd k th' hk with ⟨_, e2⟩ | ⟨_, e2⟩
      · subst e2; simp at hs
      · exact hw.runState k th' e2 hs
    · intro r' hr'
      obtain ⟨thr', hthr'⟩ := hw.runLive r' hr'
      by_cases hrt : r' = t
      · subst hrt; exact ⟨{ th with state := State.READY }, by simp⟩
      · exact ⟨thr', by simp only []; rw [Function.update_noteq hrt]; exact hthr'⟩
    · intro k th' hk
      rcases upd k th' hk with ⟨e1, e2⟩ | ⟨_, e2⟩
      · subst e1 e2; exact hw.quant k th hth
      · exact hw.quant k th' e2
    · obtain ⟨th', h1, h2⟩ := live r thr hthr hrb
      exact ⟨r, th', hr, h1, h2⟩
  unfold resumeBody
  simp only []
  split_ifs with hc1 hc2
  · exact h1
  · exact h1
  · obtain ⟨hw1, hrun1⟩ := h1
    have hnot : t ∉ s.readyList := by
      intro hm
      apply hc2
      simp only [List.any_eq_true]
      exact ⟨t, hm, by simp⟩
    refine ⟨⟨hw1.slot, hw1.main, hw1.main_sync, hw1.col0, hw1.bin, ?_, ?_, hw1.runState,
      hw1.runLive, hw1.quant, hw1.total, hw1.counted⟩, hrun1⟩
    · intro k hk hx
      rcases List.mem_append.mp hk with hk | hk
      · exact hw1.ready k hk hx
      · simp only [List.mem_singleton] at hk
        have hkt : k = t := hk.trans hid
        exact ⟨{ th with state := State.READY }, by rw [hkt]; exact Function.update_same _ _ _,
          by simp⟩
    · rw [hid]
      exact List.Nodup.append hw.nodup (List.nodup_singleton t) (by simpa using hnot)

theorem syncBody_wf (M : Nat) (s : Scheduler) (t r : Nat) (h : Wf M none s) (htM : t < M)
    (hrM : r < M) (hr0 : r ≠ 0) : Wf M none (syncBody s t r) := by
  unfold syncBody
  split_ifs with hc
  · have hz : s.syncMatrix t r = 0 := by
      have := h.bin t r
      omega
    refine ⟨h.slot, h.main, ?_, ?_, ?_, h.ready, h.nodup, h.runState, h.runLive, h.quant,
      h.total, ?_⟩
    · simp only []
      rw [Function.update_noteq (Ne.symm hr0)]; exact h.main_sync
    · intro i
      simp only [setCell_apply]
      split_ifs with hc'
      · exact absurd hc'.2.symm hr0
      · exact h.col0 i
    · intro i j
      simp only [setCell_apply]
      split_ifs
      · exact le_refl 1
      · exact h.bin i j
    · intro j hj _
      simp only []
      by_cases hjr : j = r
      · subst hjr
        rw [Function.update_same, syncCount_set M _ t j htM hz, h.counted j hj (by simp)]
        push_cast; ring
      · rw [Function.update_noteq hjr, syncCount_setCell_other M _ _ _ _ _ hjr]
        exact h.counted j hj (by simp)
  · exact h

theorem wf_sig (M : Nat) (x : Option Nat) (s : Scheduler) (b : Bool) (h : Wf M x s) :
    Wf M x { s with sigIgnored := b } :=
  ⟨h.slot, h.main, h.main_sync, h.col0, h.bin, h.ready, h.nodup, h.runState, h.runLive,
    h.quant, h.total, h.counted⟩

theorem inv_sig (M : Nat) (s : Scheduler) (b : Bool) (h : Inv M s) :
    Inv M { s with sigIgnored := b } :=
  ⟨wf_sig M none s b h.1, h.2⟩

/-- A tid that passes the validity check of `terminate`, `resume` and `sync`. -/
theorem valid_tid (M : Nat) (s : Scheduler) (tid : Int)
    (h : ¬ (tid < 0 ∨ tid ≥ M ∨ s.threadArray tid.toNat = none)) :
    0 ≤ tid ∧ tid.toNat < M ∧ (tid.toNat : Int) = tid ∧ ∃ th, s.threadArray tid.toNat = some th := by
  push_neg at h
  obtain ⟨h1, h2, h3⟩ := h
  refine ⟨h1, by omega, by omega, ?_⟩
  cases hc : s.threadArray tid.toNat with
  | none => exact absurd hc h3
  | some th => exact ⟨th, rfl⟩

theorem terminate_fail (M : Nat) (s : Scheduler) (tid : Int)
    (h : tid < 0 ∨ tid ≥ M ∨ s.threadArray tid.toNat = none) :
    uthread_terminate M s tid = Outcome.ret (-1) (unblockTimerThreadSwitch s) := by
  unfold uthread_terminate Scheduler.terminate
  have h' : tid < 0 ∨ tid ≥ M ∨ (blockTimerThreadSwitch s).threadArray tid.toNat = none := h
  rw [if_pos h']
  rfl

theorem terminate_main (M : Nat) (s : Scheduler) (tid : Int)
    (h : ¬ (tid < 0 ∨ tid ≥ M ∨ s.threadArray tid.toNat = none)) (h0 : tid.toNat = 0) :
    uthread_terminate M s tid = Outcome.exit 0 := by
  unfold uthread_terminate Scheduler.terminate
  have h' : ¬ (tid < 0 ∨ tid ≥ M ∨ (blockTimerThreadSwitch s).threadArray tid.toNat = none) := h
  rw [if_neg h', if_pos (by simpa [MAIN_THREAD_ID] using h0)]
  rfl

theorem terminate_other (M : Nat) (s : Scheduler) (tid : Int) (r : Nat)
    (h : ¬ (tid < 0 ∨ tid ≥ M ∨ s.threadArray tid.toNat = none)) (h0 : tid.toNat ≠ 0)
    (hr : s.running = some r) (hrt : r ≠ tid.toNat) :
    uthread_terminate M s tid
      = Outcome.ret 0 (unblockTimerThreadSwitch (terminateBody M (blockTimerThreadSwitch s) r tid.toNat)) := by
  unfold uthread_terminate Scheduler.terminate
  have h' : ¬ (tid < 0 ∨ tid ≥ M ∨ (blockTimerThreadSwitch s).threadArray tid.toNat = none) := h
  have hr' : (blockTimerThreadSwitch s).running = some r := hr
  rw [if_neg h', if_neg (by simpa [MAIN_THREAD_ID] using h0)]
  simp only [hr']
  rw [terminateBody_running M _ r _ hr', if_neg hrt]
  simp [Outcome.andThen]

theorem terminate_self (M : Nat) (s : Scheduler) (tid : Int)
    (h : ¬ (tid < 0 ∨ tid ≥ M ∨ s.threadArray tid.toNat = none)) (h0 : tid.toNat ≠ 0)
    (hr : s.running = some tid.toNat) :
    uthread_terminate M s tid
      = match switchThread M (unblockTimerThreadSwitch
            (terminateBody M (blockTimerThreadSwitch s) tid.toNat tid.toNat)) with
        | none => Outcome.undefined
        | some s5 => Outcome.noret s5 := by
  unfold uthread_terminate Scheduler.terminate
  have h' : ¬ (tid < 0 ∨ tid ≥ M ∨ (blockTimerThreadSwitch s).threadArray tid.toNat = none) := h
  have hr' : (blockTimerThreadSwitch s).running = some tid.toNat := hr
  rw [if_neg h', if_neg (by simpa [MAIN_THREAD_ID] using h0)]
  simp only [hr']
  rw [terminateBody_running M _ _ _ hr', if_pos rfl]
  simp only [if_true]
  cases switchThread M (unblockTimerThreadSwitch
      (terminateBody M (blockTimerThreadSwitch s) tid.toNat tid.toNat)) <;> rfl

theorem terminate_inv (M : Nat) (s s1 : Scheduler) (tid : Int) (h : Inv M s)
    (hs : (uthread_terminate M s tid).state? = some s1) : Inv M s1 := by
  by_cases hv : tid < 0 ∨ tid ≥ M ∨ s.threadArray tid.toNat = none
  · rw [terminate_fail M s tid hv] at hs
    simp only [Outcome.state?, Option.some.injEq] at hs
    rw [← hs]; exact inv_sig M s false h
  · by_cases h0 : tid.toNat = 0
    · rw [terminate_main M s tid hv h0] at hs
      simp [Outcome.state?] at hs
    · obtain ⟨r, thr, hr, hthr, hrb⟩ := h.2
      obtain ⟨_, _, _, th, hth⟩ := valid_tid M s tid hv
      have hb := terminateBody_wf M (blockTimerThreadSwitch s) r tid.toNat th
        (inv_sig M s true h) hr h0 hth
      by_cases hrt : r = tid.toNat
      · rw [hrt] at hr hb
        rw [terminate_self M s tid hv h0 hr] at hs
        cases hsw : switchThread M (unblockTimerThreadSwitch
            (terminateBody M (blockTimerThreadSwitch s) tid.toNat tid.toNat)) with
        | none => rw [hsw] at hs; simp [Outcome.state?] at hs
        | some s5 =>
          rw [hsw] at hs
          simp only [Outcome.state?, Option.some.injEq] at hs
          subst hs
          obtain ⟨_, _, _, _, _, _, _, _, hi⟩ := switchThread_some M _ s5
            (wf_sig M none _ false hb.1) (fun _ => hb.2) hsw
          exact hi
      · rw [terminate_other M s tid r hv h0 hr hrt] at hs
        simp only [Outcome.state?, Option.some.injEq] at hs
        subst hs
        refine inv_sig M _ false ⟨hb.1, r, thr, ?_, ?_, hrb⟩
        · rw [terminateBody_running M (blockTimerThreadSwitch s) r _ hr, if_neg hrt]
        · rw [terminateBody_threadArray, Function.update_noteq hrt]; exact hthr

theorem block_fail (M : Nat) (s : Scheduler) (tid : Int)
    (h : tid < 0 ∨ tid ≥ M ∨ tid.toNat = MAIN_THREAD_ID ∨ s.threadArray tid.toNat = none) :
    uthread_block M s tid = Outcome.ret (-1) (unblockTimerThreadSwitch s) := by
  unfold uthread_block Scheduler.block
  have h' : tid < 0 ∨ tid ≥ M ∨ tid.toNat = MAIN_THREAD_ID ∨
      (blockTimerThreadSwitch s).threadArray tid.toNat = none := h
  rw [if_pos h']
  rfl

theorem block_blocked (M : Nat) (s : Scheduler) (tid : Int) (th : Thread)
    (h : ¬ (tid < 0 ∨ tid ≥ M ∨ tid.toNat = MAIN_THREAD_ID ∨ s.threadArray tid.toNat = none))
    (hth : s.threadArray tid.toNat = some th) (hb : th.state = State.BLOCKED) :
    uthread_block M s tid = Outcome.ret 0 (unblockTimerThreadSwitch s) := by
  unfold uthread_block Scheduler.block
  have h' : ¬ (tid < 0 ∨ tid ≥ M ∨ tid.toNat = MAIN_THREAD_ID ∨
      (blockTimerThreadSwitch s).threadArray tid.toNat = none) := h
  have hth' : (blockTimerThreadSwitch s).threadArray tid.toNat = some th := hth
  rw [if_neg h']
  simp only [hth', hb, if_true]
  rfl

theorem block_other (M : Nat) (s : Scheduler) (tid : Int) (th : Thread)
    (h : ¬ (tid < 0 ∨ tid ≥ M ∨ tid.toNat = MAIN_THREAD_ID ∨ s.threadArray tid.toNat = none))
    (hth : s.threadArray tid.toNat = some th) (hb : th.state ≠ State.BLOCKED)
    (hr : s.running ≠ some th.id) :
    uthread_block M s tid
      = Outcome.ret 0 (unblockTimerThreadSwitch (blockBody (blockTimerThreadSwitch s) tid.toNat th)) := by
  unfold uthread_block Scheduler.block
  have h' : ¬ (tid < 0 ∨ tid ≥ M ∨ tid.toNat = MAIN_THREAD_ID ∨
      (blockTimerThreadSwitch s).threadArray tid.toNat = none) := h
  have hth' : (blockTimerThreadSwitch s).threadArray tid.toNat = some th := hth
  have hr' : (blockBody (blockTimerThreadSwitch s) tid.toNat th).running ≠ some th.id := hr
  rw [if_neg h']
  simp only [hth', hb, if_false, hr']
  rfl

theorem block_self (M : Nat) (s : Scheduler) (tid : Int) (th : Thread)
    (h : ¬ (tid < 0 ∨ tid ≥ M ∨ tid.toNat = MAIN_THREAD_ID ∨ s.threadArray tid.toNat = none))
    (hth : s.threadArray tid.toNat = some th) (hb : th.state ≠ State.BLOCKED)
    (hr : s.running = some th.id) :
    uthread_block M s tid
      = match switchThread M (unblockTimerThreadSwitch
            (blockBody (blockTimerThreadSwitch s) tid.toNat th)) with
        | none => Outcome.undefined
        | some s3 => Outcome.ret 0 (unblockTimerThreadSwitch s3) := by
  unfold uthread_block Scheduler.block
  have h' : ¬ (tid < 0 ∨ tid ≥ M ∨ tid.toNat = MAIN_THREAD_ID ∨
      (blockTimerThreadSwitch s).threadArray tid.toNat = none) := h
  have hth' : (blockTimerThreadSwitch s).threadArray tid.toNat = some th := hth
  have hr' : (blockBody (blockTimerThreadSwitch s) tid.toNat th).running = some th.id := hr
  rw [if_neg h']
  simp only [hth', hb, if_false, hr', if_true]
  cases switchThread M (unblockTimerThreadSwitch
      (blockBody (blockTimerThreadSwitch s) tid.toNat th)) <;> rfl

theorem block_inv (M : Nat) (s s1 : Scheduler) (tid : Int) (h : Inv M s)
    (hs : (uthread_block M s tid).state? = some s1) : Inv M s1 := by
  by_cases hv : tid < 0 ∨ tid ≥ M ∨ tid.toNat = MAIN_THREAD_ID ∨ s.threadArray tid.toNat = none
  · rw [block_fail M s tid hv] at hs
    simp only [Outcome.state?, Option.some.injEq] at hs
    rw [← hs]; exact inv_sig M s false h
  · have hv' := hv
    push_neg at hv'
    obtain ⟨_, _, h0, hlive⟩ := hv'
    cases hth : s.threadArray tid.toNat with
    | none => exact absurd hth hlive
    | some th =>
      have hid : th.id = tid.toNat := (h.1.slot _ th hth).1
      by_cases hb : th.state = State.BLOCKED
      · rw [block_blocked M s tid th hv hth hb] at hs
        simp only [Outcome.state?, Option.some.injEq] at hs
        rw [← hs]; exact inv_sig M s false h
      · by_cases hr : s.running = some th.id
        · rw [block_self M s tid th hv hth hb hr] at hs
          cases hsw : switchThread M (unblockTimerThreadSwitch
              (blockBody (blockTimerThreadSwitch s) tid.toNat th)) with
          | none => rw [hsw] at hs; simp [Outcome.state?] at hs
          | some s3 =>
            rw [hsw] at hs
            simp only [Outcome.state?, Option.some.injEq] at hs
            subst hs
            have hw := blockBody_wf M (blockTimerThreadSwitch s) tid.toNat th (inv_sig M s true h)
              h0 hth
            obtain ⟨_, _, _, _, _, _, _, _, hi⟩ := switchThread_some M _ s3
              (wf_sig M none _ false hw) (fun hn => by
                have : s.running = none := hn
                rw [hr] at this; exact absurd this (by simp)) hsw
            exact inv_sig M s3 false hi
        · rw [block_other M s tid th hv hth hb hr] at hs
          simp only [Outcome.state?, Option.some.injEq] at hs
          subst hs
          exact inv_sig M _ false (blockBody_inv M (blockTimerThreadSwitch s) tid.toNat th
            (inv_sig M s true h) h0 hth (by rw [← hid]; exact hr))

theorem resume_fail (M : Nat) (s : Scheduler) (tid : Int)
    (h : tid < 0 ∨ tid ≥ M ∨ s.threadArray tid.toNat = none) :
    uthread_resume M s tid = Outcome.ret (-1) (unblockTimerThreadSwitch s) := by
  unfold uthread_resume Scheduler.resume
  have h' : tid < 0 ∨ tid ≥ M ∨ (blockTimerThreadSwitch s).threadArray tid.toNat = none := h
  rw [if_pos h']
  rfl

theorem resume_ok (M : Nat) (s : Scheduler) (tid : Int) (th : Thread)
    (h : ¬ (tid < 0 ∨ tid ≥ M ∨ s.threadArray tid.toNat = none))
    (hth : s.threadArray tid.toNat = some th) :
    uthread_resume M s tid
      = Outcome.ret 0 (unblockTimerThreadSwitch (resumeBody (blockTimerThreadSwitch s) tid.toNat th)) := by
  unfold uthread_resume Scheduler.resume
  have h' : ¬ (tid < 0 ∨ tid ≥ M ∨ (blockTimerThreadSwitch s).threadArray tid.toNat = none) := h
  have hth' : (blockTimerThreadSwitch s).threadArray tid.toNat = some th := hth
  rw [if_neg h']
  simp only [hth']
  rfl

theorem resume_inv (M : Nat) (s s1 : Scheduler) (tid : Int) (h : Inv M s)
    (hs : (uthread_resume M s tid).state? = some s1) : Inv M s1 := by
  by_cases hv : tid < 0 ∨ tid ≥ M ∨ s.threadArray tid.toNat = none
  · rw [resume_fail M s tid hv] at hs
    simp only [Outcome.state?, Option.some.injEq] at hs
    rw [← hs]; exact inv_sig M s false h
  · obtain ⟨_, _, _, th, hth⟩ := valid_tid M s tid hv
    rw [resume_ok M s tid th hv hth] at hs
    simp only [Outcome.state?, Option.some.injEq] at hs
    subst hs
    exact inv_sig M _ false (resumeBody_inv M (blockTimerThreadSwitch s) tid.toNat th
      (inv_sig M s true h) hth)

theorem sync_fail (M : Nat) (s : Scheduler) (tid : Int)
    (h : tid < 0 ∨ tid ≥ M ∨ s.threadArray tid.toNat = none) :
    uthread_sync M s tid = Outcome.ret (-1) (unblockTimerThreadSwitch s) := by
  unfold uthread_sync Scheduler.sync
  have h' : tid < 0 ∨ tid ≥ M ∨ (blockTimerThreadSwitch s).threadArray tid.toNat = none := h
  rw [if_pos h']
  rfl

theorem sync_main (M : Nat) (s : Scheduler) (tid : Int)
    (h : ¬ (tid < 0 ∨ tid ≥ M ∨ s.threadArray tid.toNat = none))
    (hr : s.running = some MAIN_THREAD_ID) :
    uthread_sync M s tid = Outcome.ret (-1) (unblockTimerThreadSwitch s) := by
  unfold uthread_sync Scheduler.sync
  have h' : ¬ (tid < 0 ∨ tid ≥ M ∨ (blockTimerThreadSwitch s).threadArray tid.toNat = none) := h
  have hr' : (blockTimerThreadSwitch s).running = some MAIN_THREAD_ID := hr
  rw [if_neg h']
  simp only [hr', if_true]
  rfl

theorem sync_ok (M : Nat) (s : Scheduler) (tid : Int) (r : Nat)
    (h : ¬ (tid < 0 ∨ tid ≥ M ∨ s.threadArray tid.toNat = none))
    (hr : s.running = some r) (hr0 : r ≠ MAIN_THREAD_ID) :
    uthread_sync M s tid
      = match switchThread M (unblockTimerThreadSwitch
            (syncBody (blockTimerThreadSwitch s) tid.toNat r)) with
        | none => Outcome.undefined
        | some s2 => Outcome.ret 0 (unblockTimerThreadSwitch s2) := by
  unfold uthread_sync Scheduler.sync
  have h' : ¬ (tid < 0 ∨ tid ≥ M ∨ (blockTimerThreadSwitch s).threadArray tid.toNat = none) := h
  have hr' : (blockTimerThreadSwitch s).running = some r := hr
  rw [if_neg h']
  simp only [hr', hr0, if_false]
  cases switchThread M (unblockTimerThreadSwitch
      (syncBody (blockTimerThreadSwitch s) tid.toNat r)) <;> rfl

theorem syncBody_running (s : Scheduler) (t r : Nat) : (syncBody s t r).running = s.running := by
  unfold syncBody; split_ifs <;> rfl

theorem syncBody_threadArray (s : Scheduler) (t r : Nat) :
    (syncBody s t r).threadArray = s.threadArray := by
  unfold syncBody; split_ifs <;> rfl

theorem syncBody_totalQuantums (s : Scheduler) (t r : Nat) :
    (syncBody s t r).totalQuantums = s.totalQuantums := by
  unfold syncBody; split_ifs <;> rfl

theorem syncBody_readyList (s : Scheduler) (t r : Nat) :
    (syncBody s t r).readyList = s.readyList := by
  unfold syncBody; split_ifs <;> rfl

theorem sync_inv (M : Nat) (s s1 : Scheduler) (tid : Int) (h : Inv M s)
    (hs : (uthread_sync M s tid).state? = some s1) : Inv M s1 := by
  by_cases hv : tid < 0 ∨ tid ≥ M ∨ s.threadArray tid.toNat = none
  · rw [sync_fail M s tid hv] at hs
    simp only [Outcome.state?, Option.some.injEq] at hs
    rw [← hs]; exact inv_sig M s false h
  · obtain ⟨r, thr, hr, hthr, _⟩ := h.2
    by_cases hr0 : r = MAIN_THREAD_ID
    · rw [sync_main M s tid hv (by rw [hr, hr0])] at hs
      simp only [Outcome.state?, Option.some.injEq] at hs
      rw [← hs]; exact inv_sig M s false h
    · rw [sync_ok M s tid r hv hr hr0] at hs
      obtain ⟨_, htM, _, _, _⟩ := valid_tid M s tid hv
      cases hsw : switchThread M (unblockTimerThreadSwitch
          (syncBody (blockTimerThreadSwitch s) tid.toNat r)) with
      | none => rw [hsw] at hs; simp [Outcome.state?] at hs
      | some s2 =>
        rw [hsw] at hs
        simp only [Outcome.state?, Option.some.injEq] at hs
        subst hs
        have hw := syncBody_wf M (blockTimerThreadSwitch s) tid.toNat r
          (wf_sig M none s true h.1) htM (h.1.slot r thr hthr).2 hr0
        obtain ⟨_, _, _, _, _, _, _, _, hi⟩ := switchThread_some M _ s2
          (wf_sig M none _ false hw) (fun hn => by
            have : (syncBody (blockTimerThreadSwitch s) tid.toNat r).running = none := hn
            rw [syncBody_running] at this
            have : s.running = none := this
            rw [hr] at this; exact absurd this (by simp)) hsw
        exact inv_sig M s2 false hi

theorem spawn_inv_op (M : Nat) (s s1 : Scheduler) (h : Inv M s)
    (hs : (uthread_spawn M s).state? = some s1) : Inv M s1 := by
  rcases id_spec M s with ⟨i, hid, hiM, hn, _⟩ | ⟨hid, _⟩
  · have hi0 : i ≠ 0 := by
      intro e; subst e
      obtain ⟨t0, h0, _⟩ := h.1.main
      rw [hn] at h0; simp at h0
    rw [spawn_spec M s i hid hi0] at hs
    simp only [Outcome.state?, Option.some.injEq] at hs
    subst hs
    exact spawn_inv M s h i hi0 hiM hn
  · rw [spawn_full M s hid] at hs
    simp only [Outcome.state?, Option.some.injEq] at hs
    subst hs
    exact inv_sig M s true h

theorem timer_inv (M : Nat) (s s1 : Scheduler) (h : Inv M s)
    (hs : (timerSignal M s).state? = some s1) : Inv M s1 := by
  unfold timerSignal at hs
  split_ifs at hs with hi
  · simp only [Outcome.state?, Option.some.injEq] at hs
    subst hs; exact h
  · cases hsw : switchThread M s with
    | none => rw [hsw] at hs; simp [Outcome.state?] at hs
    | some s2 =>
      rw [hsw] at hs
      simp only [Outcome.state?, Option.some.injEq] at hs
      subst hs
      obtain ⟨r, _, hr, _, _⟩ := h.2
      obtain ⟨_, _, _, _, _, _, _, _, hi⟩ := switchThread_some M s s2 h.1
        (fun hn => by rw [hr] at hn; exact absurd hn (by simp)) hsw
      exact hi

/-- Every operation preserves the invariant. -/
theorem applyOp_inv (M : Nat) (s s1 : Scheduler) (op : Op) (h : Inv M s)
    (hs : (applyOp M s op).state? = some s1) : Inv M s1 := by
  cases op with
  | spawn => exact spawn_inv_op M s s1 h hs
  | terminate tid => exact terminate_inv M s s1 tid h hs
  | block tid => exact block_inv M s s1 tid h hs
  | resume tid => exact resume_inv M s s1 tid h hs
  | sync tid => exact sync_inv M s s1 tid h hs
  | timer => exact timer_inv M s s1 h hs

theorem runOps_inv (M : Nat) (ops : List Op) (s s1 : Scheduler) (h : Inv M s)
    (hs : runOps M s ops = some s1) : Inv M s1 := by
  induction ops generalizing s with
  | nil =>
    simp only [runOps, Option.some.injEq] at hs
    subst hs; exact h
  | cons op ops ih =>
    simp only [runOps] at hs
    cases ho : (applyOp M s op).state? with
    | none => rw [ho] at hs; simp at hs
    | some s2 =>
      rw [ho] at hs
      exact ih s2 (applyOp_inv M s s2 op h ho) hs

theorem init_unfold (M : Nat) (q : Int) (hq : 0 < q) (hq2 : q < 1000000) :
    uthread_init M Scheduler.fresh q =
      match switchThread M (bootState q) with
      | none => Outcome.undefined
      | some s2 => Outcome.ret 0 s2 := by
  unfold uthread_init
  rw [if_neg (by omega)]
  have hv : validTimerUsec q = true := by
    unfold validTimerUsec
    exact decide_eq_true ⟨by omega, hq2⟩
  simp only [Scheduler.add, Thread.new, MAIN_THREAD_ID, if_true, setQuantumLength, initializeTimer,
    Scheduler.fresh, List.nil_append, Function.update_idem, hv]
  show (match (match switchThread M (bootState q) with
      | none => Outcome.undefined
      | some s6 => Outcome.ret 0 s6) with
    | Outcome.ret _ s2 => Outcome.ret 0 s2
    | other => other) = _
  cases switchThread M (bootState q) <;> rfl

/-- With a quantum of a second or more the timer cannot be armed: `uthread_init` exits
with status 1. -/
theorem init_exit (M : Nat) (s : Scheduler) (q : Int) (hq : 1000000 ≤ q) :
    uthread_init M s q = Outcome.exit 1 := by
  unfold uthread_init
  rw [if_neg (by omega)]
  have hv : validTimerUsec q = false := by
    unfold validTimerUsec
    exact decide_eq_false (by omega)
  simp [Scheduler.add, Thread.new, MAIN_THREAD_ID, setQuantumLength, initializeTimer, hv]

theorem bootState_wf (M : Nat) (q : Int) (hM : 0 < M) : Wf M none (bootState q) := by
  have live : ∀ i th, (bootState q).threadArray i = some th → i = 0 ∧ th = ⟨0, 0, State.RUNNING⟩ := by
    intro i th hi
    unfold bootState at hi
    simp only [] at hi
    by_cases h0 : i = 0
    · subst h0; simp at hi; exact ⟨rfl, hi.symm⟩
    · rw [Function.update_noteq h0] at hi; simp at hi
  have h0 : (bootState q).threadArray 0 = some ⟨0, 0, State.RUNNING⟩ := by
    simp [bootState]
  refine ⟨?_, ⟨_, h0, by simp⟩, rfl, fun _ => rfl, fun _ _ => Nat.zero_le _, ?_, ?_, ?_, ?_, ?_,
    ?_, ?_⟩
  · intro i th hi
    obtain ⟨e1, e2⟩ := live i th hi
    subst e1 e2; exact ⟨rfl, hM⟩
  · intro i hi _
    have : i = 0 := by simpa [bootState] using hi
    subst this
    exact ⟨_, h0, by simp⟩
  · simp [bootState]
  · intro i th hi _
    rw [(live i th hi).1]; rfl
  · intro r hr
    have : r = 0 := by simpa [bootState] using hr.symm
    subst this
    exact ⟨_, h0⟩
  · intro i th hi
    rw [(live i th hi).2]; simp [bootState]
  · simp [bootState, INT_MAX]
  · intro j _ _
    rw [syncCount_zero M _ j (fun _ _ => rfl)]; rfl

/-- The result of `uthread_init` on the fresh scheduler. -/
theorem init_spec (M : Nat) (q : Int) (hM : 0 < M) (hq : 0 < q) (hq2 : q < 1000000) :
    ∃ s1, uthread_init M Scheduler.fresh q = Outcome.ret 0 s1 ∧
      s1 = switchResult M (bootState q) 0 [] ∧ Inv M s1 := by
  have hw := bootState_wf M q hM
  have hrun : (bootState q).running = none → 0 ∈ (bootState q).readyList := fun _ => by
    simp [bootState]
  obtain ⟨s1, hs1⟩ := switchThread_defined M (bootState q) hw hrun (by simp [bootState, INT_MAX])
  obtain ⟨n, rest, thn, hl, hthn, _, _, e, hi⟩ := switchThread_some M (bootState q) s1 hw hrun hs1
  have hpw := preSwitch_wf M (bootState q) hw
  have hn0 : ∀ k th, (bootState q).threadArray k = some th → k = 0 := by
    intro k th hk
    unfold bootState at hk
    simp only [] at hk
    by_cases h0 : k = 0
    · exact h0
    · rw [Function.update_noteq h0] at hk; simp at hk
  have hn : n = 0 := hn0 n thn hthn
  have hrest : rest = [] := by
    have hnd := hpw.nodup
    rw [hl] at hnd
    cases rest with
    | nil => rfl
    | cons a l =>
      exfalso
      obtain ⟨tha, hta, _⟩ := hpw.ready a (by rw [hl]; simp) (by simp)
      rw [preSwitch_threadArray] at hta
      have ha : a = 0 := hn0 a tha hta
      rw [hn, ha] at hnd
      simp at hnd
  refine ⟨s1, ?_, ?_, hi⟩
  · rw [init_unfold M q hq hq2, hs1]
  · rw [e, hn, hrest]

theorem initState_some (M : Nat) (q : Int) (s0 : Scheduler) (hM : 0 < M)
    (h : initState M q = some s0) : 0 < q ∧ s0 = switchResult M (bootState q) 0 [] ∧ Inv M s0 := by
  by_cases hq : 0 < q
  · by_cases hq2 : q < 1000000
    · obtain ⟨s1, h1, h2, h3⟩ := init_spec M q hM hq hq2
      unfold initState at h
      rw [h1] at h
      simp only [Option.some.injEq] at h
      subst h
      exact ⟨hq, h2, h3⟩
    · exfalso
      unfold initState at h
      rw [init_exit M Scheduler.fresh q (by omega)] at h
      simp at h
  · exfalso
    unfold initState uthread_init at h
    rw [if_pos (by omega)] at h
    simp at h

/-- Every reachable state satisfies the invariant. -/
theorem reachable_inv (M : Nat) (s : Scheduler) (h : Reachable M s) : Inv M s := by
  obtain ⟨hM, q, s0, ops, h0, hrun⟩ := h
  exact runOps_inv M ops s0 s (initState_some M q s0 hM h0).2.2 hrun

theorem reachable_trace (M : Nat) (q : Int) (ops : List Op) (hM : 0 < M)
    (h : (traceRun M q ops).isSome = true) : Reachable M (traceState M q ops) := by
  unfold traceState
  unfold traceRun at h ⊢
  cases h0 : initState M q with
  | none => rw [h0] at h; simp at h
  | some s0 =>
    rw [h0] at h
    simp only [] at h ⊢
    cases h1 : runOps M s0 ops with
    | none => rw [h1] at h; simp at h
    | some s1 => exact ⟨hM, q, s0, ops, h0, by simpa using h1⟩

theorem nQuantumOf_congr (s s1 : Scheduler) (h : s1.threadArray = s.threadArray) (i : Nat) :
    nQuantumOf s1 i = nQuantumOf s i := by
  unfold nQuantumOf; rw [h]

theorem nQuantumOf_update_state (s s1 : Scheduler) (t : Nat) (th : Thread) (st : State)
    (hth : s.threadArray t = some th)
    (h : s1.threadArray = Function.update s.threadArray t (some { th with state := st }))
    (i : Nat) : nQuantumOf s1 i = nQuantumOf s i := by
  unfold nQuantumOf
  rw [h]
  by_cases hi : i = t
  · subst hi; simp [hth]
  · rw [Function.update_noteq hi]

/-- The effect of a defined switch on the quantum counters. -/
theorem switch_effect (M : Nat) (w s1 : Scheduler) (hw : Wf M none w)
    (hrun : w.running = none → 0 ∈ w.readyList) (hsw : switchThread M w = some s1) :
    ∃ n, n < M ∧ s1.running = some n ∧ s1.totalQuantums = w.totalQuantums + 1 ∧
      (∃ k, nQuantumOf w n = some k ∧ nQuantumOf s1 n = some (k + 1)) ∧
      ∀ i, i ≠ n → nQuantumOf s1 i = nQuantumOf w i := by
  obtain ⟨n, rest, thn, _, hthn, _, hlt, e, _⟩ := switchThread_some M w s1 hw hrun hsw
  subst e
  refine ⟨n, (hw.slot n thn hthn).2, rfl, rfl, ⟨thn.nQuantum, ?_, ?_⟩, ?_⟩
  · simp [nQuantumOf, hthn]
  · have hq := hw.quant n thn hthn
    have hb : thn.nQuantum + 1 < UINT_MOD := by
      unfold INT_MAX at hlt
      unfold UINT_MOD
      omega
    simp [nQuantumOf, switchResult, hthn, switchedThread, Nat.mod_eq_of_lt hb]
  · intro i hi
    simp only [nQuantumOf, switchResult]
    cases w.threadArray i with
    | none => rfl
    | some th => simp [switchedThread, hi]

theorem stepEffect_same (M : Nat) (s s1 : Scheduler) (op : Op) (hsw : switches M s op = false)
    (hta : s1.threadArray = s.threadArray) (htot : s1.totalQuantums = s.totalQuantums) :
    StepEffect M s s1 op := by
  refine ⟨fun h => ?_, fun _ => ⟨htot, fun i => Or.inl (nQuantumOf_congr s s1 hta i)⟩⟩
  rw [hsw] at h; exact absurd h (by simp)

theorem stepEffect_switch (M : Nat) (s w s1 : Scheduler) (op : Op)
    (hsw : switches M s op = true) (hw : Wf M none w)
    (hrun : w.running = none → 0 ∈ w.readyList) (hs : switchThread M w = some s1)
    (htot : w.totalQuantums = s.totalQuantums)
    (hq : ∀ i, nQuantumOf w i = nQuantumOf s i ∨ (op.isTerminate = true ∧ w.threadArray i = none)) :
    StepEffect M s (unblockTimerThreadSwitch s1) op := by
  refine ⟨fun _ => ?_, fun h => ?_⟩
  · obtain ⟨n, hn, h1, h2, ⟨k, hk1, hk2⟩, h3⟩ := switch_effect M w s1 hw hrun hs
    refine ⟨n, hn, h1, by rw [← htot]; exact h2, ⟨k, ?_, hk2⟩, ?_⟩
    · rcases hq n with e | ⟨_, e⟩
      · rw [← e]; exact hk1
      · simp [nQuantumOf, e] at hk1
    · intro i hi
      have e1 : nQuantumOf (unblockTimerThreadSwitch s1) i = nQuantumOf w i := h3 i hi
      rcases hq i with e | ⟨ht, e⟩
      · exact Or.inl (e1.trans e)
      · refine Or.inr (Or.inl ⟨ht, ?_⟩)
        have : nQuantumOf s1 i = none := by rw [h3 i hi]; simp [nQuantumOf, e]
        simpa [nQuantumOf] using this
  · rw [hsw] at h; exact absurd h (by simp)

theorem spawn_effect (M : Nat) (s s1 : Scheduler)
    (hs : (uthread_spawn M s).state? = some s1) (h : Inv M s) : StepEffect M s s1 Op.spawn := by
  rcases id_spec M s with ⟨i, hid, hiM, hn, _⟩ | ⟨hid, _⟩
  · have hi0 : i ≠ 0 := by
      intro e; subst e
      obtain ⟨t0, h0, _⟩ := h.1.main
      rw [hn] at h0; simp at h0
    rw [spawn_spec M s i hid hi0] at hs
    simp only [Outcome.state?, Option.some.injEq] at hs
    subst hs
    refine ⟨fun hc => by simp [switches] at hc, fun _ => ⟨rfl, fun j => ?_⟩⟩
    by_cases hj : j = i
    · subst hj
      exact Or.inr (Or.inr ⟨hn, by simp [nQuantumOf, Thread.new]⟩)
    · exact Or.inl (by simp [nQuantumOf, Function.update_noteq hj])
  · rw [spawn_full M s hid] at hs
    simp only [Outcome.state?, Option.some.injEq] at hs
    subst hs
    exact stepEffect_same M s _ Op.spawn rfl rfl rfl

theorem running_ne_of_invalid (M : Nat) (s : Scheduler) (tid : Int) (h : Inv M s)
    (hv : tid < 0 ∨ tid ≥ M ∨ s.threadArray tid.toNat = none) :
    ¬ (0 < tid ∧ s.running = some tid.toNat) := by
  rintro ⟨hp, hr⟩
  obtain ⟨th, hth⟩ := h.1.runLive _ hr
  have := (h.1.slot _ th hth).2
  rcases hv with h1 | h1 | h1
  · omega
  · omega
  · rw [h1] at hth; simp at hth

theorem terminate_effect (M : Nat) (s s1 : Scheduler) (tid : Int)
    (hs : (uthread_terminate M s tid).state? = some s1) (h : Inv M s) :
    StepEffect M s s1 (Op.terminate tid) := by
  by_cases hv : tid < 0 ∨ tid ≥ M ∨ s.threadArray tid.toNat = none
  · rw [terminate_fail M s tid hv] at hs
    simp only [Outcome.state?, Option.some.injEq] at hs
    subst hs
    exact stepEffect_same M s _ _ (by simpa [switches] using running_ne_of_invalid M s tid h hv)
      rfl rfl
  · by_cases h0 : tid.toNat = 0
    · rw [terminate_main M s tid hv h0] at hs
      simp [Outcome.state?] at hs
    · obtain ⟨r, thr, hr, hthr, hrb⟩ := h.2
      obtain ⟨_, _, _, th, hth⟩ := valid_tid M s tid hv
      have hb := terminateBody_wf M (blockTimerThreadSwitch s) r tid.toNat th
        (inv_sig M s true h) hr h0 hth
      have hq : ∀ i, nQuantumOf (unblockTimerThreadSwitch
          (terminateBody M (blockTimerThreadSwitch s) r tid.toNat)) i = nQuantumOf s i ∨
          ((Op.terminate tid).isTerminate = true ∧ (unblockTimerThreadSwitch
            (terminateBody M (blockTimerThreadSwitch s) r tid.toNat)).threadArray i = none) := by
        intro i
        have e : (unblockTimerThreadSwitch
            (terminateBody M (blockTimerThreadSwitch s) r tid.toNat)).threadArray
            = Function.update s.threadArray tid.toNat none := terminateBody_threadArray M _ r _
        by_cases hi : i = tid.toNat
        · exact Or.inr ⟨rfl, by rw [e, hi]; simp⟩
        · exact Or.inl (by simp only [nQuantumOf]; rw [e, Function.update_noteq hi])
      by_cases hrt : r = tid.toNat
      · rw [hrt] at hr hb hq
        rw [terminate_self M s tid hv h0 hr] at hs
        cases hsw : switchThread M (unblockTimerThreadSwitch
            (terminateBody M (blockTimerThreadSwitch s) tid.toNat tid.toNat)) with
        | none => rw [hsw] at hs; simp [Outcome.state?] at hs
        | some s5 =>
          rw [hsw] at hs
          simp only [Outcome.state?, Option.some.injEq] at hs
          subst hs
          have hsw' : switches M s (Op.terminate tid) = true := by
            simp only [switches, decide_eq_true_eq]
            exact ⟨by omega, hr⟩
          have := stepEffect_switch M s _ s5 (Op.terminate tid) hsw'
            (wf_sig M none _ false hb.1) (fun _ => hb.2) hsw
            (terminateBody_totalQuantums M _ _ _) hq
          obtain ⟨_, _, _, _, _, _, _, e5, _⟩ := switchThread_some M _ s5
            (wf_sig M none _ false hb.1) (fun _ => hb.2) hsw
          have e6 : unblockTimerThreadSwitch s5 = s5 := by rw [e5]; rfl
          rwa [e6] at this
      · rw [terminate_other M s tid r hv h0 hr hrt] at hs
        simp only [Outcome.state?, Option.some.injEq] at hs
        subst hs
        have hsw' : switches M s (Op.terminate tid) = false := by
          simp only [switches, decide_eq_false_iff_not]
          rintro ⟨_, e⟩
          rw [hr] at e
          exact hrt (Option.some.inj e)
        refine ⟨fun hc => by rw [hsw'] at hc; exact absurd hc (by simp), fun _ =>
          ⟨terminateBody_totalQuantums M _ _ _, fun i => ?_⟩⟩
        rcases hq i with e | e
        · exact Or.inl e
        · exact Or.inr (Or.inl e)

theorem blockBody_threadArray (s : Scheduler) (t : Nat) (th : Thread) :
    (blockBody s t th).threadArray
      = Function.update s.threadArray t (some { th with state := State.BLOCKED }) := rfl

theorem blockBody_totalQuantums (s : Scheduler) (t : Nat) (th : Thread) :
    (blockBody s t th).totalQuantums = s.totalQuantums := rfl

theorem blockBody_running (s : Scheduler) (t : Nat) (th : Thread) :
    (blockBody s t th).running = s.running := rfl

theorem resumeBody_threadArray (s : Scheduler) (t : Nat) (th : Thread) :
    (resumeBody s t th).threadArray
      = Function.update s.threadArray t (some { th with state := State.READY }) := by
  unfold resumeBody
  simp only []
  split_ifs <;> rfl

theorem resumeBody_totalQuantums (s : Scheduler) (t : Nat) (th : Thread) :
    (resumeBody s t th).totalQuantums = s.totalQuantums := by
  unfold resumeBody
  simp only []
  split_ifs <;> rfl

theorem resumeBody_running (s : Scheduler) (t : Nat) (th : Thread) :
    (resumeBody s t th).running = s.running := by
  unfold resumeBody
  simp only []
  split_ifs <;> rfl

theorem block_effect (M : Nat) (s s1 : Scheduler) (tid : Int)
    (hs : (uthread_block M s tid).state? = some s1) (h : Inv M s) :
    StepEffect M s s1 (Op.block tid) := by
  by_cases hv : tid < 0 ∨ tid ≥ M ∨ tid.toNat = MAIN_THREAD_ID ∨ s.threadArray tid.toNat = none
  · rw [block_fail M s tid hv] at hs
    simp only [Outcome.state?, Option.some.injEq] at hs
    subst hs
    refine stepEffect_same M s _ _ ?_ rfl rfl
    simp only [switches, decide_eq_false_iff_not]
    rcases hv with h1 | h1 | h1 | h1
    · exact running_ne_of_invalid M s tid h (Or.inl h1)
    · exact running_ne_of_invalid M s tid h (Or.inr (Or.inl h1))
    · rintro ⟨hp, _⟩
      unfold MAIN_THREAD_ID at h1
      omega
    · exact running_ne_of_invalid M s tid h (Or.inr (Or.inr h1))
  · have hv' := hv
    push_neg at hv'
    obtain ⟨hnn, _, h0, hlive⟩ := hv'
    obtain ⟨r, thr, hr, hthr, hrb⟩ := h.2
    cases hth : s.threadArray tid.toNat with
    | none => exact absurd hth hlive
    | some th =>
      have hid : th.id = tid.toNat := (h.1.slot _ th hth).1
      by_cases hb : th.state = State.BLOCKED
      · rw [block_blocked M s tid th hv hth hb] at hs
        simp only [Outcome.state?, Option.some.injEq] at hs
        subst hs
        refine stepEffect_same M s _ _ ?_ rfl rfl
        simp only [switches, decide_eq_false_iff_not]
        rintro ⟨_, e⟩
        rw [hr] at e
        have := Option.some.inj e
        subst this
        rw [hthr] at hth
        cases hth
        exact hrb hb
      · by_cases hrun : s.running = some th.id
        · rw [block_self M s tid th hv hth hb hrun] at hs
          cases hsw : switchThread M (unblockTimerThreadSwitch
              (blockBody (blockTimerThreadSwitch s) tid.toNat th)) with
          | none => rw [hsw] at hs; simp [Outcome.state?] at hs
          | some s3 =>
            rw [hsw] at hs
            simp only [Outcome.state?, Option.some.injEq] at hs
            subst hs
            have hw := blockBody_wf M (blockTimerThreadSwitch s) tid.toNat th (inv_sig M s true h)
              h0 hth
            refine stepEffect_switch M s _ s3 (Op.block tid) ?_ (wf_sig M none _ false hw)
              (fun hn => ?_) hsw rfl (fun i => Or.inl ?_)
            · simp only [switches, decide_eq_true_eq]
              refine ⟨?_, by rw [hrun, hid]⟩
              unfold MAIN_THREAD_ID at h0
              omega
            · have : s.running = none := hn
              rw [hrun] at this; exact absurd this (by simp)
            · exact nQuantumOf_update_state s _ tid.toNat th State.BLOCKED hth rfl i
        · rw [block_other M s tid th hv hth hb hrun] at hs
          simp only [Outcome.state?, Option.some.injEq] at hs
          subst hs
          refine ⟨fun hc => ?_, fun _ => ⟨rfl, fun i => Or.inl ?_⟩⟩
          · simp only [switches, decide_eq_true_eq] at hc
            exact absurd (by rw [hc.2, hid]) hrun
          · exact nQuantumOf_update_state s _ tid.toNat th State.BLOCKED hth rfl i

theorem resume_effect (M : Nat) (s s1 : Scheduler) (tid : Int)
    (hs : (uthread_resume M s tid).state? = some s1) :
    StepEffect M s s1 (Op.resume tid) := by
  by_cases hv : tid < 0 ∨ tid ≥ M ∨ s.threadArray tid.toNat = none
  · rw [resume_fail M s tid hv] at hs
    simp only [Outcome.state?, Option.some.injEq] at hs
    subst hs
    exact stepEffect_same M s _ _ rfl rfl rfl
  · obtain ⟨_, _, _, th, hth⟩ := valid_tid M s tid hv
    rw [resume_ok M s tid th hv hth] at hs
    simp only [Outcome.state?, Option.some.injEq] at hs
    subst hs
    refine ⟨fun hc => by simp [switches] at hc, fun _ =>
      ⟨resumeBody_totalQuantums _ _ _, fun i => Or.inl ?_⟩⟩
    exact nQuantumOf_update_state s _ tid.toNat th State.READY hth
      (resumeBody_threadArray (blockTimerThreadSwitch s) tid.toNat th) i

theorem sync_effect (M : Nat) (s s1 : Scheduler) (tid : Int)
    (hs : (uthread_sync M s tid).state? = some s1) (h : Inv M s) :
    StepEffect M s s1 (Op.sync tid) := by
  by_cases hv : tid < 0 ∨ tid ≥ M ∨ s.threadArray tid.toNat = none
  · rw [sync_fail M s tid hv] at hs
    simp only [Outcome.state?, Option.some.injEq] at hs
    subst hs
    refine stepEffect_same M s _ _ ?_ rfl rfl
    simp only [switches, decide_eq_false_iff_not]
    rintro ⟨h1, h2, h3, _⟩
    rcases hv with e | e | e
    · omega
    · omega
    · rw [e] at h3; simp at h3
  · obtain ⟨r, thr, hr, hthr, _⟩ := h.2
    by_cases hr0 : r = MAIN_THREAD_ID
    · rw [sync_main M s tid hv (by rw [hr, hr0])] at hs
      simp only [Outcome.state?, Option.some.injEq] at hs
      subst hs
      refine stepEffect_same M s _ _ ?_ rfl rfl
      simp only [switches, decide_eq_false_iff_not]
      rintro ⟨_, _, _, h4⟩
      exact h4 (by rw [hr, hr0])
    · rw [sync_ok M s tid r hv hr hr0] at hs
      obtain ⟨hnn, htM, hcast, th, hth⟩ := valid_tid M s tid hv
      cases hsw : switchThread M (unblockTimerThreadSwitch
          (syncBody (blockTimerThreadSwitch s) tid.toNat r)) with
      | none => rw [hsw] at hs; simp [Outcome.state?] at hs
      | some s2 =>
        rw [hsw] at hs
        simp only [Outcome.state?, Option.some.injEq] at hs
        subst hs
        have hw := syncBody_wf M (blockTimerThreadSwitch s) tid.toNat r
          (wf_sig M none s true h.1) htM (h.1.slot r thr hthr).2 hr0
        refine stepEffect_switch M s _ s2 (Op.sync tid) ?_ (wf_sig M none _ false hw)
          (fun hn => ?_) hsw (syncBody_totalQuantums _ _ _) (fun i => Or.inl ?_)
        · simp only [switches, decide_eq_true_eq]
          refine ⟨hnn, by omega, by simp [hth], ?_⟩
          rw [hr]
          intro e
          exact hr0 (Option.some.inj e)
        · have : (syncBody (blockTimerThreadSwitch s) tid.toNat r).running = none := hn
          rw [syncBody_running] at this
          have : s.running = none := this
          rw [hr] at this; exact absurd this (by simp)
        · exact nQuantumOf_congr s _ (syncBody_threadArray (blockTimerThreadSwitch s) _ _) i

theorem timer_effect (M : Nat) (s s1 : Scheduler)
    (hs : (timerSignal M s).state? = some s1) (h : Inv M s) : StepEffect M s s1 Op.timer := by
  unfold timerSignal at hs
  split_ifs at hs with hi
  · simp only [Outcome.state?, Option.some.injEq] at hs
    subst hs
    exact stepEffect_same M s s Op.timer (by simp [switches, hi]) rfl rfl
  · cases hsw : switchThread M s with
    | none => rw [hsw] at hs; simp [Outcome.state?] at hs
    | some s2 =>
      rw [hsw] at hs
      simp only [Outcome.state?, Option.some.injEq] at hs
      subst hs
      obtain ⟨r, _, hr, _, _⟩ := h.2
      have hrun : s.running = none → 0 ∈ s.readyList :=
        fun hn => by rw [hr] at hn; exact absurd hn (by simp)
      have := stepEffect_switch M s s s2 Op.timer (by simp [switches, hi]) h.1 hrun hsw rfl
        (fun i => Or.inl rfl)
      obtain ⟨_, _, _, _, _, _, _, e5, _⟩ := switchThread_some M s s2 h.1 hrun hsw
      have e6 : unblockTimerThreadSwitch s2 = s2 := by rw [e5]; rfl
      rwa [e6] at this

/-- The effect of every operation on the quantum counters. -/
theorem applyOp_effect (M : Nat) (s s1 : Scheduler) (op : Op) (h : Inv M s)
    (hs : (applyOp M s op).state? = some s1) : StepEffect M s s1 op := by
  cases op with
  | spawn => exact spawn_effect M s s1 hs h
  | terminate tid => exact terminate_effect M s s1 tid hs h
  | block tid => exact block_effect M s s1 tid hs h
  | resume tid => exact resume_effect M s s1 tid hs
  | sync tid => exact sync_effect M s s1 tid hs h
  | timer => exact timer_effect M s s1 hs h

theorem sum_bump (M : Nat) (f g : Nat → Int) (n : Nat) (hn : n < M) (h1 : g n = f n + 1)
    (h2 : ∀ i, i ≠ n → g i = f i) :
    ∑ i in Finset.range M, g i = ∑ i in Finset.range M, f i + 1 := by
  have hm : n ∈ Finset.range M := Finset.mem_range.mpr hn
  rw [← Finset.add_sum_erase _ g hm, ← Finset.add_sum_erase _ f hm, h1]
  have : ∑ i in (Finset.range M).erase n, g i = ∑ i in (Finset.range M).erase n, f i := by
    apply Finset.sum_congr rfl
    intro i hi
    exact h2 i (Finset.ne_of_mem_erase hi)
  rw [this]; ring

theorem qframe_getD (s s1 : Scheduler) (i : Nat) (h : QFrame false s s1 i) :
    (nQuantumOf s1 i).getD 0 = (nQuantumOf s i).getD 0 := by
  rcases h with e | ⟨e, _⟩ | ⟨e1, e2⟩
  · rw [e]
  · exact absurd e (by simp)
  · rw [e2]; simp [nQuantumOf, e1]

/-- A step that is not a `terminate` call keeps `totalQuantums` equal to the sum of the
`nQuantum` of the live threads. -/
theorem step_sum (M : Nat) (s s1 : Scheduler) (op : Op) (h : Inv M s)
    (hs : (applyOp M s op).state? = some s1) (hop : op.isTerminate = false)
    (hsum : s.totalQuantums = sumQuantums M s) : s1.totalQuantums = sumQuantums M s1 := by
  have he := applyOp_effect M s s1 op h hs
  unfold StepEffect at he
  rw [hop] at he
  unfold sumQuantums at hsum ⊢
  cases hsw : switches M s op with
  | true =>
    obtain ⟨n, hn, _, htot, ⟨k, hk1, hk2⟩, hfr⟩ := he.1 hsw
    rw [htot, hsum]
    symm
    apply sum_bump M _ _ n hn
    · rw [hk1, hk2]; simp
    · intro i hi
      rw [qframe_getD s s1 i (hfr i hi)]
  | false =>
    obtain ⟨htot, hfr⟩ := he.2 hsw
    rw [htot, hsum]
    apply Finset.sum_congr rfl
    intro i _
    rw [qframe_getD s s1 i (hfr i)]

theorem runOps_sum (M : Nat) (ops : List Op) (s s1 : Scheduler) (h : Inv M s)
    (hs : runOps M s ops = some s1) (hops : ∀ op ∈ ops, op.isTerminate = false)
    (hsum : s.totalQuantums = sumQuantums M s) : s1.totalQuantums = sumQuantums M s1 := by
  induction ops generalizing s with
  | nil =>
    simp only [runOps, Option.some.injEq] at hs
    subst hs; exact hsum
  | cons op ops ih =>
    simp only [runOps] at hs
    cases ho : (applyOp M s op).state? with
    | none => rw [ho] at hs; simp at hs
    | some s2 =>
      rw [ho] at hs
      exact ih s2 (applyOp_inv M s s2 op h ho) hs
        (fun o hm => hops o (List.mem_cons_of_mem _ hm))
        (step_sum M s s2 op h ho (hops op (List.mem_cons_self _ _)) hsum)

theorem init_sum (M : Nat) (q : Int) (hM : 0 < M) :
    (switchResult M (bootState q) 0 []).totalQuantums
      = sumQuantums M (switchResult M (bootState q) 0 []) := by
  unfold sumQuantums
  rw [Finset.sum_eq_single 0]
  · simp [switchResult, bootState, nQuantumOf, switchedThread, UINT_MOD]
  · intro i _ hi
    simp [switchResult, bootState, nQuantumOf, Function.update_noteq hi]
  · intro h
    exact absurd (Finset.mem_range.mpr hM) h

theorem reachable_trace_noTerminate (M : Nat) (q : Int) (ops : List Op) (hM : 0 < M)
    (h : (traceRun M q ops).isSome = true) (hops : ops.all (fun o => !o.isTerminate) = true) :
    ReachableNoTerminate M (traceState M q ops) := by
  obtain ⟨_, q', s0, ops', h0, h1⟩ : ∃ (_ : True) (q' : Int) (s0 : Scheduler) (ops' : List Op),
      (initState M q' = some s0 ∧ q' = q ∧ ops' = ops) ∧ runOps M s0 ops' = some (traceState M q ops) := by
    unfold traceState
    unfold traceRun at h ⊢
    cases h0 : initState M q with
    | none => rw [h0] at h; simp at h
    | some s0 =>
      rw [h0] at h
      simp only [] at h ⊢
      cases h1 : runOps M s0 ops with
      | none => rw [h1] at h; simp at h
      | some s1 => exact ⟨trivial, q, s0, ops, ⟨h0, rfl, rfl⟩, by simpa using h1⟩
  obtain ⟨h0, _, e⟩ := h0
  subst e
  refine ⟨hM, q', s0, ops', h0, h1, ?_⟩
  intro op hop
  have := List.all_eq_true.mp hops op hop
  simpa using this

theorem preSwitch_prefix (M : Nat) (s : Scheduler) :
    ∃ extra, (preSwitch M s).readyList = s.readyList ++ extra := by
  unfold preSwitch
  cases s.running with
  | none => exact ⟨[], by simp [blockTimerThreadSwitch]⟩
  | some r => exact unsync_prefix M (blockTimerThreadSwitch s) r

theorem preSwitch_complete (M : Nat) (s : Scheduler) (r : Nat) (h : Wf M none s)
    (hr : s.running = some r) (i : Nat) (th : Thread) (hi : s.threadArray i = some th)
    (hnb : th.state ≠ State.BLOCKED) (hz : (preSwitch M s).numSyncedThreads i = 0) :
    i ∈ (preSwitch M s).readyList := by
  obtain ⟨thr, hthr⟩ := h.runLive r hr
  unfold preSwitch at hz ⊢
  rw [hr] at hz ⊢
  simp only [] at hz ⊢
  apply unsync_complete M none r _ (h.slot r thr hthr).2 _ (wf_blockTimer M none s h) i th hi hnb hz
  intro hn
  have : s.threadArray r = none := hn
  rw [hthr] at this; exact absurd this (by simp)

/-- With every counter zero, releasing the waiters of a live thread changes no counter. -/
theorem unsync_zero (M : Nat) (s : Scheduler) (r : Nat) (thr : Thread) (h : Wf M none s)
    (hthr : s.threadArray r = some thr) (hz : ∀ j, j < M → s.numSyncedThreads j = 0) :
    ∀ j, j < M → (unsync M s r).numSyncedThreads j = 0 := by
  have hrM : r < M := (h.slot r thr hthr).2
  have hx : ∀ b : Scheduler, b.threadArray = s.threadArray → b.threadArray r = none →
      (none : Option Nat) = some r := by
    intro b hb hn
    rw [hb, hthr] at hn; exact absurd hn (by simp)
  have key := range_foldl_induct
    (fun _ (b : Scheduler) => b.threadArray = s.threadArray ∧ Wf M none b ∧
      ∀ j, j < M → b.numSyncedThreads j = 0)
    (unsyncStep r) M s ⟨rfl, h, hz⟩ ?_
  · exact key.2.2
  · intro k b _ hb
    obtain ⟨hta, hw, hzb⟩ := hb
    refine ⟨by rw [unsyncStep_threadArray, hta],
      unsyncStep_wf M none r b k hrM (hx b hta) hw, ?_⟩
    intro j hj
    rw [unsyncStep_numSyncedThreads]
    have hlive : ¬ b.threadArray r = none := by rw [hta, hthr]; simp
    rw [if_neg hlive]
    by_cases hjk : j = k
    · subst hjk
      rw [Function.update_same]
      unfold decCounter
      have hc : syncCount M b.syncMatrix j = 0 := by
        have := hw.counted j hj (by simp)
        rw [hzb j hj] at this
        exact_mod_cast this.symm
      have hS := syncCount_eq_zero M _ j hc r hrM
      simp [hS, hzb j hj]
    · rw [Function.update_noteq hjk]; exact hzb j hj

theorem preSwitch_zero (M : Nat) (s : Scheduler) (r : Nat) (h : Wf M none s)
    (hr : s.running = some r) (hz : ∀ j, j < M → s.numSyncedThreads j = 0) :
    ∀ j, j < M → (preSwitch M s).numSyncedThreads j = 0 := by
  obtain ⟨thr, hthr⟩ := h.runLive r hr
  unfold preSwitch
  rw [hr]
  exact unsync_zero M (blockTimerThreadSwitch s) r thr (wf_blockTimer M none s h) hthr hz

/-- The `nQuantum` of the slots after a switch that dispatches `n`. -/
theorem switchResult_nQuantumOf (M : Nat) (s : Scheduler) (n : Nat) (rest : List Nat)
    (h : Wf M none s) (htot : s.totalQuantums < INT_MAX) (i : Nat) :
    nQuantumOf (switchResult M s n rest) i
      = if i = n then (nQuantumOf s i).map (· + 1) else nQuantumOf s i := by
  simp only [nQuantumOf, switchResult]
  cases hi : s.threadArray i with
  | none => simp
  | some th =>
    have hq := h.quant i th hi
    have hb : th.nQuantum + 1 < UINT_MOD := by
      unfold INT_MAX at htot
      unfold UINT_MOD
      omega
    by_cases hin : i = n
    · simp [switchedThread, hin, Nat.mod_eq_of_lt hb]
    · simp [switchedThread, hin]

/-- With three ready threads and no sync dependency, the ready list of a switch, once the
released threads are appended, holds exactly the three threads. -/
theorem preSwitch_three (M : Nat) (s : Scheduler) (T : Finset Nat) (h : Inv M s)
    (h3 : ThreeReady M s T) :
    (preSwitch M s).readyList.Nodup ∧ (∀ i, i ∈ (preSwitch M s).readyList ↔ i ∈ T) := by
  obtain ⟨hw, r, _, hr, _, _⟩ := h
  obtain ⟨_, hlive, hnb, hz⟩ := h3
  have hpw := preSwitch_wf M s hw
  refine ⟨hpw.nodup, fun i => ⟨fun hi => ?_, fun hi => ?_⟩⟩
  · obtain ⟨th, hth, _⟩ := hpw.ready i hi (by simp)
    rw [preSwitch_threadArray] at hth
    exact (hlive i).mp (by rw [hth]; simp)
  · have hl := (hlive i).mpr hi
    cases hth : s.threadArray i with
    | none => exact absurd hth hl
    | some th =>
      exact preSwitch_complete M s r hw hr i th hth (hnb i th hth)
        (preSwitch_zero M s r hw hr hz i (hw.slot i th hth).2)

theorem switchResult_three (M : Nat) (s : Scheduler) (T : Finset Nat) (n : Nat)
    (rest : List Nat) (h : Inv M s) (h3 : ThreeReady M s T) :
    ThreeReady M (switchResult M s n rest) T := by
  obtain ⟨hw, r, _, hr, _, _⟩ := h
  obtain ⟨hc, hlive, hnb, hz⟩ := h3
  refine ⟨hc, fun i => ?_, ?_, preSwitch_zero M s r hw hr hz⟩
  · rw [← hlive i]
    simp only [switchResult]
    cases s.threadArray i <;> simp
  · intro i th hi
    simp only [switchResult] at hi
    cases hti : s.threadArray i with
    | none => rw [hti] at hi; simp at hi
    | some t0 =>
      rw [hti] at hi
      simp only [Option.map_some', Option.some.injEq] at hi
      rw [← hi]
      exact switchedThread_not_blocked _ _ _ _ (hnb i t0 hti)

theorem list_of_three (l : List Nat) (T : Finset Nat) (hnd : l.Nodup) (hT : T.card = 3)
    (hm : ∀ i, i ∈ l ↔ i ∈ T) : ∃ x y z, l = [x, y, z] := by
  have e : l.toFinset = T := by
    ext i; simp [hm i]
  have hlen : l.length = 3 := by
    rw [← List.toFinset_card_of_nodup hnd, e, hT]
  match l, hlen with
  | [x, y, z], _ => exact ⟨x, y, z, rfl⟩

theorem rotate_three (l : List Nat) (T : Finset Nat) (x y z : Nat) (extra : List Nat)
    (hnd : l.Nodup) (hT : T.card = 3) (hm : ∀ i, i ∈ l ↔ i ∈ T)
    (hxyz : ∀ i, i ∈ T ↔ i ∈ [x, y, z]) (hl : l = [y, z] ++ extra) : l = [y, z, x] := by
  obtain ⟨a, b, c, habc⟩ := list_of_three l T hnd hT hm
  rw [habc] at hl hnd hm
  simp only [List.cons_append, List.nil_append, List.cons.injEq] at hl
  obtain ⟨ha, hb, hc⟩ := hl
  subst ha hb
  have hcm : c ∈ [x, a, b] := (hxyz c).mp ((hm c).mp (by simp))
  have hca : c ≠ a := by intro e; subst e; simp at hnd
  have hcb : c ≠ b := by intro e; subst e; simp at hnd
  simp only [List.mem_cons, List.mem_singleton, List.not_mem_nil, or_false] at hcm
  rw [habc]
  rcases hcm with e | e | e
  · rw [e]
  · exact absurd e hca
  · exact absurd e hcb

theorem timerSwitches_add (M : Nat) (a b : Nat) (s : Scheduler) :
    timerSwitches M (a + b) s = (timerSwitches M a s).bind (timerSwitches M b) := by
  induction a generalizing s with
  | zero => simp [timerSwitches]
  | succ n ih =>
    rw [Nat.succ_add]
    simp only [timerSwitches]
    cases switchThread M s with
    | none => rfl
    | some s1 => exact ih s1

/-- One switch in a state with three ready threads and no sync dependency: it dispatches
the front of the ready list as completed by `unsync`, and the state it leaves has the same
three ready threads. -/
theorem switch_three (M : Nat) (s s1 : Scheduler) (T : Finset Nat) (h : Inv M s)
    (h3 : ThreeReady M s T) (hs : switchThread M s = some s1) :
    ∃ x y z, (preSwitch M s).readyList = [x, y, z] ∧ s1 = switchResult M s x [y, z] ∧
      Inv M s1 ∧ ThreeReady M s1 T ∧ s.totalQuantums < INT_MAX := by
  obtain ⟨r, _, hr, _, _⟩ := h.2
  have hrun : s.running = none → 0 ∈ s.readyList :=
    fun hn => by rw [hr] at hn; exact absurd hn (by simp)
  obtain ⟨n, rest, _, hl, _, _, hlt, e, hi⟩ := switchThread_some M s s1 h.1 hrun hs
  obtain ⟨hnd, hm⟩ := preSwitch_three M s T h h3
  obtain ⟨x, y, z, hxyz⟩ := list_of_three _ T hnd h3.1 hm
  rw [hxyz] at hl
  simp only [List.cons.injEq] at hl
  obtain ⟨e1, e2⟩ := hl
  subst e1 e2
  exact ⟨x, y, z, hxyz, e, hi, e ▸ switchResult_three M s T x [y, z] h h3, hlt⟩

/-- Three consecutive switches in a state with three ready threads and no sync dependency
dispatch each of the three threads exactly once. -/
theorem three_switches (M : Nat) (s s3 : Scheduler) (T : Finset Nat) (h : Inv M s)
    (h3 : ThreeReady M s T) (hs : timerSwitches M 3 s = some s3) :
    Inv M s3 ∧ ThreeReady M s3 T ∧ s3.totalQuantums = s.totalQuantums + 3 ∧
      ∀ i, i ∈ T → nQuantumOf s3 i = (nQuantumOf s i).map (· + 1) := by
  simp only [timerSwitches] at hs
  cases hs1 : switchThread M s with
  | none => rw [hs1] at hs; simp at hs
  | some s1 =>
    rw [hs1] at hs
    simp only [] at hs
    cases hs2 : switchThread M s1 with
    | none => rw [hs2] at hs; simp at hs
    | some s2 =>
      rw [hs2] at hs
      simp only [] at hs
      cases hs3 : switchThread M s2 with
      | none => rw [hs3] at hs; simp at hs
      | some s3' =>
        rw [hs3] at hs
        simp only [Option.some.injEq] at hs
        subst hs
        obtain ⟨x, y, z, hl1, e1, hi1, ht1, hlt1⟩ := switch_three M s s1 T h h3 hs1
        obtain ⟨x2, y2, z2, hl2, e2, hi2, ht2, hlt2⟩ := switch_three M s1 s2 T hi1 ht1 hs2
        obtain ⟨x3, y3, z3, hl3, e3, hi3, ht3, hlt3⟩ := switch_three M s2 s3' T hi2 ht2 hs3
        -- the ready lists rotate
        obtain ⟨hnd1, hm1⟩ := preSwitch_three M s T h h3
        obtain ⟨hnd2, hm2⟩ := preSwitch_three M s1 T hi1 ht1
        obtain ⟨hnd3, hm3⟩ := preSwitch_three M s2 T hi2 ht2
        have hT1 : ∀ i, i ∈ T ↔ i ∈ [x, y, z] := fun i => by rw [← hm1 i, hl1]
        obtain ⟨ex2, hp2⟩ := preSwitch_prefix M s1
        have hr1 : s1.readyList = [y, z] := by rw [e1]; rfl
        rw [hr1] at hp2
        have hrot2 := rotate_three _ T x y z ex2 hnd2 h3.1 hm2 hT1 hp2
        rw [hrot2] at hl2
        simp only [List.cons.injEq, and_true] at hl2
        obtain ⟨a1, a2, a3⟩ := hl2
        subst a1 a2 a3
        have hT2 : ∀ i, i ∈ T ↔ i ∈ [y, z, x] := fun i => by rw [← hm2 i, hrot2]
        obtain ⟨ex3, hp3⟩ := preSwitch_prefix M s2
        have hr2 : s2.readyList = [z, x] := by rw [e2]; rfl
        rw [hr2] at hp3
        have hrot3 := rotate_three _ T y z x ex3 hnd3 h3.1 hm3 hT2 hp3
        rw [hrot3] at hl3
        simp only [List.cons.injEq, and_true] at hl3
        obtain ⟨b1, b2, b3⟩ := hl3
        subst b1 b2 b3
        rw [hl1] at hnd1
        have hxy : x ≠ y := by intro e; subst e; simp at hnd1
        have hxz : x ≠ z := by intro e; subst e; simp at hnd1
        have hyz : y ≠ z := by intro e; subst e; simp at hnd1
        have q1 := switchResult_nQuantumOf M s x [y, z] h.1 hlt1
        have q2 := switchResult_nQuantumOf M s1 y [z, x] hi1.1 hlt2
        have q3 := switchResult_nQuantumOf M s2 z [x, y] hi2.1 hlt3
        rw [← e1] at q1
        rw [← e2] at q2
        rw [← e3] at q3
        refine ⟨hi3, ht3, ?_, ?_⟩
        · have t1 : s1.totalQuantums = s.totalQuantums + 1 := by rw [e1]; rfl
          have t2 : s2.totalQuantums = s1.totalQuantums + 1 := by rw [e2]; rfl
          have t3 : s3'.totalQuantums = s2.totalQuantums + 1 := by rw [e3]; rfl
          omega
        · intro i hi
          have hi' := (hT1 i).mp hi
          simp only [List.mem_cons, List.mem_singleton, List.not_mem_nil, or_false] at hi'
          rw [q3 i, q2 i, q1 i]
          rcases hi' with e | e | e
          · subst e
            simp [hxy, hxz]
          · subst e
            simp [Ne.symm hxy, hyz]
          · subst e
            simp [Ne.symm hxz, Ne.symm hyz]

theorem three_switches_defined (M : Nat) (s : Scheduler) (T : Finset Nat) (h : Inv M s)
    (h3 : ThreeReady M s T) (htot : s.totalQuantums + 3 ≤ INT_MAX) :
    ∃ s3, timerSwitches M 3 s = some s3 := by
  have run : ∀ b : Scheduler, Inv M b → b.running = none → 0 ∈ b.readyList := by
    intro b hb hn
    obtain ⟨r, _, hr, _, _⟩ := hb.2
    rw [hr] at hn; exact absurd hn (by simp)
  obtain ⟨s1, hs1⟩ := switchThread_defined M s h.1 (run s h) (by omega)
  obtain ⟨_, _, _, _, e1, hi1, ht1, _⟩ := switch_three M s s1 T h h3 hs1
  have t1 : s1.totalQuantums = s.totalQuantums + 1 := by rw [e1]; rfl
  obtain ⟨s2, hs2⟩ := switchThread_defined M s1 hi1.1 (run s1 hi1) (by omega)
  obtain ⟨_, _, _, _, e2, hi2, ht2, _⟩ := switch_three M s1 s2 T hi1 ht1 hs2
  have t2 : s2.totalQuantums = s1.totalQuantums + 1 := by rw [e2]; rfl
  obtain ⟨s3, hs3⟩ := switchThread_defined M s2 hi2.1 (run s2 hi2) (by omega)
  exact ⟨s3, by simp [timerSwitches, hs1, hs2, hs3]⟩

/-- After `3 * k` consecutive switches in a state with three ready threads and no sync
dependency each of the three threads has been dispatched `k` times. -/
theorem round_robin_rounds (M : Nat) (T : Finset Nat) (k : Nat) (s s1 : Scheduler)
    (h : Inv M s) (h3 : ThreeReady M s T) (hs : timerSwitches M (3 * k) s = some s1) :
    ∀ i, i ∈ T → nQuantumOf s1 i = (nQuantumOf s i).map (· + k) := by
  induction k generalizing s with
  | zero =>
    simp only [Nat.mul_zero, timerSwitches, Option.some.injEq] at hs
    subst hs
    intro i _
    cases nQuantumOf s i <;> simp
  | succ k ih =>
    have e : 3 * (k + 1) = 3 + 3 * k := by ring
    rw [e, timerSwitches_add] at hs
    cases h3s : timerSwitches M 3 s with
    | none => rw [h3s] at hs; simp at hs
    | some s3 =>
      rw [h3s] at hs
      simp only [Option.some_bind] at hs
      obtain ⟨hi3, ht3, _, hq3⟩ := three_switches M s s3 T h h3 h3s
      intro i hi
      rw [ih s3 hi3 ht3 hs i hi, hq3 i hi]
      cases nQuantumOf s i with
      | none => rfl
      | some q => simp only [Option.map_some', Option.some.injEq]; omega

theorem round_robin_defined (M : Nat) (T : Finset Nat) (k : Nat) (s : Scheduler)
    (h : Inv M s) (h3 : ThreeReady M s T) (htot : s.totalQuantums + 3 * k ≤ INT_MAX) :
    ∃ s1, timerSwitches M (3 * k) s = some s1 := by
  induction k generalizing s with
  | zero => exact ⟨s, rfl⟩
  | succ k ih =>
    have e : 3 * (k + 1) = 3 + 3 * k := by ring
    obtain ⟨s3, h3s⟩ := three_switches_defined M s T h h3 (by push_cast at htot; omega)
    obtain ⟨hi3, ht3, htot3, _⟩ := three_switches M s s3 T h h3 h3s
    obtain ⟨s1, hs1⟩ := ih s3 hi3 ht3 (by push_cast at htot; omega)
    exact ⟨s1, by rw [e, timerSwitches_add, h3s]; exact hs1⟩

theorem threeReady_of (M : Nat) (s : Scheduler) (A B C : Nat) (h : Inv M s) (hAB : A ≠ B)
    (hAC : A ≠ C) (hBC : B ≠ C) (hA : (s.threadArray A).isSome = true)
    (hB : (s.threadArray B).isSome = true) (hC : (s.threadArray C).isSome = true)
    (hothers : ∀ i, i < M → (s.threadArray i).isSome = true → i = A ∨ i = B ∨ i = C)
    (hnb : ∀ i, i < M → stateOf s i ≠ some State.BLOCKED)
    (hz : ∀ j, j < M → s.numSyncedThreads j = 0) : ThreeReady M s {A, B, C} := by
  refine ⟨?_, fun i => ⟨fun hi => ?_, fun hi => ?_⟩, ?_, hz⟩
  · rw [Finset.card_insert_of_not_mem (by simp [hAB, hAC]),
      Finset.card_insert_of_not_mem (by simp [hBC]), Finset.card_singleton]
  · cases hth : s.threadArray i with
    | none => exact absurd hth hi
    | some th =>
      have := hothers i (h.1.slot i th hth).2 (by simp [hth])
      simpa using this
  · simp only [Finset.mem_insert, Finset.mem_singleton] at hi
    rcases hi with e | e | e <;> subst e <;> intro hn
    · rw [hn] at hA; simp at hA
    · rw [hn] at hB; simp at hB
    · rw [hn] at hC; simp at hC
  · intro i th hth hb
    exact hnb i (h.1.slot i th hth).2 (by simp [stateOf, hth, hb])

/-- The loop of `unsync` only clears entries of the sync matrix. -/
theorem unsync_zero_mono (M : Nat) (s : Scheduler) (tid a b : Nat) (h : s.syncMatrix a b = 0) :
    (unsync M s tid).syncMatrix a b = 0 := by
  unfold unsync
  refine range_foldl_induct (fun _ (u : Scheduler) => u.syncMatrix a b = 0) (unsyncStep tid) M s
    h ?_
  intro k u _ hu
  rw [unsyncStep_syncMatrix]
  split_ifs <;> simp only [setCell_apply] <;> split_ifs <;> simp [hu]

/-- The loop of `unsync` clears the row of `tid`. -/
theorem unsync_row_clear (M : Nat) (s : Scheduler) (tid : Nat) :
    ∀ i, i < M → (unsync M s tid).syncMatrix tid i = 0 := by
  have key := range_foldl_induct
    (fun k (u : Scheduler) => ∀ i, i < k → u.syncMatrix tid i = 0)
    (unsyncStep tid) M s (fun i hi => absurd hi (Nat.not_lt_zero i)) ?_
  · exact key
  · intro k u _ hu i hi
    rw [unsyncStep_syncMatrix]
    have h1 : setCell u.syncMatrix tid k 0 tid i = 0 := by
      simp only [setCell_apply]
      split_ifs with hc
      · rfl
      · have hlt : i < k := by
          rcases Nat.lt_succ_iff_lt_or_eq.mp hi with h | h
          · exact h
          · exact absurd ⟨trivial, h⟩ hc
        exact hu i hlt
    split_ifs
    · rw [setCell_apply]
      split_ifs
      · rfl
      · exact h1
    · exact h1

theorem reachable_step (M : Nat) (s s1 : Scheduler) (op : Op) (h : Reachable M s)
    (hs : (applyOp M s op).state? = some s1) : Reachable M s1 := by
  obtain ⟨hM, q, s0, ops, h0, hrun⟩ := h
  refine ⟨hM, q, s0, ops ++ [op], h0, ?_⟩
  clear h0
  induction ops generalizing s0 with
  | nil =>
    simp only [runOps, Option.some.injEq] at hrun
    subst hrun
    simp [runOps, hs]
  | cons o os ih =>
    simp only [runOps, List.cons_append] at hrun ⊢
    cases ho : (applyOp M s0 o).state? with
    | none => rw [ho] at hrun; simp at hrun
    | some s2 =>
      rw [ho] at hrun
      exact ih s2 hrun

theorem switch_unmasked (M : Nat) (w s1 : Scheduler) (h : SwitchReady M w)
    (hs : switchThread M w = some s1) : unblockTimerThreadSwitch s1 = s1 := by
  obtain ⟨_, _, _, _, _, _, _, e, _⟩ := switchThread_some M w s1 h.1 h.2 hs
  rw [e]; rfl

theorem switchReady_of_inv (M : Nat) (s : Scheduler) (h : Inv M s) : SwitchReady M s := by
  obtain ⟨r, _, hr, _, _⟩ := h.2
  exact ⟨h.1, fun hn => by rw [hr] at hn; exact absurd hn (by simp)⟩

/-- Every operation is a bookkeeping step followed, possibly, by a switch. -/
theorem applyOp_decomp (M : Nat) (s s1 : Scheduler) (op : Op) (h : Inv M s)
    (hs : (applyOp M s op).state? = some s1) :
    ∃ b w, Body M { s with sigIgnored := b } op w ∧
      (((∃ b1, s1 = { w with sigIgnored := b1 }) ∧
          ∀ tid, op = Op.sync tid → w = { s with sigIgnored := b }) ∨
       (SwitchReady M (unblockTimerThreadSwitch w) ∧
        switchThread M (unblockTimerThreadSwitch w) = some s1)) := by
  have hI := inv_sig M s true h
  cases op with
  | spawn =>
    simp only [applyOp] at hs
    rcases id_spec M s with ⟨i, hid, hiM, hn, hmin⟩ | ⟨hid, _⟩
    · have hi0 : i ≠ 0 := by
        intro e; subst e
        obtain ⟨t0, h0, _⟩ := h.1.main
        rw [hn] at h0; simp at h0
      rw [spawn_spec M s i hid hi0] at hs
      simp only [Outcome.state?, Option.some.injEq] at hs
      subst hs
      exact ⟨true, _, Body.spawn i hi0 hiM hn hmin, Or.inl ⟨⟨false, rfl⟩, fun _ e => by cases e⟩⟩
    · rw [spawn_full M s hid] at hs
      simp only [Outcome.state?, Option.some.injEq] at hs
      subst hs
      exact ⟨true, _, Body.idle _, Or.inl ⟨⟨true, rfl⟩, fun _ e => by cases e⟩⟩
  | terminate tid =>
    simp only [applyOp] at hs
    by_cases hv : tid < 0 ∨ tid ≥ M ∨ s.threadArray tid.toNat = none
    · rw [terminate_fail M s tid hv] at hs
      simp only [Outcome.state?, Option.some.injEq] at hs
      subst hs
      exact ⟨true, _, Body.idle _, Or.inl ⟨⟨false, rfl⟩, fun _ e => by cases e⟩⟩
    · by_cases h0 : tid.toNat = 0
      · rw [terminate_main M s tid hv h0] at hs
        simp [Outcome.state?] at hs
      · obtain ⟨r, thr, hr, hthr, hrb⟩ := h.2
        obtain ⟨hnn, _, _, th, hth⟩ := valid_tid M s tid hv
        have hb := terminateBody_wf M (blockTimerThreadSwitch s) r tid.toNat th hI hr h0 hth
        have hbody : Body M { s with sigIgnored := true } (Op.terminate tid)
            (terminateBody M (blockTimerThreadSwitch s) r tid.toNat) :=
          Body.terminate tid r th h0 hnn hth hr
        by_cases hrt : r = tid.toNat
        · rw [hrt] at hr
          rw [terminate_self M s tid hv h0 hr] at hs
          cases hsw : switchThread M (unblockTimerThreadSwitch
              (terminateBody M (blockTimerThreadSwitch s) tid.toNat tid.toNat)) with
          | none => rw [hsw] at hs; simp [Outcome.state?] at hs
          | some s5 =>
            rw [hsw] at hs
            simp only [Outcome.state?, Option.some.injEq] at hs
            subst hs
            rw [hrt] at hb hbody
            exact ⟨true, _, hbody, Or.inr ⟨⟨wf_sig M none _ false hb.1, fun _ => hb.2⟩, hsw⟩⟩
        · rw [terminate_other M s tid r hv h0 hr hrt] at hs
          simp only [Outcome.state?, Option.some.injEq] at hs
          subst hs
          exact ⟨true, _, hbody, Or.inl ⟨⟨false, rfl⟩, fun _ e => by cases e⟩⟩
  | block tid =>
    simp only [applyOp] at hs
    by_cases hv : tid < 0 ∨ tid ≥ M ∨ tid.toNat = MAIN_THREAD_ID ∨ s.threadArray tid.toNat = none
    · rw [block_fail M s tid hv] at hs
      simp only [Outcome.state?, Option.some.injEq] at hs
      subst hs
      exact ⟨true, _, Body.idle _, Or.inl ⟨⟨false, rfl⟩, fun _ e => by cases e⟩⟩
    · have hv' := hv
      push_neg at hv'
      obtain ⟨hnn, _, h0, hlive⟩ := hv'
      cases hth : s.threadArray tid.toNat with
      | none => exact absurd hth hlive
      | some th =>
        by_cases hb : th.state = State.BLOCKED
        · rw [block_blocked M s tid th hv hth hb] at hs
          simp only [Outcome.state?, Option.some.injEq] at hs
          subst hs
          exact ⟨true, _, Body.idle _, Or.inl ⟨⟨false, rfl⟩, fun _ e => by cases e⟩⟩
        · have hbody : Body M { s with sigIgnored := true } (Op.block tid)
              (blockBody (blockTimerThreadSwitch s) tid.toNat th) :=
            Body.block tid th h0 hnn hth hb
          by_cases hr : s.running = some th.id
          · rw [block_self M s tid th hv hth hb hr] at hs
            cases hsw : switchThread M (unblockTimerThreadSwitch
                (blockBody (blockTimerThreadSwitch s) tid.toNat th)) with
            | none => rw [hsw] at hs; simp [Outcome.state?] at hs
            | some s3 =>
              rw [hsw] at hs
              simp only [Outcome.state?, Option.some.injEq] at hs
              have hw := blockBody_wf M (blockTimerThreadSwitch s) tid.toNat th hI h0 hth
              have hready : SwitchReady M (unblockTimerThreadSwitch
                  (blockBody (blockTimerThreadSwitch s) tid.toNat th)) :=
                ⟨wf_sig M none _ false hw, fun hn => by
                  have : s.running = none := hn
                  rw [hr] at this; exact absurd this (by simp)⟩
              rw [switch_unmasked M _ s3 hready hsw] at hs
              subst hs
              exact ⟨true, _, hbody, Or.inr ⟨hready, hsw⟩⟩
          · rw [block_other M s tid th hv hth hb hr] at hs
            simp only [Outcome.state?, Option.some.injEq] at hs
            subst hs
            exact ⟨true, _, hbody, Or.inl ⟨⟨false, rfl⟩, fun _ e => by cases e⟩⟩
  | resume tid =>
    simp only [applyOp] at hs
    by_cases hv : tid < 0 ∨ tid ≥ M ∨ s.threadArray tid.toNat = none
    · rw [resume_fail M s tid hv] at hs
      simp only [Outcome.state?, Option.some.injEq] at hs
      subst hs
      exact ⟨true, _, Body.idle _, Or.inl ⟨⟨false, rfl⟩, fun _ e => by cases e⟩⟩
    · obtain ⟨hnn, _, _, th, hth⟩ := valid_tid M s tid hv
      rw [resume_ok M s tid th hv hth] at hs
      simp only [Outcome.state?, Option.some.injEq] at hs
      subst hs
      exact ⟨true, _, Body.resume tid th hnn hth, Or.inl ⟨⟨false, rfl⟩, fun _ e => by cases e⟩⟩
  | sync tid =>
    simp only [applyOp] at hs
    by_cases hv : tid < 0 ∨ tid ≥ M ∨ s.threadArray tid.toNat = none
    · rw [sync_fail M s tid hv] at hs
      simp only [Outcome.state?, Option.some.injEq] at hs
      subst hs
      exact ⟨true, _, Body.idle _, Or.inl ⟨⟨false, rfl⟩, fun _ _ => rfl⟩⟩
    · obtain ⟨r, thr, hr, hthr, _⟩ := h.2
      by_cases hr0 : r = MAIN_THREAD_ID
      · rw [sync_main M s tid hv (by rw [hr, hr0])] at hs
        simp only [Outcome.state?, Option.some.injEq] at hs
        subst hs
        exact ⟨true, _, Body.idle _, Or.inl ⟨⟨false, rfl⟩, fun _ _ => rfl⟩⟩
      · rw [sync_ok M s tid r hv hr hr0] at hs
        obtain ⟨hnn, htM, _, th, hth⟩ := valid_tid M s tid hv
        cases hsw : switchThread M (unblockTimerThreadSwitch
            (syncBody (blockTimerThreadSwitch s) tid.toNat r)) with
        | none => rw [hsw] at hs; simp [Outcome.state?] at hs
        | some s2 =>
          rw [hsw] at hs
          simp only [Outcome.state?, Option.some.injEq] at hs
          have hw := syncBody_wf M (blockTimerThreadSwitch s) tid.toNat r
            (wf_sig M none s true h.1) htM (h.1.slot r thr hthr).2 hr0
          have hready : SwitchReady M (unblockTimerThreadSwitch
              (syncBody (blockTimerThreadSwitch s) tid.toNat r)) :=
            ⟨wf_sig M none _ false hw, fun hn => by
              have : (syncBody (blockTimerThreadSwitch s) tid.toNat r).running = none := hn
              rw [syncBody_running] at this
              have : s.running = none := this
              rw [hr] at this; exact absurd this (by simp)⟩
          rw [switch_unmasked M _ s2 hready hsw] at hs
          subst hs
          exact ⟨true, _, Body.sync tid r th hnn hth hr hr0, Or.inr ⟨hready, hsw⟩⟩
  | timer =>
    simp only [applyOp, timerSignal] at hs
    split_ifs at hs with hi
    · simp only [Outcome.state?, Option.some.injEq] at hs
      subst hs
      exact ⟨true, _, Body.idle _, Or.inl ⟨⟨true, by
        cases s; simp only [] at hi; simp [hi]⟩, fun _ e => by cases e⟩⟩
    · cases hsw : switchThread M s with
      | none => rw [hsw] at hs; simp [Outcome.state?] at hs
      | some s2 =>
        rw [hsw] at hs
        simp only [Outcome.state?, Option.some.injEq] at hs
        subst hs
        have e : unblockTimerThreadSwitch { s with sigIgnored := false } = s := by
          cases s; simp only [] at hi; simp [unblockTimerThreadSwitch, hi]
        refine ⟨false, _, Body.idle _, Or.inr ?_⟩
        rw [e]
        exact ⟨switchReady_of_inv M s h, hsw⟩

theorem terminateBody_eq (M : Nat) (s : Scheduler) (r t : Nat) :
    terminateBody M s r t = removeFromReadyList (unsync M (terminateCleared s r t) t) t := rfl

theorem terminateCleared_threadArray (s : Scheduler) (r t : Nat) :
    (terminateCleared s r t).threadArray = Function.update s.threadArray t none := by
  unfold terminateCleared
  simp only []
  split_ifs <;> rfl

theorem terminateCleared_readyList (s : Scheduler) (r t : Nat) :
    (terminateCleared s r t).readyList = s.readyList := by
  unfold terminateCleared
  simp only []
  split_ifs <;> rfl

theorem terminateCleared_syncMatrix (s : Scheduler) (r t : Nat) :
    (terminateCleared s r t).syncMatrix = s.syncMatrix := by
  unfold terminateCleared
  simp only []
  split_ifs <;> rfl

theorem terminateCleared_numSyncedThreads (s : Scheduler) (r t : Nat) :
    (terminateCleared s r t).numSyncedThreads = s.numSyncedThreads := by
  unfold terminateCleared
  simp only []
  split_ifs <;> rfl

/-- The bookkeeping on which `terminate` calls `unsync` is well formed, the entry and the
column of the terminated thread apart. -/
theorem terminateCleared_wf (M : Nat) (s : Scheduler) (r t : Nat) (th : Thread) (h : Inv M s)
    (hr : s.running = some r) (ht0 : t ≠ 0) (hth : s.threadArray t = some th) :
    Wf M (some t) (terminateCleared s r t) := by
  obtain ⟨hw, _⟩ := h
  unfold terminateCleared
  simp only []
  have hta : (if r = t then { s with running := none } else s).threadArray = s.threadArray := by
    split_ifs <;> rfl
  have hrl : (if r = t then { s with running := none } else s).readyList = s.readyList := by
    split_ifs <;> rfl
  have hns : (if r = t then { s with running := none } else s).numSyncedThreads
      = s.numSyncedThreads := by split_ifs <;> rfl
  have hsm : (if r = t then { s with running := none } else s).syncMatrix = s.syncMatrix := by
    split_ifs <;> rfl
  have htq : (if r = t then { s with running := none } else s).totalQuantums
      = s.totalQuantums := by split_ifs <;> rfl
  have hrn : (if r = t then { s with running := none } else s).running
      = if r = t then none else some r := by split_ifs <;> simp [hr]
  have upd : ∀ k th', Function.update s.threadArray t none k = some th' →
      k ≠ t ∧ s.threadArray k = some th' := by
    intro k th' hk
    by_cases hkt : k = t
    · subst hkt; simp at hk
    · rw [Function.update_noteq hkt] at hk; exact ⟨hkt, hk⟩
  refine ⟨?_, ?_, ?_, ?_, ?_, ?_, ?_, ?_, ?_, ?_, ?_, ?_⟩
  · intro k th' hk
    simp only [hta] at hk
    exact hw.slot k th' (upd k th' hk).2
  · obtain ⟨t0, h0, hb0⟩ := hw.main
    refine ⟨t0, ?_, hb0⟩
    simp only [hta]
    rw [Function.update_noteq (Ne.symm ht0)]; exact h0
  · simp only [hns]; exact hw.main_sync
  · simp only [hsm]; exact hw.col0
  · simp only [hsm]; exact hw.bin
  · intro k hk hkx
    simp only [hrl] at hk
    simp only [hta]
    have hkt : k ≠ t := fun e => hkx (by rw [e])
    rw [Function.update_noteq hkt]
    exact hw.ready k hk (by simp)
  · simp only [hrl]; exact hw.nodup
  · intro k th' hk hs
    simp only [hta] at hk
    obtain ⟨hkt, hk'⟩ := upd k th' hk
    have := hw.runState k th' hk' hs
    simp only [hrn]
    rw [hr] at this
    simp only [Option.some.injEq] at this
    subst this
    simp [Ne.symm hkt]
    exact fun e => absurd e hkt
  · intro r' hr'
    simp only [hrn] at hr'
    simp only [hta]
    split_ifs at hr' with hrt
    simp only [Option.some.injEq] at hr'
    subst hr'
    rw [Function.update_noteq hrt]
    exact hw.runLive r hr
  · intro k th' hk
    simp only [hta] at hk
    simp only [htq]
    exact hw.quant k th' (upd k th' hk).2
  · simp only [htq]; exact hw.total
  · intro j hj hjx
    simp only [hns, hsm]
    exact hw.counted j hj (by simp)

theorem noStranded_sig (s : Scheduler) (b : Bool) (h : NoStranded s) :
    NoStranded { s with sigIgnored := b } := h

theorem diag_sig (s : Scheduler) (b : Bool) (h : Diag s) : Diag { s with sigIgnored := b } := h

theorem preDiag_of_diag (s : Scheduler) (h : Diag s) : PreDiag s := fun i _ => h i

theorem terminateBody_syncMatrix_zero (M : Nat) (s : Scheduler) (r t a b : Nat)
    (h : s.syncMatrix a b = 0) : (terminateBody M s r t).syncMatrix a b = 0 := by
  unfold terminateBody removeFromReadyList
  simp only []
  apply unsync_zero_mono
  split_ifs <;> exact h

/-- The bookkeeping step of an operation keeps every runnable thread in the ready list. -/
theorem body_noStranded (M : Nat) (s w : Scheduler) (op : Op) (hb : Body M s op w)
    (h : Inv M s) (hn : NoStranded s) : NoStranded w := by
  cases hb with
  | idle => exact hn
  | spawn i hi hiM hnone hmin =>
    intro k th hk hst hz
    by_cases hki : k = i
    · subst hki; simp
    · simp only [Function.update_noteq hki] at hk
      exact List.mem_append_left _ (hn k th hk hst hz)
  | terminate tid r th h0 hnn hth hr =>
    intro k thk hk hst hz
    have htM : tid.toNat < M := (h.1.slot _ th hth).2
    rw [terminateBody_threadArray] at hk
    have hkt : k ≠ tid.toNat := by
      intro e; subst e; simp at hk
    rw [Function.update_noteq hkt] at hk
    rw [terminateBody_eq] at hz ⊢
    simp only [removeFromReadyList] at hz ⊢
    apply (List.mem_erase_of_ne hkt).mpr
    have hw := terminateCleared_wf M s r tid.toNat th h hr h0 hth
    have hk2 : (terminateCleared s r tid.toNat).threadArray k = some thk := by
      rw [terminateCleared_threadArray, Function.update_noteq hkt]; exact hk
    exact unsync_complete M (some tid.toNat) tid.toNat _ htM (fun _ => rfl) hw k thk hk2
      (by rw [hst]; simp) hz
  | block tid th h0 hnn hth hb =>
    intro k thk hk hst hz
    simp only [blockBody, removeFromReadyList] at hk hz ⊢
    by_cases hkt : k = tid.toNat
    · subst hkt
      simp only [Function.update_same, Option.some.injEq] at hk
      rw [← hk] at hst
      simp at hst
    · rw [Function.update_noteq hkt] at hk
      exact (List.mem_erase_of_ne hkt).mpr (hn k thk hk hst hz)
  | resume tid th hnn hth =>
    intro k thk hk hst hz
    rw [resumeBody_threadArray] at hk
    have hid : th.id = tid.toNat := (h.1.slot _ th hth).1
    have hmono : ∀ j, j ∈ s.readyList → j ∈ (resumeBody s tid.toNat th).readyList := by
      intro j hj
      unfold resumeBody
      simp only []
      split_ifs
      · exact hj
      · exact hj
      · exact List.mem_append_left _ hj
    have hns : (resumeBody s tid.toNat th).numSyncedThreads = s.numSyncedThreads := by
      unfold resumeBody
      simp only []
      split_ifs <;> rfl
    rw [hns] at hz
    by_cases hkt : k = tid.toNat
    · subst hkt
      unfold resumeBody
      simp only []
      rw [if_neg (by simpa using hz)]
      split_ifs with hc
      · simp only [List.any_eq_true] at hc
        obtain ⟨x, hx, hxe⟩ := hc
        have : x = tid.toNat := by simpa using hxe
        rw [← this]; exact hx
      · rw [hid]; simp
    · rw [Function.update_noteq hkt] at hk
      exact hmono k (hn k thk hk hst hz)
  | sync tid r th hnn hth hr hr0 =>
    intro k thk hk hst hz
    rw [syncBody_threadArray] at hk
    rw [syncBody_readyList]
    unfold syncBody at hz
    split_ifs at hz with hc
    · simp only [] at hz
      by_cases hkr : k = r
      · subst hkr
        rw [Function.update_same] at hz
        obtain ⟨thr, hthr⟩ := h.1.runLive k hr
        have := h.1.counted k (h.1.slot k thr hthr).2 (by simp)
        omega
      · rw [Function.update_noteq hkr] at hz
        exact hn k thk hk hst hz
    · exact hn k thk hk hst hz

/-- The bookkeeping step of an operation keeps the diagonal of the sync matrix zero,
except at the running thread between the update of `sync` and its switch. -/
theorem body_preDiag (M : Nat) (s w : Scheduler) (op : Op) (hb : Body M s op w)
    (hd : Diag s) : PreDiag w := by
  cases hb with
  | idle => exact preDiag_of_diag s hd
  | spawn i hi hiM hnone hmin => exact fun k _ => hd k
  | terminate tid r th h0 hnn hth hr =>
    exact fun k _ => terminateBody_syncMatrix_zero M s r tid.toNat k k (hd k)
  | block tid th h0 hnn hth hb => exact fun k _ => hd k
  | resume tid th hnn hth =>
    intro k _
    have : (resumeBody s tid.toNat th).syncMatrix = s.syncMatrix := by
      unfold resumeBody
      simp only []
      split_ifs <;> rfl
    rw [this]; exact hd k
  | sync tid r th hnn hth hr hr0 =>
    intro k hk
    rw [syncBody_running, hr] at hk
    have hkr : k ≠ r := fun e => hk (by rw [e])
    unfold syncBody
    split_ifs
    · simp only [setCell_apply]
      rw [if_neg (fun hc => hkr hc.2)]
      exact hd k
    · exact hd k

theorem body_diag (M : Nat) (s w : Scheduler) (op : Op) (hb : Body M s op w)
    (hd : Diag s) (hq : ∀ tid, op = Op.sync tid → w = s) : Diag w := by
  cases hb with
  | idle => exact hd
  | spawn i hi hiM hnone hmin => exact fun k => hd k
  | terminate tid r th h0 hnn hth hr =>
    exact fun k => terminateBody_syncMatrix_zero M s r tid.toNat k k (hd k)
  | block tid th h0 hnn hth hb => exact fun k => hd k
  | resume tid th hnn hth =>
    intro k
    have : (resumeBody s tid.toNat th).syncMatrix = s.syncMatrix := by
      unfold resumeBody
      simp only []
      split_ifs <;> rfl
    rw [this]; exact hd k
  | sync tid r th hnn hth hr hr0 =>
    rw [hq tid rfl]; exact hd

theorem preSwitch_numSyncedThreads_none (M : Nat) (w : Scheduler) (h : w.running = none) :
    (preSwitch M w).numSyncedThreads = w.numSyncedThreads := by
  unfold preSwitch; rw [h]; rfl

theorem preSwitch_readyList_none (M : Nat) (w : Scheduler) (h : w.running = none) :
    (preSwitch M w).readyList = w.readyList := by
  unfold preSwitch; rw [h]; rfl

theorem preSwitch_syncMatrix_none (M : Nat) (w : Scheduler) (h : w.running = none) :
    (preSwitch M w).syncMatrix = w.syncMatrix := by
  unfold preSwitch; rw [h]; rfl

/-- A switch keeps every runnable thread in the ready list. -/
theorem switch_noStranded (M : Nat) (w s1 : Scheduler) (hready : SwitchReady M w)
    (hn : NoStranded w) (hs : switchThread M w = some s1) : NoStranded s1 := by
  obtain ⟨n, rest, thn, hl, hthn, hnb, hlt, e, hi⟩ := switchThread_some M w s1 hready.1 hready.2 hs
  subst e
  intro i th1 hi1 hst hz
  simp only [switchResult] at hi1 hz ⊢
  cases hti : w.threadArray i with
  | none => rw [hti] at hi1; simp at hi1
  | some th =>
    rw [hti] at hi1
    simp only [Option.map_some', Option.some.injEq] at hi1
    rw [← hi1] at hst
    have hin : i ≠ n := by
      intro e
      simp [switchedThread, e] at hst
    simp only [switchedThread, hin, if_false] at hst
    have hmem : i ∈ (preSwitch M w).readyList := by
      cases hr : w.running with
      | none =>
        rw [hr] at hst
        have hst2 : th.state = State.READY := by
          by_contra hne
          simp [hne] at hst
        rw [preSwitch_readyList_none M w hr]
        rw [preSwitch_numSyncedThreads_none M w hr] at hz
        exact hn i th hti hst2 hz
      | some r =>
        have hnb' : th.state ≠ State.BLOCKED := by
          split_ifs at hst with hc
          · exact hc.2
          · rw [hst]; simp
        exact preSwitch_complete M w r hready.1 hr i th hti hnb' hz
    rw [hl] at hmem
    rcases List.mem_cons.mp hmem with e | e
    · exact absurd e hin
    · exact e

/-- A switch leaves the diagonal of the sync matrix zero. -/
theorem switch_diag (M : Nat) (w s1 : Scheduler) (hready : SwitchReady M w)
    (hp : PreDiag w) (hs : switchThread M w = some s1) : Diag s1 := by
  obtain ⟨n, rest, thn, hl, hthn, hnb, hlt, e, hi⟩ := switchThread_some M w s1 hready.1 hready.2 hs
  subst e
  intro i
  simp only [switchResult]
  cases hr : w.running with
  | none =>
    rw [preSwitch_syncMatrix_none M w hr]
    exact hp i (by rw [hr]; simp)
  | some r =>
    obtain ⟨thr, hthr⟩ := hready.1.runLive r hr
    have hrM : r < M := (hready.1.slot r thr hthr).2
    unfold preSwitch
    rw [hr]
    simp only []
    by_cases hir : i = r
    · subst hir
      exact unsync_row_clear M _ i i hrM
    · apply unsync_zero_mono
      exact hp i (by rw [hr]; intro e; exact hir (Option.some.inj e).symm)

theorem applyOp_inv2 (M : Nat) (s s1 : Scheduler) (op : Op) (h : Inv2 M s)
    (hs : (applyOp M s op).state? = some s1) : Inv2 M s1 := by
  obtain ⟨hi, hn, hd⟩ := h
  refine ⟨applyOp_inv M s s1 op hi hs, ?_⟩
  obtain ⟨b, w, hb, hcase⟩ := applyOp_decomp M s s1 op hi hs
  have hnw := body_noStranded M _ w op hb (inv_sig M s b hi) (noStranded_sig s b hn)
  rcases hcase with ⟨⟨b1, e⟩, hq⟩ | ⟨hready, hsw⟩
  · subst e
    exact ⟨noStranded_sig w b1 hnw, diag_sig w b1 (body_diag M _ w op hb (diag_sig s b hd) hq)⟩
  · have hpw := body_preDiag M _ w op hb (diag_sig s b hd)
    exact ⟨switch_noStranded M _ s1 hready (noStranded_sig w false hnw) hsw,
      switch_diag M _ s1 hready hpw hsw⟩

theorem runOps_inv2 (M : Nat) (ops : List Op) (s s1 : Scheduler) (h : Inv2 M s)
    (hs : runOps M s ops = some s1) : Inv2 M s1 := by
  induction ops generalizing s with
  | nil =>
    simp only [runOps, Option.some.injEq] at hs
    subst hs; exact h
  | cons op ops ih =>
    simp only [runOps] at hs
    cases ho : (applyOp M s op).state? with
    | none => rw [ho] at hs; simp at hs
    | some s2 =>
      rw [ho] at hs
      exact ih s2 (applyOp_inv2 M s s2 op h ho) hs

theorem init_inv2 (M : Nat) (q : Int) :
    NoStranded (switchResult M (bootState q) 0 []) ∧ Diag (switchResult M (bootState q) 0 []) := by
  constructor
  · intro i th hi hst _
    simp only [switchResult, bootState] at hi
    by_cases h0 : i = 0
    · subst h0
      simp only [Function.update_same, Option.map_some', Option.some.injEq] at hi
      rw [← hi] at hst
      simp [switchedThread] at hst
    · rw [Function.update_noteq h0] at hi
      simp at hi
  · intro i
    simp only [switchResult]
    have hr : (bootState q).running = some 0 := rfl
    unfold preSwitch
    rw [hr]
    exact unsync_zero_mono M _ 0 i i rfl

/-- Every reachable state satisfies the extended invariant. -/
theorem reachable_inv2 (M : Nat) (s : Scheduler) (h : Reachable M s) : Inv2 M s := by
  obtain ⟨hM, q, s0, ops, h0, hrun⟩ := h
  obtain ⟨_, e, hi⟩ := initState_some M q s0 hM h0
  have h2 := init_inv2 M q
  rw [← e] at h2
  exact runOps_inv2 M ops s0 s ⟨hi, h2.1, h2.2⟩ hrun

/-- The bookkeeping step of an operation other than `resume(t)` and `terminate(t)` leaves
the descriptor of a blocked thread `t` as it is. -/
theorem body_blocked_frame (M : Nat) (s w : Scheduler) (op : Op) (t : Nat) (th : Thread)
    (hb : Body M s op w) (hth : s.threadArray t = some th) (hbl : th.state = State.BLOCKED)
    (h1 : op ≠ Op.resume t) (h2 : op ≠ Op.terminate t) : w.threadArray t = some th := by
  cases hb with
  | idle => exact hth
  | spawn i hi hiM hnone hmin =>
    have : t ≠ i := by intro e; subst e; rw [hnone] at hth; simp at hth
    simp only [Function.update_noteq this]; exact hth
  | terminate tid r th' h0 hnn hth' hr =>
    have : t ≠ tid.toNat := by
      intro e
      apply h2
      rw [e, Int.toNat_of_nonneg hnn]
    rw [terminateBody_threadArray, Function.update_noteq this]; exact hth
  | block tid th' h0 hnn hth' hb' =>
    have : t ≠ tid.toNat := by
      intro e; subst e
      rw [hth] at hth'
      cases hth'
      exact hb' hbl
    rw [blockBody_threadArray, Function.update_noteq this]; exact hth
  | resume tid th' hnn hth' =>
    have : t ≠ tid.toNat := by
      intro e
      apply h1
      rw [e, Int.toNat_of_nonneg hnn]
    rw [resumeBody_threadArray, Function.update_noteq this]; exact hth
  | sync tid r th' hnn hth' hr hr0 =>
    rw [syncBody_threadArray]; exact hth

/-- A switch leaves the descriptor of a blocked thread as it is. -/
theorem switch_blocked_frame (M : Nat) (w s1 : Scheduler) (t : Nat) (th : Thread)
    (hready : SwitchReady M w) (hs : switchThread M w = some s1)
    (hth : w.threadArray t = some th) (hbl : th.state = State.BLOCKED) :
    s1.threadArray t = some th := by
  obtain ⟨n, rest, thn, hl, hthn, hnb, hlt, e, hi⟩ := switchThread_some M w s1 hready.1 hready.2 hs
  subst e
  have htn : t ≠ n := by
    intro e; subst e
    rw [hth] at hthn; cases hthn
    exact hnb hbl
  simp only [switchResult, hth, Option.map_some', Option.some.injEq]
  cases th
  simp only [] at hbl
  simp [switchedThread, htn, hbl]

/-- What `terminate(t)` leaves before its final test: row and column of `t` are zero, the
counter of `t` is zero, and every live thread that is not blocked and has a zero counter
is in the ready list. -/
theorem terminateBody_purged (M : Nat) (s : Scheduler) (r t : Nat) (th : Thread) (h : Inv M s)
    (hr : s.running = some r) (ht0 : t ≠ 0) (hth : s.threadArray t = some th) :
    (∀ i, i < M → (terminateBody M s r t).syncMatrix t i = 0 ∧
      (terminateBody M s r t).syncMatrix i t = 0) ∧
    (terminateBody M s r t).numSyncedThreads t = 0 ∧
    ∀ i thi, (terminateBody M s r t).threadArray i = some thi → thi.state ≠ State.BLOCKED →
      (terminateBody M s r t).numSyncedThreads i = 0 → i ∈ (terminateBody M s r t).readyList := by
  have htM : t < M := (h.1.slot t th hth).2
  have hw := terminateCleared_wf M s r t th h hr ht0 hth
  have hnone : (terminateCleared s r t).threadArray t = none := by
    rw [terminateCleared_threadArray]; simp
  have hp := unsync_purge M (terminateCleared s r t) t htM hnone
  rw [terminateBody_eq]
  simp only [removeFromReadyList]
  refine ⟨fun i hi => ⟨unsync_row_clear M _ t i hi, hp.1 i hi⟩, hp.2, ?_⟩
  intro i thi hi hnb hz
  rw [unsync_threadArray, terminateCleared_threadArray] at hi
  have hit : i ≠ t := by intro e; subst e; simp at hi
  apply (List.mem_erase_of_ne hit).mpr
  exact unsync_complete M (some t) t _ htM (fun _ => rfl) hw i thi
    (by rw [terminateCleared_threadArray]; exact hi) hnb hz

/-- The switch that follows the termination of the running thread: no waiter is released,
the front of the ready list is dispatched. -/
theorem switch_without_running (M : Nat) (w s1 : Scheduler) (hready : SwitchReady M w)
    (hnone : w.running = none) (hs : switchThread M w = some s1) :
    ∃ n rest, w.readyList = n :: rest ∧ s1.syncMatrix = w.syncMatrix ∧
      s1.numSyncedThreads = w.numSyncedThreads ∧ s1.readyList = rest ∧ s1.running = some n ∧
      ∀ i, s1.threadArray i = (w.threadArray i).map (switchedThread none n i) := by
  obtain ⟨n, rest, _, hl, _, _, _, e, _⟩ := switchThread_some M w s1 hready.1 hready.2 hs
  rw [preSwitch_readyList_none M w hnone] at hl
  refine ⟨n, rest, hl, ?_, ?_, ?_, ?_, ?_⟩
  · rw [e]; exact preSwitch_syncMatrix_none M w hnone
  · rw [e]; exact preSwitch_numSyncedThreads_none M w hnone
  · rw [e]; rfl
  · rw [e]; rfl
  · intro i
    rw [e]
    simp only [switchResult, hnone]

/-- What the loop of `unsync(tid)` appends to the ready list: in increasing order of
index, live threads that are not blocked, were not in the list, and whose counter is zero
once the entry `syncMatrix[tid][i]` is cleared; the counter of every live thread after the
loop is its counter after that decrement. -/
theorem unsync_extra (M : Nat) (u : Scheduler) (tid : Nat)
    (hslot : ∀ i th, u.threadArray i = some th → th.id = i ∧ i < M) :
    (∃ extra, (unsync M u tid).readyList = u.readyList ++ extra ∧
      extra.Pairwise (· < ·) ∧
      ∀ i, i ∈ extra → i ∉ u.readyList ∧
        ∃ th, u.threadArray i = some th ∧ th.state ≠ State.BLOCKED ∧ decCounter tid u i = 0) ∧
    ∀ i th, u.threadArray i = some th →
      (unsync M u tid).numSyncedThreads i = decCounter tid u i := by
  have key := range_foldl_induct
    (fun k (b : Scheduler) => b.threadArray = u.threadArray ∧
      (∃ extra, b.readyList = u.readyList ++ extra ∧ extra.Pairwise (· < ·) ∧
        ∀ i, i ∈ extra → i < k ∧ i ∉ u.readyList ∧
          ∃ th, u.threadArray i = some th ∧ th.state ≠ State.BLOCKED ∧ decCounter tid u i = 0) ∧
      (∀ i th, u.threadArray i = some th →
        (i < k → b.numSyncedThreads i = decCounter tid u i) ∧
        (k ≤ i → b.numSyncedThreads i = u.numSyncedThreads i ∧
          b.syncMatrix tid i = u.syncMatrix tid i)))
    (unsyncStep tid) M u
    ⟨rfl, ⟨[], by simp, List.Pairwise.nil, fun i hi => absurd hi (by simp)⟩,
      fun i th _ => ⟨fun h => absurd h (Nat.not_lt_zero i), fun _ => ⟨rfl, rfl⟩⟩⟩ ?_
  · obtain ⟨_, ⟨extra, h1, h2, h3⟩, h4⟩ := key
    refine ⟨⟨extra, h1, h2, fun i hi => (h3 i hi).2⟩, fun i th hi => ?_⟩
    exact (h4 i th hi).1 (hslot i th hi).2
  · intro k b _ hb
    obtain ⟨hta, ⟨extra, hl, hpw, hex⟩, hcnt⟩ := hb
    -- the counter tested at step `k` is the one of the initial bookkeeping
    have hdec : ∀ th, u.threadArray k = some th → decCounter tid b k = decCounter tid u k := by
      intro th hk
      obtain ⟨e1, e2⟩ := (hcnt k th hk).2 (Nat.le_refl k)
      unfold decCounter
      rw [e1, e2]
    have hlive_ne : ∀ i th, u.threadArray i = some th → b.threadArray tid = none → i ≠ tid := by
      intro i th hi hn e
      subst e
      rw [hta, hi] at hn
      exact absurd hn (by simp)
    refine ⟨by rw [unsyncStep_threadArray, hta], ?_, ?_⟩
    · rw [unsyncStep_readyList, hta]
      cases hk : u.threadArray k with
      | none =>
        exact ⟨extra, hl, hpw, fun i hi => ⟨Nat.lt_succ_of_lt (hex i hi).1, (hex i hi).2⟩⟩
      | some th =>
        simp only []
        split_ifs with hc
        · refine ⟨extra ++ [k], ?_, ?_, ?_⟩
          · rw [hl, (hslot k th hk).1, List.append_assoc]
          · rw [List.pairwise_append]
            refine ⟨hpw, List.pairwise_singleton _ _, ?_⟩
            intro a ha c hc2
            simp only [List.mem_singleton] at hc2
            rw [hc2]
            exact (hex a ha).1
          · intro i hi
            rcases List.mem_append.mp hi with hi | hi
            · exact ⟨Nat.lt_succ_of_lt (hex i hi).1, (hex i hi).2⟩
            · simp only [List.mem_singleton] at hi
              subst hi
              refine ⟨Nat.lt_succ_self _, ?_, th, hk, hc.2.1, ?_⟩
              · intro hm
                exact hc.2.2 (by rw [hl]; exact List.mem_append_left _ hm)
              · rw [← hdec th hk]; exact hc.1
        · exact ⟨extra, hl, hpw, fun i hi => ⟨Nat.lt_succ_of_lt (hex i hi).1, (hex i hi).2⟩⟩
    · intro i th hi
      have hns : (unsyncStep tid b k).numSyncedThreads i
          = Function.update b.numSyncedThreads k (decCounter tid b k) i := by
        rw [unsyncStep_numSyncedThreads]
        split_ifs with hn
        · rw [Function.update_noteq (hlive_ne i th hi hn)]
        · rfl
      have hsm : ∀ j, j ≠ k → u.threadArray j ≠ none →
          (unsyncStep tid b k).syncMatrix tid j = b.syncMatrix tid j := by
        intro j hjk hj
        rw [unsyncStep_syncMatrix]
        split_ifs with hn
        · simp only [setCell_apply]
          rw [if_neg (fun hc => hj (by rw [hc.2, ← hta]; exact hn)),
            if_neg (fun hc => hjk hc.2)]
        · simp only [setCell_apply]
          rw [if_neg (fun hc => hjk hc.2)]
      constructor
      · intro hlt
        rw [hns]
        by_cases hik : i = k
        · subst hik
          rw [Function.update_same]
          exact hdec th hi
        · rw [Function.update_noteq hik]
          exact (hcnt i th hi).1 (by omega)
      · intro hle
        have hik : i ≠ k := by omega
        obtain ⟨e1, e2⟩ := (hcnt i th hi).2 (by omega)
        rw [hns, Function.update_noteq hik, hsm i hik (by rw [hi]; simp)]
        exact ⟨e1, e2⟩

theorem getLast_of_pairwise (l : List Nat) (p : Nat) (hpw : l.Pairwise (· < ·)) (hp : p ∈ l)
    (hle : ∀ e, e ∈ l → e ≤ p) : l.getLast? = some p := by
  obtain ⟨a, b, e⟩ := List.append_of_mem hp
  subst e
  have hb : b = [] := by
    cases b with
    | nil => rfl
    | cons c cs =>
      exfalso
      rw [List.pairwise_append] at hpw
      have h1 := hpw.2.1
      rw [List.pairwise_cons] at h1
      have := h1.1 c (by simp)
      have := hle c (by simp)
      omega
  subst hb
  simp

/-- The bookkeeping on which `unsync` is called has one descriptor per slot, a 0/1 sync
matrix and no runnable thread off the ready list. -/
theorem unsyncCall_pre (M : Nat) (u : Scheduler) (tid : Nat) (h : UnsyncCall M u tid) :
    (∀ i th, u.threadArray i = some th → th.id = i ∧ i < M) ∧
    (∀ i j, u.syncMatrix i j ≤ 1) ∧ NoStranded u := by
  cases h with
  | timer s r hr hrun =>
    obtain ⟨hinv, hns, _⟩ := reachable_inv2 M s hr
    exact ⟨hinv.1.slot, hinv.1.bin, hns⟩
  | block s t th hr ht0 hth hb hrun =>
    obtain ⟨hinv, hns, _⟩ := reachable_inv2 M s hr
    have hI := inv_sig M s true hinv
    have hw := blockBody_wf M (blockTimerThreadSwitch s) tid th hI ht0 hth
    have hcast : ((tid : Int)).toNat = tid := Int.toNat_natCast tid
    have hbody : Body M (blockTimerThreadSwitch s) (Op.block tid)
        (blockBody (blockTimerThreadSwitch s) ((tid : Int)).toNat th) :=
      Body.block (tid : Int) th (by rw [hcast]; exact ht0) (Int.natCast_nonneg tid)
        (by rw [hcast]; exact hth) hb
    rw [hcast] at hbody
    exact ⟨hw.slot, hw.bin, noStranded_sig _ true (noStranded_sig _ false
      (body_noStranded M _ _ _ hbody hI (noStranded_sig s true hns)))⟩
  | sync s t r th hr hth hrun hr0 =>
    obtain ⟨hinv, hns, _⟩ := reachable_inv2 M s hr
    have hI := inv_sig M s true hinv
    obtain ⟨thr, hthr⟩ := hinv.1.runLive tid hrun
    have hw := syncBody_wf M (blockTimerThreadSwitch s) t tid hI.1 (hinv.1.slot t th hth).2
      (hinv.1.slot tid thr hthr).2 hr0
    have hcast : ((t : Int)).toNat = t := Int.toNat_natCast t
    have hbody : Body M (blockTimerThreadSwitch s) (Op.sync t)
        (syncBody (blockTimerThreadSwitch s) ((t : Int)).toNat tid) :=
      Body.sync (t : Int) tid th (Int.natCast_nonneg t) (by rw [hcast]; exact hth) hrun hr0
    rw [hcast] at hbody
    exact ⟨hw.slot, hw.bin, noStranded_sig _ true (noStranded_sig _ false
      (body_noStranded M _ _ _ hbody hI (noStranded_sig s true hns)))⟩
  | terminate s t r th hr ht0 hth hrun =>
    obtain ⟨hinv, hns, _⟩ := reachable_inv2 M s hr
    have hI := inv_sig M s true hinv
    have hw := terminateCleared_wf M (blockTimerThreadSwitch s) r tid th hI hrun ht0 hth
    refine ⟨hw.slot, hw.bin, ?_⟩
    intro i thi hi hst hz
    rw [terminateCleared_threadArray] at hi
    rw [terminateCleared_numSyncedThreads] at hz
    rw [terminateCleared_readyList]
    have hit : i ≠ tid := by intro e; subst e; simp at hi
    rw [Function.update_noteq hit] at hi
    exact hns i thi hi hst hz

/-- While another thread runs, the main thread is in the ready list. -/
theorem main_in_ready_list (M : Nat) (s : Scheduler) (hr : Reachable M s)
    (hrun : s.running ≠ some 0) : 0 ∈ s.readyList := by
  obtain ⟨hinv, hns, _⟩ := reachable_inv2 M s hr
  obtain ⟨th, hth, hnb⟩ := hinv.1.main
  cases hst : th.state with
  | READY => exact hns 0 th hth hst hinv.1.main_sync
  | RUNNING => exact absurd (hinv.1.runState 0 th hth hst) hrun
  | BLOCKED => exact absurd hst hnb

/-- The bookkeeping on which the switcher is called is well formed, holds the main thread
in the ready list unless the main thread runs, and has the `totalQuantums` of the state
of the call. -/
theorem switcherCall_ready (M : Nat) (s w : Scheduler) (hr : Reachable M s)
    (h : SwitcherCall M s w) :
    SwitchReady M w ∧ (w.running ≠ some 0 → 0 ∈ w.readyList) ∧
      w.totalQuantums = s.totalQuantums := by
  have hinv := reachable_inv M s hr
  have hI := inv_sig M s true hinv
  cases h with
  | timer => exact ⟨switchReady_of_inv M s hinv, main_in_ready_list M s hr, rfl⟩
  | terminate r hrun hr0 =>
    obtain ⟨thr, hthr⟩ := hinv.1.runLive r hrun
    have hb := terminateBody_wf M (blockTimerThreadSwitch s) r r thr hI hrun hr0 hthr
    refine ⟨⟨wf_sig M none _ false hb.1, fun _ => hb.2⟩, fun _ => hb.2, ?_⟩
    show (terminateBody M (blockTimerThreadSwitch s) r r).totalQuantums = s.totalQuantums
    rw [terminateBody_totalQuantums]; rfl
  | block r th hrun hr0 hth hb =>
    have hw := blockBody_wf M (blockTimerThreadSwitch s) r th hI hr0 hth
    have hrun2 : (unblockTimerThreadSwitch
        (blockBody (blockTimerThreadSwitch s) r th)).running = some r := hrun
    refine ⟨⟨wf_sig M none _ false hw, fun hn => ?_⟩, fun _ => ?_, rfl⟩
    · rw [hrun2] at hn; exact absurd hn (by simp)
    · have h0 : 0 ∈ s.readyList :=
        main_in_ready_list M s hr (by rw [hrun]; intro e; exact hr0 (Option.some.inj e))
      show 0 ∈ s.readyList.erase r
      exact (List.mem_erase_of_ne (Ne.symm hr0)).mpr h0
  | sync t r th hth hrun hr0 =>
    obtain ⟨thr, hthr⟩ := hinv.1.runLive r hrun
    have hw := syncBody_wf M (blockTimerThreadSwitch s) t r hI.1 (hinv.1.slot t th hth).2
      (hinv.1.slot r thr hthr).2 hr0
    have hrun2 : (unblockTimerThreadSwitch
        (syncBody (blockTimerThreadSwitch s) t r)).running = some r := by
      show (syncBody (blockTimerThreadSwitch s) t r).running = some r
      rw [syncBody_running]; exact hrun
    refine ⟨⟨wf_sig M none _ false hw, fun hn => ?_⟩, fun _ => ?_, ?_⟩
    · rw [hrun2] at hn; exact absurd hn (by simp)
    · have h0 : 0 ∈ s.readyList :=
        main_in_ready_list M s hr (by rw [hrun]; intro e; exact hr0 (Option.some.inj e))
      show 0 ∈ (syncBody (blockTimerThreadSwitch s) t r).readyList
      rw [syncBody_readyList]; exact h0
    · show (syncBody (blockTimerThreadSwitch s) t r).totalQuantums = s.totalQuantums
      rw [syncBody_totalQuantums]; rfl

/-- With a live thread that is not blocked at the front, the loop of `nextThread` runs
once. -/
theorem popIterations_head (ta : Nat → Option Thread) (n : Nat) (rest : List Nat) (th : Thread)
    (h : ta n = some th) (hnb : th.state ≠ State.BLOCKED) :
    popIterations ta (n :: rest) = some 1 := by
  simp [popIterations, h, hnb]

/-- With a live thread that is not blocked at the front of the ready list, `nextThread`
returns it and pops it alone. -/
theorem nextThread_head (s : Scheduler) (n : Nat) (rest : List Nat) (th : Thread)
    (hl : s.readyList = n :: rest) (h : s.threadArray n = some th)
    (hnb : th.state ≠ State.BLOCKED) :
    nextThread s = some (some n, { s with readyList := rest }) := by
  unfold nextThread
  rw [hl, popLoop_head s.threadArray n rest th h hnb]
  simp

/-- A switch empties no slot and fills none. -/
theorem switch_live (M : Nat) (w s1 : Scheduler) (hw : Wf M none w)
    (hrun : w.running = none → 0 ∈ w.readyList) (hsw : switchThread M w = some s1) (i : Nat) :
    s1.threadArray i = none ↔ w.threadArray i = none := by
  obtain ⟨n, rest, _, _, _, _, _, e, _⟩ := switchThread_some M w s1 hw hrun hsw
  subst e
  simp [switchResult]

/-- The call of `uthread_terminate(tid)` empties no slot other than `tid`. -/
theorem terminate_keeps_live (M : Nat) (s s1 : Scheduler) (tid : Int) (i : Nat) (h : Inv M s)
    (hs : (uthread_terminate M s tid).state? = some s1) (hl : s.threadArray i ≠ none)
    (hne : tid ≠ (i : Int)) : s1.threadArray i ≠ none := by
  by_cases hv : tid < 0 ∨ tid ≥ M ∨ s.threadArray tid.toNat = none
  · rw [terminate_fail M s tid hv] at hs
    simp only [Outcome.state?, Option.some.injEq] at hs
    subst hs
    exact hl
  · by_cases h0 : tid.toNat = 0
    · rw [terminate_main M s tid hv h0] at hs
      simp [Outcome.state?] at hs
    · obtain ⟨r, thr, hr, hthr, hrb⟩ := h.2
      obtain ⟨hnn, _, hcast, th, hth⟩ := valid_tid M s tid hv
      have hit : i ≠ tid.toNat := by
        intro e; apply hne; rw [e]; exact hcast.symm
      have hb := terminateBody_wf M (blockTimerThreadSwitch s) r tid.toNat th
        (inv_sig M s true h) hr h0 hth
      have e : ∀ r', (unblockTimerThreadSwitch
          (terminateBody M (blockTimerThreadSwitch s) r' tid.toNat)).threadArray i
          = s.threadArray i := by
        intro r'
        have e1 : (unblockTimerThreadSwitch
            (terminateBody M (blockTimerThreadSwitch s) r' tid.toNat)).threadArray
            = Function.update s.threadArray tid.toNat none := terminateBody_threadArray M _ r' _
        rw [e1, Function.update_noteq hit]
      by_cases hrt : r = tid.toNat
      · rw [hrt] at hr hb
        rw [terminate_self M s tid hv h0 hr] at hs
        cases hsw : switchThread M (unblockTimerThreadSwitch
            (terminateBody M (blockTimerThreadSwitch s) tid.toNat tid.toNat)) with
        | none => rw [hsw] at hs; simp [Outcome.state?] at hs
        | some s5 =>
          rw [hsw] at hs
          simp only [Outcome.state?, Option.some.injEq] at hs
          subst hs
          intro hc
          have h1 : (unblockTimerThreadSwitch (terminateBody M (blockTimerThreadSwitch s)
              tid.toNat tid.toNat)).threadArray i = none :=
            (switch_live M _ s5 (wf_sig M none _ false hb.1) (fun _ => hb.2) hsw i).mp hc
          exact hl ((e tid.toNat).symm.trans h1)
      · rw [terminate_other M s tid r hv h0 hr hrt] at hs
        simp only [Outcome.state?, Option.some.injEq] at hs
        subst hs
        rw [e]; exact hl

/-- The frame of one step on the quantum counter of a slot that it does not dispatch. -/
theorem keepsQuantum_of_frame (M : Nat) (s s1 : Scheduler) (op : Op) (i : Nat) (h : Inv M s)
    (hs : (applyOp M s op).state? = some s1) (hq : QFrame op.isTerminate s s1 i) :
    KeepsQuantum s s1 op i := by
  constructor
  · intro hl hne
    have hlive : s1.threadArray i ≠ none := by
      cases op with
      | terminate tid =>
        exact terminate_keeps_live M s s1 tid i h hs hl (fun e => hne (by rw [e]))
      | spawn | block _ | resume _ | sync _ | timer =>
        rcases hq with e | ⟨e, _⟩ | ⟨e, _⟩
        · intro hc
          unfold nQuantumOf at e
          rw [hc] at e
          cases hsi : s.threadArray i with
          | none => exact hl hsi
          | some t => rw [hsi] at e; simp at e
        · simp [Op.isTerminate] at e
        · exact absurd e hl
    refine ⟨hlive, ?_⟩
    rcases hq with e | ⟨_, e⟩ | ⟨e, _⟩
    · exact e
    · exact absurd e hlive
    · exact absurd e hl
  · intro hn
    rcases hq with e | ⟨_, e⟩ | ⟨_, e⟩
    · left
      unfold nQuantumOf at e
      rw [hn] at e
      cases hsi : s1.threadArray i with
      | none => rfl
      | some t => rw [hsi] at e; simp at e
    · exact Or.inl e
    · exact Or.inr e

/-! ## The properties of the specification -/

/-- C1: in a reachable state with an empty slot, `uthread_spawn` returns the smallest
index `i < MAX_THREAD_NUM` whose slot is empty; afterwards slot `i` holds the descriptor
with id `i`, state `READY` and `nQuantum` 0, the ready list is the old one with `i`
appended at the back, and every other slot, the sync matrix, the counters, the running
pointer and `totalQuantums` are unchanged. -/
theorem spawn_returns_smallest_free_id (M : Nat) (s : Scheduler) (hr : Reachable M s)
    (hfree : ∃ j, j < M ∧ s.threadArray j = none) :
    ∃ (i : Nat) (s1 : Scheduler), uthread_spawn M s = Outcome.ret (i : Int) s1 ∧
      i < M ∧ s.threadArray i = none ∧ (∀ j, j < i → s.threadArray j ≠ none) ∧
      s1.threadArray i = some ⟨i, 0, State.READY⟩ ∧
      s1.readyList = s.readyList ++ [i] ∧
      (∀ j, j ≠ i → s1.threadArray j = s.threadArray j) ∧
      s1.syncMatrix = s.syncMatrix ∧ s1.numSyncedThreads = s.numSyncedThreads ∧
      s1.running = s.running ∧ s1.totalQuantums = s.totalQuantums := by
  have hinv := reachable_inv M s hr
  rcases id_spec M s with ⟨i, hid, hiM, hn, hmin⟩ | ⟨_, hfull⟩
  · have hi0 : i ≠ 0 := by
      intro e; subst e
      obtain ⟨t0, h0, _⟩ := hinv.1.main
      rw [hn] at h0; simp at h0
    refine ⟨i, _, spawn_spec M s i hid hi0, hiM, hn, hmin, ?_, rfl, ?_, rfl, rfl, rfl, rfl⟩
    · simp [Thread.new]
    · intro j hj
      simp [Function.update_noteq hj]
  · obtain ⟨j, hj, hjn⟩ := hfree
    exact absurd hjn (hfull j hj)

/-- After thread 2 of four is terminated, slot 2 is free and `uthread_spawn` succeeds. -/
theorem spawn_returns_smallest_free_id_witness :
    Reachable 4 (traceState 4 100 [Op.spawn, Op.spawn, Op.spawn, Op.timer, Op.terminate 2]) ∧
    (∃ j, j < 4 ∧
      (traceState 4 100 [Op.spawn, Op.spawn, Op.spawn, Op.timer, Op.terminate 2]).threadArray j
        = none) ∧
    ∃ (i : Nat) (s1 : Scheduler),
      uthread_spawn 4 (traceState 4 100 [Op.spawn, Op.spawn, Op.spawn, Op.timer, Op.terminate 2])
        = Outcome.ret (i : Int) s1 ∧ i < 4 :=
  have hr : Reachable 4
      (traceState 4 100 [Op.spawn, Op.spawn, Op.spawn, Op.timer, Op.terminate 2]) :=
    reachable_trace 4 100 _ (by decide) (by decide)
  have hf : ∃ j, j < 4 ∧
      (traceState 4 100 [Op.spawn, Op.spawn, Op.spawn, Op.timer, Op.terminate 2]).threadArray j
        = none := ⟨2, by decide, by decide⟩
  ⟨hr, hf,
    match spawn_returns_smallest_free_id 4 _ hr hf with
    | ⟨i, s1, h1, h2, _⟩ => ⟨i, s1, h1, h2⟩⟩

/-- C2: each of these calls returns `-1` and leaves the slot table, the ready list, the
sync matrix, the counters, the running pointer and `totalQuantums` unchanged, in every
state (reachable or not): `block(0)`; `sync(t)` when the running thread is the main
thread; `terminate`, `block`, `resume` and `sync` with a tid that is negative, at least
`MAX_THREAD_NUM` or whose slot is empty; `spawn` when every slot is occupied. (The
disposition of `SIGVTALRM` is not part of the listed bookkeeping.) -/
theorem failing_calls_change_nothing (M : Nat) (s : Scheduler) :
    FailsUnchanged (uthread_block M s 0) s ∧
    (s.running = some MAIN_THREAD_ID → ∀ t, FailsUnchanged (uthread_sync M s t) s) ∧
    (∀ tid : Int, (tid < 0 ∨ tid ≥ M ∨ s.threadArray tid.toNat = none) →
      FailsUnchanged (uthread_terminate M s tid) s ∧ FailsUnchanged (uthread_block M s tid) s ∧
      FailsUnchanged (uthread_resume M s tid) s ∧ FailsUnchanged (uthread_sync M s tid) s) ∧
    ((∀ j, j < M → s.threadArray j ≠ none) → FailsUnchanged (uthread_spawn M s) s) := by
  have same : ∀ b, SameBookkeeping s { s with sigIgnored := b } :=
    fun _ => ⟨rfl, rfl, rfl, rfl, rfl, rfl⟩
  refine ⟨?_, ?_, ?_, ?_⟩
  · exact ⟨_, block_fail M s 0 (Or.inr (Or.inr (Or.inl rfl))), same false⟩
  · intro hrun t
    by_cases hv : t < 0 ∨ t ≥ M ∨ s.threadArray t.toNat = none
    · exact ⟨_, sync_fail M s t hv, same false⟩
    · exact ⟨_, sync_main M s t hv hrun, same false⟩
  · intro tid hv
    refine ⟨⟨_, terminate_fail M s tid hv, same false⟩, ⟨_, block_fail M s tid ?_, same false⟩,
      ⟨_, resume_fail M s tid hv, same false⟩, ⟨_, sync_fail M s tid hv, same false⟩⟩
    rcases hv with h | h | h
    · exact Or.inl h
    · exact Or.inr (Or.inl h)
    · exact Or.inr (Or.inr (Or.inr h))
  · intro hfull
    rcases id_spec M s with ⟨i, _, hiM, hn, _⟩ | ⟨hid, _⟩
    · exact absurd hn (hfull i hiM)
    · exact ⟨_, spawn_full M s hid, same true⟩

/-- The failing calls on a full table of three threads with the main thread running. -/
theorem failing_calls_change_nothing_witness :
    FailsUnchanged (uthread_block 3 (traceState 3 100 [Op.spawn, Op.spawn]) 0)
      (traceState 3 100 [Op.spawn, Op.spawn]) ∧
    FailsUnchanged (uthread_sync 3 (traceState 3 100 [Op.spawn, Op.spawn]) 1)
      (traceState 3 100 [Op.spawn, Op.spawn]) ∧
    FailsUnchanged (uthread_terminate 3 (traceState 3 100 [Op.spawn, Op.spawn]) 7)
      (traceState 3 100 [Op.spawn, Op.spawn]) ∧
    FailsUnchanged (uthread_resume 3 (traceState 3 100 [Op.spawn, Op.spawn]) (-1))
      (traceState 3 100 [Op.spawn, Op.spawn]) ∧
    FailsUnchanged (uthread_spawn 3 (traceState 3 100 [Op.spawn, Op.spawn]))
      (traceState 3 100 [Op.spawn, Op.spawn]) :=
  ⟨(failing_calls_change_nothing 3 (traceState 3 100 [Op.spawn, Op.spawn])).1,
    (failing_calls_change_nothing 3 (traceState 3 100 [Op.spawn, Op.spawn])).2.1 (by decide) 1,
    ((failing_calls_change_nothing 3 (traceState 3 100 [Op.spawn, Op.spawn])).2.2.1 7
      (by decide)).1,
    ((failing_calls_change_nothing 3 (traceState 3 100 [Op.spawn, Op.spawn])).2.2.1 (-1)
      (by decide)).2.2.1,
    (failing_calls_change_nothing 3 (traceState 3 100 [Op.spawn, Op.spawn])).2.2.2
      (by decide)⟩

/-- C3, the counterexample: `uthread_init(1000000)` on the freshly constructed scheduler
does not return 0. `setitimer` rejects a `tv_usec` of a million microseconds, and
`initializeTimer` then exits the process with status 1. -/
theorem init_with_long_quantum_exits :
    (0 : Int) < 1000000 ∧ uthread_init 3 Scheduler.fresh 1000000 = Outcome.exit 1 ∧
    ¬ ∃ s1, uthread_init 3 Scheduler.fresh 1000000 = Outcome.ret 0 s1 :=
  ⟨by decide, init_exit 3 Scheduler.fresh 1000000 (by decide), fun ⟨s1, h⟩ => by
    rw [init_exit 3 Scheduler.fresh 1000000 (by decide)] at h
    cases h⟩

/-- C3 (amended): on the freshly constructed scheduler `uthread_init(q)` with
`0 < q < 1000000` returns 0 and leaves slot 0 occupied by the main thread with state
`RUNNING` and `nQuantum` 1, running id 0, `totalQuantums` 1, an empty ready list and every
other slot empty; with `q >= 1000000` the timer cannot be armed and the process exits with
status 1; with `q <= 0` the call returns `-1` and changes nothing (on any scheduler). -/
theorem init_boots_main_thread (M : Nat) (q : Int) (hM : 0 < M) :
    (0 < q → q < 1000000 → ∃ s1, uthread_init M Scheduler.fresh q = Outcome.ret 0 s1 ∧
      s1.threadArray 0 = some ⟨0, 1, State.RUNNING⟩ ∧ s1.running = some 0 ∧
      uthread_get_tid s1 = some 0 ∧ s1.totalQuantums = 1 ∧ s1.readyList = [] ∧
      ∀ j, j ≠ 0 → s1.threadArray j = none) ∧
    (1000000 ≤ q → uthread_init M Scheduler.fresh q = Outcome.exit 1) ∧
    (q ≤ 0 → ∀ s, uthread_init M s q = Outcome.ret (-1) s) := by
  refine ⟨fun hq hq2 => ?_, fun hq => init_exit M Scheduler.fresh q hq, fun hq s => ?_⟩
  · obtain ⟨s1, h1, h2, _⟩ := init_spec M q hM hq hq2
    subst h2
    refine ⟨_, h1, ?_, rfl, rfl, rfl, rfl, ?_⟩
    · simp [switchResult, bootState, switchedThread, UINT_MOD]
    · intro j hj
      simp [switchResult, bootState, Function.update_noteq hj]
  · unfold uthread_init
    rw [if_pos hq]

/-- The boot of the scenario `init(100000)` and the rejected `init(0)`. -/
theorem init_boots_main_thread_witness :
    (∃ s1, uthread_init 3 Scheduler.fresh 100000 = Outcome.ret 0 s1 ∧
      s1.threadArray 0 = some ⟨0, 1, State.RUNNING⟩ ∧ s1.running = some 0 ∧
      uthread_get_tid s1 = some 0 ∧ s1.totalQuantums = 1 ∧ s1.readyList = [] ∧
      ∀ j, j ≠ 0 → s1.threadArray j = none) ∧
    uthread_init 3 Scheduler.fresh 0 = Outcome.ret (-1) Scheduler.fresh :=
  ⟨(init_boots_main_thread 3 100000 (by decide)).1 (by decide) (by decide),
    (init_boots_main_thread 3 0 (by decide)).2.2 (by decide) Scheduler.fresh⟩

/-- C4 (invariant I5) does not hold on the code. Thread 1, while running, terminates
thread 3: the loop of `unsync(3)` pushes every thread that is not blocked and has a zero
counter, the running thread 1 included. Thread 1 then calls `sync(2)`: it is switched
out with counter 1 and state `READY`, and it is still in the ready list. -/
theorem synced_thread_left_in_ready_list :
    Reachable 4 (traceState 4 100
      [Op.spawn, Op.spawn, Op.spawn, Op.timer, Op.terminate 3, Op.sync 2]) ∧
    (traceState 4 100 [Op.spawn, Op.spawn, Op.spawn, Op.timer, Op.terminate 3]).running
      = some 1 ∧
    (traceState 4 100 [Op.spawn, Op.spawn, Op.spawn, Op.timer, Op.terminate 3]).readyList
      = [2, 0, 1] ∧
    (traceState 4 100
      [Op.spawn, Op.spawn, Op.spawn, Op.timer, Op.terminate 3, Op.sync 2]).numSyncedThreads 1
      = 1 ∧
    stateOf (traceState 4 100
      [Op.spawn, Op.spawn, Op.spawn, Op.timer, Op.terminate 3, Op.sync 2]) 1
      = some State.READY ∧
    (traceState 4 100
      [Op.spawn, Op.spawn, Op.spawn, Op.timer, Op.terminate 3, Op.sync 2]).readyList
      = [0, 1] :=
  ⟨reachable_trace 4 100 _ (by decide) (by decide), by decide, by decide, by decide, by decide,
    by decide⟩

/-- C5 (sync ordering I9) does not hold on the code. Thread 1 is in the ready list while
it runs (it terminated thread 3, see C4); a new thread 3 is spawned behind it. Thread 1
calls `sync(3)`, which returns 0. Two timer switches later thread 1 is running again with
`nQuantum` 2, its counter still 1, while thread 3 is live and has never been dispatched
(`nQuantum` 0 in every state since the call). -/
theorem waiter_dispatched_before_target :
    Reachable 4 (traceState 4 100
      [Op.spawn, Op.spawn, Op.spawn, Op.timer, Op.terminate 3, Op.spawn]) ∧
    (traceState 4 100
      [Op.spawn, Op.spawn, Op.spawn, Op.timer, Op.terminate 3, Op.spawn]).running = some 1 ∧
    (uthread_sync 4 (traceState 4 100
      [Op.spawn, Op.spawn, Op.spawn, Op.timer, Op.terminate 3, Op.spawn]) 3).value? = some 0 ∧
    nQuantumOf (traceState 4 100
      [Op.spawn, Op.spawn, Op.spawn, Op.timer, Op.terminate 3, Op.spawn, Op.sync 3]) 1
      = some 1 ∧
    nQuantumOf (traceState 4 100
      [Op.spawn, Op.spawn, Op.spawn, Op.timer, Op.terminate 3, Op.spawn, Op.sync 3]) 3
      = some 0 ∧
    nQuantumOf (traceState 4 100
      [Op.spawn, Op.spawn, Op.spawn, Op.timer, Op.terminate 3, Op.spawn, Op.sync 3, Op.timer]) 3
      = some 0 ∧
    (traceState 4 100 [Op.spawn, Op.spawn, Op.spawn, Op.timer, Op.terminate 3, Op.spawn,
      Op.sync 3, Op.timer, Op.timer]).running = some 1 ∧
    nQuantumOf (traceState 4 100 [Op.spawn, Op.spawn, Op.spawn, Op.timer, Op.terminate 3,
      Op.spawn, Op.sync 3, Op.timer, Op.timer]) 1 = some 2 ∧
    nQuantumOf (traceState 4 100 [Op.spawn, Op.spawn, Op.spawn, Op.timer, Op.terminate 3,
      Op.spawn, Op.sync 3, Op.timer, Op.timer]) 3 = some 0 ∧
    (traceState 4 100 [Op.spawn, Op.spawn, Op.spawn, Op.timer, Op.terminate 3, Op.spawn,
      Op.sync 3, Op.timer, Op.timer]).numSyncedThreads 1 = 1 :=
  ⟨reachable_trace 4 100 _ (by decide) (by decide), by decide, by decide, by decide, by decide,
    by decide, by decide, by decide, by decide, by decide⟩

/-- C6 (invariant I4): in every reachable state no thread id occurs more than once in the
ready list. -/
theorem ready_list_has_no_duplicates (M : Nat) (s : Scheduler) (hr : Reachable M s) :
    s.readyList.Nodup :=
  (reachable_inv M s hr).1.nodup

/-- The ready list stays duplicate-free after the running thread was enqueued and resumed. -/
theorem ready_list_has_no_duplicates_witness :
    Reachable 4 (traceState 4 100 [Op.spawn, Op.spawn, Op.spawn, Op.timer, Op.terminate 3,
      Op.resume 1, Op.resume 2, Op.timer]) ∧
    (traceState 4 100 [Op.spawn, Op.spawn, Op.spawn, Op.timer, Op.terminate 3,
      Op.resume 1, Op.resume 2, Op.timer]).readyList.Nodup :=
  ⟨reachable_trace 4 100 _ (by decide) (by decide),
    ready_list_has_no_duplicates 4 _ (reachable_trace 4 100 _ (by decide) (by decide))⟩

/-- C7 (invariant I3): in every reachable state at most one live thread descriptor has
state `RUNNING`. -/
theorem at_most_one_running (M : Nat) (s : Scheduler) (hr : Reachable M s)
    (i j : Nat) (ti tj : Thread) (hi : s.threadArray i = some ti) (hj : s.threadArray j = some tj)
    (hsi : ti.state = State.RUNNING) (hsj : tj.state = State.RUNNING) : i = j := by
  have hw := (reachable_inv M s hr).1
  have h1 := hw.runState i ti hi hsi
  have h2 := hw.runState j tj hj hsj
  rw [h1] at h2
  exact Option.some.inj h2

/-- After one timer switch thread 1 is the thread with state `RUNNING`. -/
theorem at_most_one_running_witness :
    Reachable 3 (traceState 3 100 [Op.spawn, Op.spawn, Op.timer]) ∧
    (traceState 3 100 [Op.spawn, Op.spawn, Op.timer]).threadArray 1 = some ⟨1, 1, State.RUNNING⟩ ∧
    (1 : Nat) = 1 :=
  ⟨reachable_trace 3 100 _ (by decide) (by decide), by decide,
    at_most_one_running 3 (traceState 3 100 [Op.spawn, Op.spawn, Op.timer])
      (reachable_trace 3 100 _ (by decide) (by decide)) 1 1 ⟨1, 1, State.RUNNING⟩
      ⟨1, 1, State.RUNNING⟩ (by decide) (by decide) rfl rfl⟩

/-- C8 (invariant I2): in every state reached from a successful `uthread_init` by
operations none of which is a `terminate` call, `totalQuantums` equals the sum of
`nQuantum` over the live threads. -/
theorem total_quantums_is_sum (M : Nat) (s : Scheduler) (h : ReachableNoTerminate M s) :
    s.totalQuantums = sumQuantums M s := by
  obtain ⟨hM, q, s0, ops, h0, hrun, hops⟩ := h
  obtain ⟨_, e, hinv⟩ := initState_some M q s0 hM h0
  exact runOps_sum M ops s0 s hinv hrun hops (e ▸ init_sum M q hM)

/-- A run with spawn, block, resume, sync and timer switches, and no terminate. -/
theorem total_quantums_is_sum_witness :
    ReachableNoTerminate 3 (traceState 3 100
      [Op.spawn, Op.spawn, Op.timer, Op.block 1, Op.timer, Op.sync 0, Op.resume 1]) ∧
    (traceState 3 100
      [Op.spawn, Op.spawn, Op.timer, Op.block 1, Op.timer, Op.sync 0, Op.resume 1]).totalQuantums
      = sumQuantums 3 (traceState 3 100
        [Op.spawn, Op.spawn, Op.timer, Op.block 1, Op.timer, Op.sync 0, Op.resume 1]) :=
  ⟨reachable_trace_noTerminate 3 100 _ (by decide) (by decide) (by decide),
    total_quantums_is_sum 3 _
      (reachable_trace_noTerminate 3 100 _ (by decide) (by decide) (by decide))⟩

/-- C9 (invariant I1): from a reachable state, an operation that switches (a timer signal
that is delivered, `terminate` or `block` of the running thread, a `sync` that does not
fail) increases `totalQuantums` by one and the `nQuantum` of the thread it makes running
by one, and every other thread that was live, except the thread a `terminate` removes, is
still live with the `nQuantum` it had; any other operation leaves `totalQuantums` as it
was and every live thread, except the thread a `terminate` removes, live with the
`nQuantum` it had. A slot that was empty stays empty or holds a new thread with
`nQuantum` 0. -/
theorem switch_counts_one_quantum (M : Nat) (s s1 : Scheduler) (op : Op) (hr : Reachable M s)
    (hs : (applyOp M s op).state? = some s1) :
    (switches M s op = true → ∃ n, Dispatches s s1 op n) ∧
    (switches M s op = false → Undisturbed s s1 op) := by
  have hinv := reachable_inv M s hr
  have he := applyOp_effect M s s1 op hinv hs
  constructor
  · intro hsw
    obtain ⟨n, _, h1, h2, h3, h4⟩ := he.1 hsw
    exact ⟨n, h1, h2, h3, fun i hi => keepsQuantum_of_frame M s s1 op i hinv hs (h4 i hi)⟩
  · intro hsw
    obtain ⟨h1, h2⟩ := he.2 hsw
    exact ⟨h1, fun i => keepsQuantum_of_frame M s s1 op i hinv hs (h2 i)⟩

/-- A delivered timer signal dispatches thread 1 and leaves the `nQuantum` of the live
threads 0 and 2 as it was; `resume` is not a switch. -/
theorem switch_counts_one_quantum_witness :
    Reachable 3 (traceState 3 100 [Op.spawn, Op.spawn]) ∧
    (applyOp 3 (traceState 3 100 [Op.spawn, Op.spawn]) Op.timer).state?
      = some (traceState 3 100 [Op.spawn, Op.spawn, Op.timer]) ∧
    switches 3 (traceState 3 100 [Op.spawn, Op.spawn]) Op.timer = true ∧
    (∃ n, Dispatches (traceState 3 100 [Op.spawn, Op.spawn])
      (traceState 3 100 [Op.spawn, Op.spawn, Op.timer]) Op.timer n) ∧
    (traceState 3 100 [Op.spawn, Op.spawn, Op.timer]).running = some 1 ∧
    nQuantumOf (traceState 3 100 [Op.spawn, Op.spawn, Op.timer]) 0 = some 1 ∧
    nQuantumOf (traceState 3 100 [Op.spawn, Op.spawn, Op.timer]) 2 = some 0 ∧
    switches 3 (traceState 3 100 [Op.spawn, Op.spawn]) (Op.resume 1) = false :=
  ⟨reachable_trace 3 100 _ (by decide) (by decide), rfl, by decide,
    (switch_counts_one_quantum 3 (traceState 3 100 [Op.spawn, Op.spawn])
      (traceState 3 100 [Op.spawn, Op.spawn, Op.timer]) Op.timer
      (reachable_trace 3 100 _ (by decide) (by decide)) rfl).1 (by decide),
    by decide, by decide, by decide, by decide⟩

/-- C10 (round-robin fairness I8): in a reachable state whose live threads are exactly
three threads `A`, `B`, `C`, none of them blocked, with every counter of
`numSyncedThreads` zero, `3 * k` consecutive timer switches increase the `nQuantum` of each
of `A`, `B` and `C` by exactly `k`; the switches are all defined as long as
`totalQuantums` stays within `INT_MAX`. -/
theorem round_robin_three_threads (M : Nat) (s : Scheduler) (A B C k : Nat)
    (hr : Reachable M s) (hAB : A ≠ B) (hAC : A ≠ C) (hBC : B ≠ C)
    (hA : (s.threadArray A).isSome = true) (hB : (s.threadArray B).isSome = true)
    (hC : (s.threadArray C).isSome = true)
    (hothers : ∀ i, i < M → (s.threadArray i).isSome = true → i = A ∨ i = B ∨ i = C)
    (hnb : ∀ i, i < M → stateOf s i ≠ some State.BLOCKED)
    (hz : ∀ j, j < M → s.numSyncedThreads j = 0) :
    (s.totalQuantums + 3 * k ≤ INT_MAX → ∃ s1, timerSwitches M (3 * k) s = some s1) ∧
    ∀ s1, timerSwitches M (3 * k) s = some s1 →
      nQuantumOf s1 A = (nQuantumOf s A).map (· + k) ∧
      nQuantumOf s1 B = (nQuantumOf s B).map (· + k) ∧
      nQuantumOf s1 C = (nQuantumOf s C).map (· + k) := by
  have hinv := reachable_inv M s hr
  have h3 := threeReady_of M s A B C hinv hAB hAC hBC hA hB hC hothers hnb hz
  refine ⟨fun htot => round_robin_defined M _ k s hinv h3 htot, fun s1 hs => ?_⟩
  have hq := round_robin_rounds M _ k s s1 hinv h3 hs
  exact ⟨hq A (by simp), hq B (by simp), hq C (by simp)⟩

/-- Six switches among the threads 0, 1, 2: each `nQuantum` grows by two. -/
theorem round_robin_three_threads_witness :
    Reachable 4 (traceState 4 100
      [Op.spawn, Op.spawn, Op.spawn, Op.timer, Op.terminate 3, Op.resume 1]) ∧
    (∃ s1, timerSwitches 4 (3 * 2) (traceState 4 100
      [Op.spawn, Op.spawn, Op.spawn, Op.timer, Op.terminate 3, Op.resume 1]) = some s1 ∧
      nQuantumOf s1 0 = some 3 ∧ nQuantumOf s1 1 = some 3 ∧ nQuantumOf s1 2 = some 2) :=
  have hr : Reachable 4 (traceState 4 100
      [Op.spawn, Op.spawn, Op.spawn, Op.timer, Op.terminate 3, Op.resume 1]) :=
    reachable_trace 4 100 _ (by decide) (by decide)
  have h := round_robin_three_threads 4 (traceState 4 100
      [Op.spawn, Op.spawn, Op.spawn, Op.timer, Op.terminate 3, Op.resume 1]) 0 1 2 2 hr
      (by decide) (by decide) (by decide) (by decide) (by decide) (by decide) (by decide)
      (by decide) (by decide)
  match h.1 (by decide) with
  | ⟨s1, hs1⟩ => ⟨hr, s1, hs1, (h.2 s1 hs1).1, (h.2 s1 hs1).2.1, (h.2 s1 hs1).2.2⟩

/-- C11 (idempotence): in a reachable state, `block(t)` on a live thread `t != 0` whose
state is `BLOCKED`, and `resume(t)` on a live thread whose state is `READY`, return 0 and
leave the slot table, the ready list, the sync matrix, the counters, the running pointer
and `totalQuantums` unchanged. -/
theorem block_resume_idempotent (M : Nat) (s : Scheduler) (t : Nat) (th : Thread)
    (hr : Reachable M s) (hth : s.threadArray t = some th) :
    (t ≠ 0 → th.state = State.BLOCKED →
      ∃ s1, uthread_block M s t = Outcome.ret 0 s1 ∧ SameBookkeeping s s1) ∧
    (th.state = State.READY →
      ∃ s1, uthread_resume M s t = Outcome.ret 0 s1 ∧ SameBookkeeping s s1) := by
  obtain ⟨hinv, hns, _⟩ := reachable_inv2 M s hr
  have htM : t < M := (hinv.1.slot t th hth).2
  have hcast : ((t : Int)).toNat = t := Int.toNat_natCast t
  have hth' : s.threadArray ((t : Int)).toNat = some th := by rw [hcast]; exact hth
  constructor
  · intro ht0 hb
    have hv : ¬ ((t : Int) < 0 ∨ (t : Int) ≥ M ∨ ((t : Int)).toNat = MAIN_THREAD_ID ∨
        s.threadArray ((t : Int)).toNat = none) := by
      rw [hcast, hth]
      unfold MAIN_THREAD_ID
      simp only [not_or, not_lt, ge_iff_le, not_le]
      exact ⟨by omega, by omega, ht0, by simp⟩
    exact ⟨_, block_blocked M s t th hv hth' hb, rfl, rfl, rfl, rfl, rfl, rfl⟩
  · intro hst
    have hv : ¬ ((t : Int) < 0 ∨ (t : Int) ≥ M ∨ s.threadArray ((t : Int)).toNat = none) := by
      rw [hcast, hth]
      simp only [not_or, not_lt, ge_iff_le, not_le]
      exact ⟨by omega, by omega, by simp⟩
    refine ⟨_, resume_ok M s t th hv hth', ?_⟩
    rw [hcast]
    have hsame : Function.update s.threadArray t (some { th with state := State.READY })
        = s.threadArray := by
      have : ({ th with state := State.READY } : Thread) = th := by
        cases th; simp only [] at hst; simp [hst]
      rw [this, ← hth]
      exact Function.update_eq_self t s.threadArray
    unfold resumeBody
    simp only []
    split_ifs with h1 h2
    · exact ⟨hsame, rfl, rfl, rfl, rfl, rfl⟩
    · exact ⟨hsame, rfl, rfl, rfl, rfl, rfl⟩
    · exfalso
      apply h2
      have hz : s.numSyncedThreads t = 0 := by simpa using h1
      have := hns t th hth hst hz
      simp only [List.any_eq_true]
      exact ⟨t, this, by simp⟩

/-- A blocked thread 1 is blocked again, and a ready thread 2 is resumed. -/
theorem block_resume_idempotent_witness :
    Reachable 3 (traceState 3 100 [Op.spawn, Op.spawn, Op.block 1]) ∧
    (∃ s1, uthread_block 3 (traceState 3 100 [Op.spawn, Op.spawn, Op.block 1]) 1
        = Outcome.ret 0 s1 ∧
      SameBookkeeping (traceState 3 100 [Op.spawn, Op.spawn, Op.block 1]) s1) ∧
    (∃ s1, uthread_resume 3 (traceState 3 100 [Op.spawn, Op.spawn, Op.block 1]) 2
        = Outcome.ret 0 s1 ∧
      SameBookkeeping (traceState 3 100 [Op.spawn, Op.spawn, Op.block 1]) s1) :=
  have hr : Reachable 3 (traceState 3 100 [Op.spawn, Op.spawn, Op.block 1]) :=
    reachable_trace 3 100 _ (by decide) (by decide)
  ⟨hr,
    (block_resume_idempotent 3 _ 1 ⟨1, 0, State.BLOCKED⟩ hr (by decide)).1 (by decide) rfl,
    (block_resume_idempotent 3 _ 2 ⟨2, 0, State.READY⟩ hr (by decide)).2 rfl⟩

/-- C12: in a reachable state, for a live thread `t != 0`, once `terminate(t)` has
completed (with the switch to the successor when `t` was running): slot `t` is empty,
`quantums(t)` is `-1`, `t` is not in the ready list, and a following `spawn` returns `t`
when every smaller id is occupied. The call completes unless `t` is the running thread
and `totalQuantums` is `INT_MAX`. -/
theorem terminate_frees_id (M : Nat) (s : Scheduler) (t : Nat) (th : Thread)
    (hr : Reachable M s) (ht0 : t ≠ 0) (hth : s.threadArray t = some th) :
    (s.totalQuantums < INT_MAX ∨ s.running ≠ some t →
      ∃ s1, (uthread_terminate M s t).state? = some s1) ∧
    ∀ s1, (uthread_terminate M s t).state? = some s1 →
      s1.threadArray t = none ∧ uthread_get_quantums M s1 t = -1 ∧ t ∉ s1.readyList ∧
      ((∀ j, j < t → s1.threadArray j ≠ none) →
        ∃ s2, uthread_spawn M s1 = Outcome.ret (t : Int) s2) := by
  have hinv := reachable_inv M s hr
  have htM : t < M := (hinv.1.slot t th hth).2
  have hcast : ((t : Int)).toNat = t := Int.toNat_natCast t
  have hv : ¬ ((t : Int) < 0 ∨ (t : Int) ≥ M ∨ s.threadArray ((t : Int)).toNat = none) := by
    rw [hcast, hth]
    simp only [not_or, not_lt, ge_iff_le, not_le]
    exact ⟨by omega, by omega, by simp⟩
  have h0 : ((t : Int)).toNat ≠ 0 := by rw [hcast]; exact ht0
  obtain ⟨r, thr, hrun, hthr, _⟩ := hinv.2
  have hb := terminateBody_wf M (blockTimerThreadSwitch s) r t th (inv_sig M s true hinv) hrun
    ht0 hth
  constructor
  · intro hdef
    by_cases hrt : r = t
    · subst hrt
      have hrun' : s.running = some ((r : Int)).toNat := by rw [hcast]; exact hrun
      rw [terminate_self M s r hv h0 hrun', hcast]
      have hlt : s.totalQuantums < INT_MAX := by
        rcases hdef with h | h
        · exact h
        · exact absurd hrun h
      obtain ⟨s5, hs5⟩ := switchThread_defined M
        (unblockTimerThreadSwitch (terminateBody M (blockTimerThreadSwitch s) r r))
        (wf_sig M none _ false hb.1) (fun _ => hb.2)
        (by
          have := terminateBody_totalQuantums M (blockTimerThreadSwitch s) r r
          have e : (unblockTimerThreadSwitch
              (terminateBody M (blockTimerThreadSwitch s) r r)).totalQuantums
              = s.totalQuantums := this
          rw [e]; exact hlt)
      rw [hs5]
      exact ⟨s5, rfl⟩
    · rw [terminate_other M s t r hv h0 hrun (by rw [hcast]; exact hrt)]
      exact ⟨_, rfl⟩
  · intro s1 hs
    have hr1 : Reachable M s1 := reachable_step M s s1 (Op.terminate t) hr hs
    have hinv1 := reachable_inv M s1 hr1
    have hempty : s1.threadArray t = none := by
      by_cases hrt : r = t
      · subst hrt
        have hrun' : s.running = some ((r : Int)).toNat := by rw [hcast]; exact hrun
        rw [terminate_self M s r hv h0 hrun', hcast] at hs
        cases hsw : switchThread M (unblockTimerThreadSwitch
            (terminateBody M (blockTimerThreadSwitch s) r r)) with
        | none => rw [hsw] at hs; simp [Outcome.state?] at hs
        | some s5 =>
          rw [hsw] at hs
          simp only [Outcome.state?, Option.some.injEq] at hs
          subst hs
          obtain ⟨n, rest, _, _, _, _, _, e, _⟩ := switchThread_some M _ s5
            (wf_sig M none _ false hb.1) (fun _ => hb.2) hsw
          rw [e]
          have hn : (unblockTimerThreadSwitch
              (terminateBody M (blockTimerThreadSwitch s) r r)).threadArray r = none := by
            have := terminateBody_threadArray M (blockTimerThreadSwitch s) r r
            have e2 : (unblockTimerThreadSwitch
                (terminateBody M (blockTimerThreadSwitch s) r r)).threadArray
                = Function.update s.threadArray r none := this
            rw [e2]; simp
          have hn2 : (terminateBody M (blockTimerThreadSwitch s) r r).threadArray r = none := hn
          simp only [switchResult]
          rw [hn2]
          rfl
      · rw [terminate_other M s t r hv h0 hrun (by rw [hcast]; exact hrt), hcast] at hs
        simp only [Outcome.state?, Option.some.injEq] at hs
        subst hs
        have := terminateBody_threadArray M (blockTimerThreadSwitch s) r t
        have e2 : (unblockTimerThreadSwitch
            (terminateBody M (blockTimerThreadSwitch s) r t)).threadArray
            = Function.update s.threadArray t none := this
        rw [e2]; simp
    refine ⟨hempty, ?_, ?_, ?_⟩
    · unfold uthread_get_quantums Scheduler.quantums
      rw [hcast, hempty]
      simp
    · intro hm
      obtain ⟨th1, h1, _⟩ := hinv1.1.ready t hm (by simp)
      rw [hempty] at h1; simp at h1
    · intro hsmall
      rcases id_spec M s1 with ⟨i, hid, hiM, hn, hmin⟩ | ⟨_, hfull⟩
      · have hit : i = t := by
          rcases Nat.lt_trichotomy i t with h | h | h
          · exact absurd hn (hsmall i h)
          · exact h
          · exact absurd hempty (hmin t h)
        subst hit
        exact ⟨_, spawn_spec M s1 i hid ht0⟩
      · exact absurd hempty (hfull t htM)

/-- Thread 2 of four (not running) is terminated: slot 2 is free and `spawn` returns 2. -/
theorem terminate_frees_id_witness :
    Reachable 4 (traceState 4 100 [Op.spawn, Op.spawn, Op.spawn, Op.timer]) ∧
    (∃ s1, (uthread_terminate 4 (traceState 4 100 [Op.spawn, Op.spawn, Op.spawn, Op.timer])
        2).state? = some s1 ∧ s1.threadArray 2 = none ∧ uthread_get_quantums 4 s1 2 = -1 ∧
      2 ∉ s1.readyList) :=
  have hr : Reachable 4 (traceState 4 100 [Op.spawn, Op.spawn, Op.spawn, Op.timer]) :=
    reachable_trace 4 100 _ (by decide) (by decide)
  have h := terminate_frees_id 4 (traceState 4 100 [Op.spawn, Op.spawn, Op.spawn, Op.timer]) 2
    ⟨2, 0, State.READY⟩ hr (by decide) (by decide)
  match h.1 (Or.inl (by decide)) with
  | ⟨s1, hs1⟩ => ⟨hr, s1, hs1, (h.2 s1 hs1).1, (h.2 s1 hs1).2.1, (h.2 s1 hs1).2.2.1⟩

/-- C13: in a reachable state a thread with state `BLOCKED` is not in the ready list, and
every operation other than `resume(t)` and `terminate(t)` (timer switches and the release
of sync waiters included) leaves the descriptor of a blocked thread `t` as it is: its
state is still `BLOCKED` and its `nQuantum` is unchanged. -/
theorem blocked_thread_not_dispatched (M : Nat) (s : Scheduler) (t : Nat) (th : Thread)
    (hr : Reachable M s) (hth : s.threadArray t = some th) (hbl : th.state = State.BLOCKED) :
    t ∉ s.readyList ∧
    ∀ op s1, op ≠ Op.resume t → op ≠ Op.terminate t → (applyOp M s op).state? = some s1 →
      s1.threadArray t = s.threadArray t ∧ stateOf s1 t = some State.BLOCKED ∧
      nQuantumOf s1 t = nQuantumOf s t := by
  have hinv := reachable_inv M s hr
  constructor
  · intro hm
    obtain ⟨th1, h1, hnb⟩ := hinv.1.ready t hm (by simp)
    rw [hth] at h1; cases h1
    exact hnb hbl
  · intro op s1 h1 h2 hs
    have key : s1.threadArray t = some th := by
      obtain ⟨b, w, hb, hcase⟩ := applyOp_decomp M s s1 op hinv hs
      have hw : w.threadArray t = some th := body_blocked_frame M _ w op t th hb hth hbl h1 h2
      rcases hcase with ⟨⟨b1, e⟩, _⟩ | ⟨hready, hsw⟩
      · rw [e]; exact hw
      · exact switch_blocked_frame M _ s1 t th hready hsw hw hbl
    refine ⟨by rw [key, hth], by simp [stateOf, key, hbl], by simp [nQuantumOf, key, hth]⟩

/-- Thread 1 is blocked; a timer switch leaves it blocked with `nQuantum` 0. -/
theorem blocked_thread_not_dispatched_witness :
    Reachable 3 (traceState 3 100 [Op.spawn, Op.spawn, Op.block 1]) ∧
    1 ∉ (traceState 3 100 [Op.spawn, Op.spawn, Op.block 1]).readyList ∧
    stateOf (traceState 3 100 [Op.spawn, Op.spawn, Op.block 1, Op.timer]) 1
      = some State.BLOCKED :=
  have hr : Reachable 3 (traceState 3 100 [Op.spawn, Op.spawn, Op.block 1]) :=
    reachable_trace 3 100 _ (by decide) (by decide)
  have h := blocked_thread_not_dispatched 3 _ 1 ⟨1, 0, State.BLOCKED⟩ hr (by decide) rfl
  ⟨hr, h.1,
    (h.2 Op.timer (traceState 3 100 [Op.spawn, Op.spawn, Op.block 1, Op.timer])
      (by decide) (by decide) rfl).2.1⟩

/-- C14 does not hold on the code: `uthread_spawn` on a full table returns `-1` from
inside its critical section, without the call of `unblockTimerThreadSwitch` that every
other return path makes (the failing `uthread_terminate` next to it returns unmasked).
The timer signal stays ignored: the signal that follows is discarded and nothing is
dispatched. -/
theorem spawn_on_full_table_returns_masked :
    Reachable 3 (traceState 3 100 [Op.spawn, Op.spawn]) ∧
    (traceState 3 100 [Op.spawn, Op.spawn]).sigIgnored = false ∧
    (uthread_spawn 3 (traceState 3 100 [Op.spawn, Op.spawn])).value? = some (-1) ∧
    (traceState 3 100 [Op.spawn, Op.spawn, Op.spawn]).sigIgnored = true ∧
    (uthread_terminate 3 (traceState 3 100 [Op.spawn, Op.spawn]) 7).value? = some (-1) ∧
    (traceState 3 100 [Op.spawn, Op.spawn, Op.terminate 7]).sigIgnored = false ∧
    (traceState 3 100 [Op.spawn, Op.spawn, Op.spawn, Op.timer]).totalQuantums = 1 ∧
    (traceState 3 100 [Op.spawn, Op.spawn, Op.spawn, Op.timer]).running = some 0 ∧
    (traceState 3 100 [Op.spawn, Op.spawn, Op.timer]).totalQuantums = 2 :=
  ⟨reachable_trace 3 100 _ (by decide) (by decide), by decide, by decide, by decide, by decide,
    by decide, by decide, by decide, by decide⟩

/-- C15: in a reachable state, `resume(t)` on a live thread `t` whose state is `BLOCKED`
returns 0 and sets the state of `t` to `READY`; with a zero counter `t` is appended at the
back of the ready list, with a positive counter the ready list is unchanged and `t` is not
in it (the counter is never negative); every other slot, the sync matrix, the counters,
the running pointer and `totalQuantums` are unchanged. -/
theorem resume_of_blocked_thread (M : Nat) (s : Scheduler) (t : Nat) (th : Thread)
    (hr : Reachable M s) (hth : s.threadArray t = some th) (hbl : th.state = State.BLOCKED) :
    ∃ s1, uthread_resume M s t = Outcome.ret 0 s1 ∧
      s1.threadArray t = some { th with state := State.READY } ∧
      (∀ j, j ≠ t → s1.threadArray j = s.threadArray j) ∧
      0 ≤ s.numSyncedThreads t ∧
      (s.numSyncedThreads t = 0 → s1.readyList = s.readyList ++ [t]) ∧
      (0 < s.numSyncedThreads t → s1.readyList = s.readyList ∧ t ∉ s1.readyList) ∧
      s1.syncMatrix = s.syncMatrix ∧ s1.numSyncedThreads = s.numSyncedThreads ∧
      s1.running = s.running ∧ s1.totalQuantums = s.totalQuantums := by
  have hinv := reachable_inv M s hr
  have htM : t < M := (hinv.1.slot t th hth).2
  have hid : th.id = t := (hinv.1.slot t th hth).1
  have hcast : ((t : Int)).toNat = t := Int.toNat_natCast t
  have hth' : s.threadArray ((t : Int)).toNat = some th := by rw [hcast]; exact hth
  have hv : ¬ ((t : Int) < 0 ∨ (t : Int) ≥ M ∨ s.threadArray ((t : Int)).toNat = none) := by
    rw [hcast, hth]
    simp only [not_or, not_lt, ge_iff_le, not_le]
    exact ⟨by omega, by omega, by simp⟩
  have hnot : t ∉ s.readyList := by
    intro hm
    obtain ⟨th1, h1, hnb⟩ := hinv.1.ready t hm (by simp)
    rw [hth] at h1; cases h1
    exact hnb hbl
  have hany : ¬ (s.readyList.any (fun b => b == t) = true) := by
    simp only [List.any_eq_true, not_exists, not_and]
    intro x hx hxe
    have : x = t := by simpa using hxe
    exact hnot (this ▸ hx)
  have hnn : 0 ≤ s.numSyncedThreads t := by
    rw [hinv.1.counted t htM (by simp)]
    exact Int.natCast_nonneg _
  refine ⟨_, resume_ok M s t th hv hth', ?_⟩
  rw [hcast]
  unfold resumeBody
  simp only []
  by_cases hz : s.numSyncedThreads t = 0
  · have e1 : ¬ ((blockTimerThreadSwitch s).numSyncedThreads t ≠ 0) := by
      simpa using hz
    have e2 : ¬ ((blockTimerThreadSwitch s).readyList.any (fun b => b == t) = true) := hany
    rw [if_neg e1, if_neg e2]
    refine ⟨by simp [unblockTimerThreadSwitch, blockTimerThreadSwitch], ?_, hnn, ?_, ?_, rfl, rfl,
      rfl, rfl⟩
    · intro j hj
      simp [unblockTimerThreadSwitch, blockTimerThreadSwitch, Function.update_noteq hj]
    · intro _
      simp [unblockTimerThreadSwitch, blockTimerThreadSwitch, hid]
    · intro hpos
      omega
  · have e1 : (blockTimerThreadSwitch s).numSyncedThreads t ≠ 0 := hz
    rw [if_pos e1]
    refine ⟨by simp [unblockTimerThreadSwitch, blockTimerThreadSwitch], ?_, hnn, ?_, ?_, rfl, rfl,
      rfl, rfl⟩
    · intro j hj
      simp [unblockTimerThreadSwitch, blockTimerThreadSwitch, Function.update_noteq hj]
    · intro h0
      exact absurd h0 hz
    · intro _
      exact ⟨rfl, hnot⟩

/-- The blocked thread 1 is resumed and goes to the back of the ready list. -/
theorem resume_of_blocked_thread_witness :
    Reachable 3 (traceState 3 100 [Op.spawn, Op.spawn, Op.block 1]) ∧
    ∃ s1, uthread_resume 3 (traceState 3 100 [Op.spawn, Op.spawn, Op.block 1]) 1
        = Outcome.ret 0 s1 ∧
      s1.threadArray 1 = some ⟨1, 0, State.READY⟩ :=
  have hr : Reachable 3 (traceState 3 100 [Op.spawn, Op.spawn, Op.block 1]) :=
    reachable_trace 3 100 _ (by decide) (by decide)
  match resume_of_blocked_thread 3 _ 1 ⟨1, 0, State.BLOCKED⟩ hr (by decide) rfl with
  | ⟨s1, h1, h2, _⟩ => ⟨hr, s1, h1, h2⟩

/-- C16 (counter consistency): in a reachable state `numSyncedThreads[j]`, for every
`j < MAX_THREAD_NUM`, is the number of rows `i` with `syncMatrix[i][j] != 0`, hence not
negative; the same holds after every operation, after the update of the sync arrays by
`sync`, after the `unsync` of the switcher, and after the `unsync` of `terminate`. -/
theorem sync_counters_count_rows (M : Nat) (s : Scheduler) (hr : Reachable M s) :
    (∀ j, j < M → s.numSyncedThreads j = syncCount M s.syncMatrix j ∧
      0 ≤ s.numSyncedThreads j) ∧
    (∀ op s1, (applyOp M s op).state? = some s1 →
      ∀ j, j < M → s1.numSyncedThreads j = syncCount M s1.syncMatrix j) ∧
    (∀ t r, t < M → s.running = some r → r ≠ MAIN_THREAD_ID →
      ∀ j, j < M → (syncBody s t r).numSyncedThreads j
        = syncCount M (syncBody s t r).syncMatrix j) ∧
    (∀ j, j < M → (preSwitch M s).numSyncedThreads j
        = syncCount M (preSwitch M s).syncMatrix j) ∧
    (∀ t r th, t ≠ 0 → s.threadArray t = some th → s.running = some r →
      ∀ j, j < M → (unsync M (terminateCleared s r t) t).numSyncedThreads j
        = syncCount M (unsync M (terminateCleared s r t) t).syncMatrix j) := by
  have hinv := reachable_inv M s hr
  refine ⟨fun j hj => ?_, fun op s1 hs j hj => ?_, fun t r htM hrun hr0 j hj => ?_,
    fun j hj => ?_, fun t r th ht0 hth hrun j hj => ?_⟩
  · have := hinv.1.counted j hj (by simp)
    exact ⟨this, by rw [this]; exact Int.natCast_nonneg _⟩
  · exact (applyOp_inv M s s1 op hinv hs).1.counted j hj (by simp)
  · obtain ⟨thr, hthr⟩ := hinv.1.runLive r hrun
    exact (syncBody_wf M s t r hinv.1 htM (hinv.1.slot r thr hthr).2 hr0).counted j hj (by simp)
  · exact (preSwitch_wf M s hinv.1).counted j hj (by simp)
  · have h := terminateBody_wf M s r t th hinv hrun ht0 hth
    have := h.1.counted j hj (by simp)
    rw [terminateBody_eq] at this
    exact this

/-- Two threads wait for thread 1: its column is empty, theirs hold one entry each. -/
theorem sync_counters_count_rows_witness :
    Reachable 4 (traceState 4 100
      [Op.spawn, Op.spawn, Op.spawn, Op.timer, Op.timer, Op.sync 1, Op.sync 1]) ∧
    (traceState 4 100
      [Op.spawn, Op.spawn, Op.spawn, Op.timer, Op.timer, Op.sync 1, Op.sync 1]).numSyncedThreads 2
      = syncCount 4 (traceState 4 100
        [Op.spawn, Op.spawn, Op.spawn, Op.timer, Op.timer, Op.sync 1, Op.sync 1]).syncMatrix 2 ∧
    (traceState 4 100
      [Op.spawn, Op.spawn, Op.spawn, Op.timer, Op.timer, Op.sync 1, Op.sync 1]).numSyncedThreads 2
      = 1 :=
  have hr : Reachable 4 (traceState 4 100
      [Op.spawn, Op.spawn, Op.spawn, Op.timer, Op.timer, Op.sync 1, Op.sync 1]) :=
    reachable_trace 4 100 _ (by decide) (by decide)
  ⟨hr, ((sync_counters_count_rows 4 _ hr).1 2 (by decide)).1, by decide⟩

/-- C17 (purge on terminate): in a reachable state, for a live thread `t != 0`, once
`terminate(t)` has completed, row and column `t` of the sync matrix are zero, the counter
of `t` is zero, and every live thread that is not blocked and has a zero counter (in
particular every thread that was waiting on `t` only) is in the ready list or is the
running thread. -/
theorem terminate_purges_sync_entries (M : Nat) (s s1 : Scheduler) (t : Nat) (th : Thread)
    (hr : Reachable M s) (ht0 : t ≠ 0) (hth : s.threadArray t = some th)
    (hs : (uthread_terminate M s t).state? = some s1) :
    (∀ i, i < M → s1.syncMatrix t i = 0 ∧ s1.syncMatrix i t = 0) ∧
    s1.numSyncedThreads t = 0 ∧
    ∀ i thi, s1.threadArray i = some thi → s1.numSyncedThreads i = 0 →
      thi.state ≠ State.BLOCKED → i ∈ s1.readyList ∨ s1.running = some i := by
  have hinv := reachable_inv M s hr
  have htM : t < M := (hinv.1.slot t th hth).2
  have hcast : ((t : Int)).toNat = t := Int.toNat_natCast t
  have hv : ¬ ((t : Int) < 0 ∨ (t : Int) ≥ M ∨ s.threadArray ((t : Int)).toNat = none) := by
    rw [hcast, hth]
    simp only [not_or, not_lt, ge_iff_le, not_le]
    exact ⟨by omega, by omega, by simp⟩
  have h0 : ((t : Int)).toNat ≠ 0 := by rw [hcast]; exact ht0
  obtain ⟨r, thr, hrun, hthr, _⟩ := hinv.2
  have hI := inv_sig M s true hinv
  have hb := terminateBody_wf M (blockTimerThreadSwitch s) r t th hI hrun ht0 hth
  obtain ⟨hp1, hp2, hp3⟩ := terminateBody_purged M (blockTimerThreadSwitch s) r t th hI hrun
    ht0 hth
  by_cases hrt : r = t
  · subst hrt
    have hrun' : s.running = some ((r : Int)).toNat := by rw [hcast]; exact hrun
    rw [terminate_self M s r hv h0 hrun', hcast] at hs
    cases hsw : switchThread M (unblockTimerThreadSwitch
        (terminateBody M (blockTimerThreadSwitch s) r r)) with
    | none => rw [hsw] at hs; simp [Outcome.state?] at hs
    | some s5 =>
      rw [hsw] at hs
      simp only [Outcome.state?, Option.some.injEq] at hs
      subst hs
      have hnone : (terminateBody M (blockTimerThreadSwitch s) r r).running = none := by
        rw [terminateBody_running M (blockTimerThreadSwitch s) r r hrun]; simp
      have key : ∀ w : Scheduler,
          w.threadArray = (terminateBody M (blockTimerThreadSwitch s) r r).threadArray →
          w.syncMatrix = (terminateBody M (blockTimerThreadSwitch s) r r).syncMatrix →
          w.numSyncedThreads
            = (terminateBody M (blockTimerThreadSwitch s) r r).numSyncedThreads →
          w.readyList = (terminateBody M (blockTimerThreadSwitch s) r r).readyList →
          w.running = none → SwitchReady M w → switchThread M w = some s5 →
          (∀ i, i < M → s5.syncMatrix r i = 0 ∧ s5.syncMatrix i r = 0) ∧
          s5.numSyncedThreads r = 0 ∧
          ∀ i thi, s5.threadArray i = some thi → s5.numSyncedThreads i = 0 →
            thi.state ≠ State.BLOCKED → i ∈ s5.readyList ∨ s5.running = some i := by
        intro w wT wS wN wL wR wready wsw
        obtain ⟨n, rest, hl, eS, eN, eL, eR, eT⟩ := switch_without_running M w s5 wready wR wsw
        refine ⟨fun i hi => ?_, ?_, ?_⟩
        · rw [eS, wS]; exact hp1 i hi
        · rw [eN, wN]; exact hp2
        · intro i thi hi hz hnbi
          rw [eN, wN] at hz
          rw [eT i, wT] at hi
          by_cases hin : i = n
          · right; rw [hin, eR]
          · left
            rw [eL]
            cases hti : (terminateBody M (blockTimerThreadSwitch s) r r).threadArray i with
            | none => rw [hti] at hi; simp at hi
            | some t0 =>
              rw [hti] at hi
              simp only [Option.map_some', Option.some.injEq] at hi
              have hst : t0.state ≠ State.BLOCKED := by
                intro hb0
                apply hnbi
                rw [← hi]
                simp [switchedThread, hin, hb0]
              have hm := hp3 i t0 hti hst hz
              have hm2 : i ∈ n :: rest := by rw [← hl, wL]; exact hm
              rcases List.mem_cons.mp hm2 with e1 | e1
              · exact absurd e1 hin
              · exact e1
      exact key (unblockTimerThreadSwitch (terminateBody M (blockTimerThreadSwitch s) r r))
        rfl rfl rfl rfl hnone ⟨wf_sig M none _ false hb.1, fun _ => hb.2⟩ hsw
  · rw [terminate_other M s t r hv h0 hrun (by rw [hcast]; exact hrt), hcast] at hs
    simp only [Outcome.state?, Option.some.injEq] at hs
    subst hs
    exact ⟨hp1, hp2, fun i thi hi hz hnbi => Or.inl (hp3 i thi hi hnbi hz)⟩

/-- Thread 2 waits for thread 1; when thread 1 is terminated thread 2 is back in the
ready list with a zero counter. -/
theorem terminate_purges_sync_entries_witness :
    Reachable 3 (traceState 3 100 [Op.spawn, Op.spawn, Op.timer, Op.timer, Op.sync 1]) ∧
    (traceState 3 100 [Op.spawn, Op.spawn, Op.timer, Op.timer, Op.sync 1]).syncMatrix 1 2 = 1 ∧
    (traceState 3 100
      [Op.spawn, Op.spawn, Op.timer, Op.timer, Op.sync 1, Op.terminate 1]).syncMatrix 1 2 = 0 ∧
    (2 ∈ (traceState 3 100
      [Op.spawn, Op.spawn, Op.timer, Op.timer, Op.sync 1, Op.terminate 1]).readyList ∨
     (traceState 3 100
      [Op.spawn, Op.spawn, Op.timer, Op.timer, Op.sync 1, Op.terminate 1]).running = some 2) :=
  have hr : Reachable 3 (traceState 3 100 [Op.spawn, Op.spawn, Op.timer, Op.timer, Op.sync 1]) :=
    reachable_trace 3 100 _ (by decide) (by decide)
  have h := terminate_purges_sync_entries 3
    (traceState 3 100 [Op.spawn, Op.spawn, Op.timer, Op.timer, Op.sync 1])
    (traceState 3 100 [Op.spawn, Op.spawn, Op.timer, Op.timer, Op.sync 1, Op.terminate 1])
    1 ⟨1, 1, State.READY⟩ hr (by decide) (by decide) rfl
  ⟨hr, by decide, (h.1 2 (by decide)).1, h.2.2 2 ⟨2, 1, State.READY⟩ (by decide) (by decide)
    (by decide)⟩

/-- C18, the counterexample: thread 1 is running, not blocked, with counter 0 and not in
the ready list `[0]`, and thread 2 waits for it. The switch dispatches thread 0 and marks
thread 1 `READY`, but the last element of the ready list is the released thread 2. -/
theorem prev_not_at_back_of_ready_list :
    Reachable 3 (traceState 3 100
      [Op.spawn, Op.spawn, Op.timer, Op.timer, Op.sync 1, Op.timer]) ∧
    (traceState 3 100
      [Op.spawn, Op.spawn, Op.timer, Op.timer, Op.sync 1, Op.timer]).running = some 1 ∧
    stateOf (traceState 3 100
      [Op.spawn, Op.spawn, Op.timer, Op.timer, Op.sync 1, Op.timer]) 1 = some State.RUNNING ∧
    (traceState 3 100
      [Op.spawn, Op.spawn, Op.timer, Op.timer, Op.sync 1, Op.timer]).numSyncedThreads 1 = 0 ∧
    (traceState 3 100
      [Op.spawn, Op.spawn, Op.timer, Op.timer, Op.sync 1, Op.timer]).readyList = [0] ∧
    (∃ s1, switchThread 3 (traceState 3 100
        [Op.spawn, Op.spawn, Op.timer, Op.timer, Op.sync 1, Op.timer]) = some s1 ∧
      s1.running = some 0 ∧ stateOf s1 1 = some State.READY ∧
      s1.readyList = [1, 2] ∧ s1.readyList.getLast? = some 2) :=
  ⟨reachable_trace 3 100 _ (by decide) (by decide), by decide, by decide, by decide,
    by decide, _, rfl, by decide, by decide, by decide, by decide⟩

/-- C18 (amended): when a switch in a reachable state replaces a running thread `p` that
is not blocked and has counter 0, `p` is `READY` and in the ready list afterwards; it is
the last element when it was not in the list before the switch and no thread with a larger
id waits for it. -/
theorem prev_enqueued_by_switch (M : Nat) (s s1 : Scheduler) (p : Nat) (thp : Thread)
    (hr : Reachable M s) (hrun : s.running = some p) (hth : s.threadArray p = some thp)
    (hnb : thp.state ≠ State.BLOCKED) (hz : s.numSyncedThreads p = 0)
    (hsw : switchThread M s = some s1) (hne : s1.running ≠ some p) :
    stateOf s1 p = some State.READY ∧ p ∈ s1.readyList ∧
    (p ∉ s.readyList → (∀ i, p < i → i < M → s.syncMatrix p i = 0) →
      s1.readyList.getLast? = some p) := by
  obtain ⟨hinv, hns, hdiag⟩ := reachable_inv2 M s hr
  obtain ⟨n, rest, thn, hl, hthn, hnbn, hlt, e, _⟩ :=
    switchThread_some M s s1 hinv.1 (by intro h; rw [hrun] at h; exact absurd h (by simp)) hsw
  have hnp : n ≠ p := by
    intro h; apply hne; rw [e]; simp [switchResult, h]
  have hpre : preSwitch M s = unsync M (blockTimerThreadSwitch s) p := by
    unfold preSwitch; rw [hrun]
  obtain ⟨⟨extra, hlu, hpw, hex⟩, hfin⟩ :=
    unsync_extra M (blockTimerThreadSwitch s) p hinv.1.slot
  have hcp : (preSwitch M s).numSyncedThreads p = 0 := by
    rw [hpre, hfin p thp hth]
    unfold decCounter
    have h1 : (blockTimerThreadSwitch s).syncMatrix p p = 0 := hdiag p
    have h2 : (blockTimerThreadSwitch s).numSyncedThreads p = 0 := hz
    simp [h1, h2]
  have hmem := preSwitch_complete M s p hinv.1 hrun p thp hth hnb hcp
  rw [hl] at hmem
  have hrest : p ∈ rest := by
    rcases List.mem_cons.mp hmem with h | h
    · exact absurd h.symm hnp
    · exact h
  refine ⟨?_, by rw [e]; exact hrest, ?_⟩
  · rw [e]
    simp only [stateOf, switchResult, hth, Option.map_some', switchedThread, hrun]
    simp [Ne.symm hnp, hnb]
  · intro hold hbig
    have hlist : n :: rest = s.readyList ++ extra := by
      rw [← hl, hpre, hlu]; rfl
    have hpe : p ∈ extra := by
      have : p ∈ s.readyList ++ extra := by rw [← hlist]; exact hmem
      rcases List.mem_append.mp this with h | h
      · exact absurd h hold
      · exact h
    have hle : ∀ i, i ∈ extra → i ≤ p := by
      intro i hi
      by_contra hgt
      have hgt : p < i := Nat.lt_of_not_le hgt
      obtain ⟨hnot, th, hthi, hnbi, hdec⟩ := hex i hi
      have hS : (blockTimerThreadSwitch s).syncMatrix p i = 0 :=
        hbig i hgt (hinv.1.slot i th hthi).2
      unfold decCounter at hdec
      simp only [hS, ne_eq, not_true_eq_false, if_false] at hdec
      cases hst : th.state with
      | READY => exact hnot (hns i th hthi hst hdec)
      | RUNNING =>
        have := hinv.1.runState i th hthi hst
        rw [hrun] at this
        have : p = i := by simpa using this
        omega
      | BLOCKED => exact hnbi hst
    have hlast := getLast_of_pairwise extra p hpw hpe hle
    have hne2 : extra ≠ [] := by intro h; rw [h] at hpe; simp at hpe
    have h1 : (n :: rest).getLast? = some p := by
      rw [hlist, List.getLast?_append_of_ne_nil _ hne2]; exact hlast
    rw [e]
    show rest.getLast? = some p
    cases rest with
    | nil => simp at hrest
    | cons a b => simpa [List.getLast?_cons_cons] using h1

/-- The amended property on a switch that moves the main thread to the back: threads 1
and 2 are ready, nobody waits, and after the switch the ready list is `[2, 0]`. -/
theorem prev_enqueued_by_switch_witness :
    stateOf (traceState 3 100 [Op.spawn, Op.spawn, Op.timer]) 0 = some State.READY ∧
    0 ∈ (traceState 3 100 [Op.spawn, Op.spawn, Op.timer]).readyList ∧
    (traceState 3 100 [Op.spawn, Op.spawn, Op.timer]).readyList.getLast? = some 0 :=
  have h := prev_enqueued_by_switch 3 (traceState 3 100 [Op.spawn, Op.spawn])
    (traceState 3 100 [Op.spawn, Op.spawn, Op.timer]) 0 ⟨0, 1, State.RUNNING⟩
    (reachable_trace 3 100 _ (by decide) (by decide)) (by decide) (by decide) (by decide)
    (by decide) rfl (by decide)
  ⟨h.1, h.2.1, h.2.2 (by decide) (by intro i _ hi; interval_cases i <;> rfl)⟩

/-- C19, the counterexample: the main thread runs and nobody waits for it, so
`syncMatrix[0][0]` is 0; the `unsync(0)` of a timer switch appends thread 0, whose state
is `RUNNING`, to the ready list `[1]`. -/
theorem unsync_appends_running_thread :
    Reachable 3 (traceState 3 100 [Op.spawn]) ∧
    UnsyncCall 3 (blockTimerThreadSwitch (traceState 3 100 [Op.spawn])) 0 ∧
    (blockTimerThreadSwitch (traceState 3 100 [Op.spawn])).readyList = [1] ∧
    (unsync 3 (blockTimerThreadSwitch (traceState 3 100 [Op.spawn])) 0).readyList = [1, 0] ∧
    (blockTimerThreadSwitch (traceState 3 100 [Op.spawn])).syncMatrix 0 0 = 0 ∧
    stateOf (blockTimerThreadSwitch (traceState 3 100 [Op.spawn])) 0 = some State.RUNNING :=
  ⟨reachable_trace 3 100 _ (by decide) (by decide),
    UnsyncCall.timer _ 0 (reachable_trace 3 100 _ (by decide) (by decide)) (by decide),
    by decide, by decide, by decide, by decide⟩

/-- C19 (amended): a thread that a call of `unsync(tid)` appends to the ready list is live,
not blocked and has counter 0 after the call; either it was waiting for `tid` alone
(`syncMatrix[tid][i]` was 1 and its counter was 1) or it is the thread whose state is
`RUNNING`. -/
theorem unsync_appends_released_or_running (M : Nat) (u : Scheduler) (tid : Nat)
    (hcall : UnsyncCall M u tid)
    (i : Nat) (hnew : i ∈ (unsync M u tid).readyList) (hold : i ∉ u.readyList) :
    ∃ th, u.threadArray i = some th ∧ th.state ≠ State.BLOCKED ∧
      (unsync M u tid).numSyncedThreads i = 0 ∧
      ((u.syncMatrix tid i = 1 ∧ u.numSyncedThreads i = 1) ∨ th.state = State.RUNNING) := by
  obtain ⟨hslot, hbin, hns⟩ := unsyncCall_pre M u tid hcall
  obtain ⟨⟨extra, hl, _, hex⟩, hfin⟩ := unsync_extra M u tid hslot
  rw [hl] at hnew
  have hie : i ∈ extra := by
    rcases List.mem_append.mp hnew with h | h
    · exact absurd h hold
    · exact h
  obtain ⟨_, th, hth, hnb, hdec⟩ := hex i hie
  refine ⟨th, hth, hnb, by rw [hfin i th hth]; exact hdec, ?_⟩
  unfold decCounter at hdec
  by_cases hS : u.syncMatrix tid i = 0
  · right
    simp only [hS, ne_eq, not_true_eq_false, if_false] at hdec
    cases hst : th.state with
    | READY => exact absurd (hns i th hth hst hdec) hold
    | RUNNING => rfl
    | BLOCKED => exact absurd hst hnb
  · left
    simp only [hS, ne_eq, not_false_eq_true, if_true] at hdec
    have := hbin tid i
    exact ⟨by omega, by omega⟩

/-- Thread 2 waits for the running thread 1: the `unsync(1)` of the timer switch appends
thread 2, released with `syncMatrix[1][2] = 1` and counter 1. -/
theorem unsync_appends_released_or_running_witness :
    ∃ th, (blockTimerThreadSwitch (traceState 3 100
        [Op.spawn, Op.spawn, Op.timer, Op.timer, Op.sync 1, Op.timer])).threadArray 2 = some th ∧
      th.state ≠ State.BLOCKED ∧
      (unsync 3 (blockTimerThreadSwitch (traceState 3 100
        [Op.spawn, Op.spawn, Op.timer, Op.timer, Op.sync 1, Op.timer])) 1).numSyncedThreads 2
        = 0 ∧
      (((blockTimerThreadSwitch (traceState 3 100
          [Op.spawn, Op.spawn, Op.timer, Op.timer, Op.sync 1, Op.timer])).syncMatrix 1 2 = 1 ∧
        (blockTimerThreadSwitch (traceState 3 100
          [Op.spawn, Op.spawn, Op.timer, Op.timer, Op.sync 1, Op.timer])).numSyncedThreads 2
          = 1) ∨ th.state = State.RUNNING) :=
  unsync_appends_released_or_running 3 _ 1
    (UnsyncCall.timer (traceState 3 100
      [Op.spawn, Op.spawn, Op.timer, Op.timer, Op.sync 1, Op.timer]) 1
      (reachable_trace 3 100 _ (by decide) (by decide)) (by decide)) 2 (by decide) (by decide)

/-- C20 (sync-matrix well-formedness): in a reachable state the diagonal of the sync matrix
is zero, column 0 is zero and the counter of the main thread is zero; the diagonal is zero
again as soon as a `sync` of a thread on its own id has completed. -/
theorem sync_matrix_well_formed (M : Nat) (s : Scheduler) (hr : Reachable M s) :
    (∀ i, s.syncMatrix i i = 0) ∧ (∀ i, s.syncMatrix i 0 = 0) ∧ s.numSyncedThreads 0 = 0 ∧
    ∀ r s1, s.running = some r → (uthread_sync M s r).state? = some s1 →
      ∀ i, s1.syncMatrix i i = 0 := by
  obtain ⟨hinv, _, hd⟩ := reachable_inv2 M s hr
  refine ⟨hd, hinv.1.col0, hinv.1.main_sync, fun r s1 _ hs => ?_⟩
  have hr1 : Reachable M s1 := reachable_step M s s1 (Op.sync r) hr hs
  exact (reachable_inv2 M s1 hr1).2.2

/-- Thread 1 calls `sync(1)`: the call succeeds and the diagonal is zero afterwards. -/
theorem sync_matrix_well_formed_witness :
    Reachable 3 (traceState 3 100 [Op.spawn, Op.spawn, Op.timer]) ∧
    (uthread_sync 3 (traceState 3 100 [Op.spawn, Op.spawn, Op.timer]) 1).value? = some 0 ∧
    (traceState 3 100 [Op.spawn, Op.spawn, Op.timer, Op.sync 1]).syncMatrix 1 1 = 0 :=
  have hr : Reachable 3 (traceState 3 100 [Op.spawn, Op.spawn, Op.timer]) :=
    reachable_trace 3 100 _ (by decide) (by decide)
  ⟨hr, by decide,
    (sync_matrix_well_formed 3 _ hr).2.2.2 1
      (traceState 3 100 [Op.spawn, Op.spawn, Op.timer, Op.sync 1]) (by decide) rfl 1⟩

/-- C21 (a successor always exists): in a reachable state the main thread is in the ready
list whenever it is not the running thread; and at every call of the switcher (by the
timer, by `terminate` of the running thread, by `block` of the running thread, by `sync`)
the same holds, `nextThread` finds the ready list non-empty with a live thread that is not
`BLOCKED` at its front, returns that thread (not `nullptr`) after exactly one iteration of
its pop loop, leaving the tail of the list, and the switch completes with that thread
running unless `totalQuantums` would overflow. -/
theorem successor_always_exists (M : Nat) (s : Scheduler) (hr : Reachable M s) :
    (s.running ≠ some MAIN_THREAD_ID → MAIN_THREAD_ID ∈ s.readyList) ∧
    ∀ w, SwitcherCall M s w →
      (w.running ≠ some MAIN_THREAD_ID → MAIN_THREAD_ID ∈ w.readyList) ∧
      ∃ n rest thn, (preSwitch M w).readyList = n :: rest ∧
        (preSwitch M w).threadArray n = some thn ∧ thn.state ≠ State.BLOCKED ∧
        nextThread (preSwitch M w)
          = some (some n, { preSwitch M w with readyList := rest }) ∧
        popIterations (preSwitch M w).threadArray (preSwitch M w).readyList = some 1 ∧
        (s.totalQuantums < INT_MAX →
          ∃ s1, switchThread M w = some s1 ∧ s1.running = some n) := by
  refine ⟨main_in_ready_list M s hr, fun w hw => ?_⟩
  obtain ⟨hready, hmain, htot⟩ := switcherCall_ready M s w hr hw
  refine ⟨hmain, ?_⟩
  obtain ⟨n, rest, thn, hl, hthn, hnb, he⟩ := switchThread_spec M w hready.1 hready.2
  have hthn2 : (preSwitch M w).threadArray n = some thn := by
    rw [preSwitch_threadArray]; exact hthn
  refine ⟨n, rest, thn, hl, hthn2, hnb, nextThread_head _ n rest thn hl hthn2 hnb, ?_, ?_⟩
  · rw [hl]; exact popIterations_head _ n rest thn hthn2 hnb
  · intro hlt
    rw [← htot] at hlt
    rw [he, if_neg (not_le_of_lt hlt)]
    exact ⟨_, rfl, rfl⟩

/-- Thread 1 runs with the ready list `[2, 0]` and blocks itself: the switcher finds
thread 2 at the front, pops it in one iteration and dispatches it. -/
theorem successor_always_exists_witness :
    Reachable 3 (traceState 3 100 [Op.spawn, Op.spawn, Op.timer]) ∧
    MAIN_THREAD_ID ∈ (traceState 3 100 [Op.spawn, Op.spawn, Op.timer]).readyList ∧
    ∃ n rest thn,
      (preSwitch 3 (unblockTimerThreadSwitch (blockBody (blockTimerThreadSwitch
        (traceState 3 100 [Op.spawn, Op.spawn, Op.timer])) 1 ⟨1, 1, State.RUNNING⟩))).readyList
        = n :: rest ∧
      (preSwitch 3 (unblockTimerThreadSwitch (blockBody (blockTimerThreadSwitch
        (traceState 3 100 [Op.spawn, Op.spawn, Op.timer])) 1 ⟨1, 1, State.RUNNING⟩))).threadArray n
        = some thn ∧
      thn.state ≠ State.BLOCKED :=
  have hr : Reachable 3 (traceState 3 100 [Op.spawn, Op.spawn, Op.timer]) :=
    reachable_trace 3 100 _ (by decide) (by decide)
  have h := successor_always_exists 3 _ hr
  match (h.2 _ (SwitcherCall.block 1 ⟨1, 1, State.RUNNING⟩ (by decide) (by decide) (by decide)
    (by decide))).2 with
  | ⟨n, rest, thn, h1, h2, h3, _⟩ => ⟨hr, h.1 (by decide), n, rest, thn, h1, h2, h3⟩

/-- C22 (no runnable thread is stranded): in a reachable state every live thread with
state `READY` and a zero counter is in the ready list; a live thread that is not in the
ready list is the running thread, or is `BLOCKED`, or has a positive counter with an
entry of the sync matrix still set in its column. -/
theorem no_runnable_thread_stranded (M : Nat) (s : Scheduler) (hr : Reachable M s) :
    (∀ i th, s.threadArray i = some th → th.state = State.READY →
      s.numSyncedThreads i = 0 → i ∈ s.readyList) ∧
    (∀ i th, s.threadArray i = some th → i ∉ s.readyList →
      s.running = some i ∨ th.state = State.BLOCKED ∨
        (0 < s.numSyncedThreads i ∧ ∃ j, j < M ∧ s.syncMatrix j i = 1)) := by
  obtain ⟨hinv, hns, _⟩ := reachable_inv2 M s hr
  refine ⟨hns, fun i th hth hnot => ?_⟩
  cases hst : th.state with
  | RUNNING => exact Or.inl (hinv.1.runState i th hth hst)
  | BLOCKED => exact Or.inr (Or.inl rfl)
  | READY =>
    right; right
    have hc := hinv.1.counted i (hinv.1.slot i th hth).2 (by simp)
    have hne : s.numSyncedThreads i ≠ 0 := fun hz => hnot (hns i th hth hst hz)
    refine ⟨by omega, ?_⟩
    by_contra hno
    apply hne
    rw [hc, syncCount_zero M s.syncMatrix i ?_]
    · rfl
    · intro j hj
      by_contra hj0
      have := hinv.1.bin j i
      exact hno ⟨j, hj, by omega⟩

/-- Thread 2 waits for thread 1 while the main thread runs: thread 1 is in the ready list
and thread 2, off the list, has a positive counter. -/
theorem no_runnable_thread_stranded_witness :
    Reachable 3 (traceState 3 100 [Op.spawn, Op.spawn, Op.timer, Op.timer, Op.sync 1]) ∧
    1 ∈ (traceState 3 100 [Op.spawn, Op.spawn, Op.timer, Op.timer, Op.sync 1]).readyList ∧
    2 ∉ (traceState 3 100 [Op.spawn, Op.spawn, Op.timer, Op.timer, Op.sync 1]).readyList ∧
    0 < (traceState 3 100
      [Op.spawn, Op.spawn, Op.timer, Op.timer, Op.sync 1]).numSyncedThreads 2 :=
  have hr : Reachable 3
      (traceState 3 100 [Op.spawn, Op.spawn, Op.timer, Op.timer, Op.sync 1]) :=
    reachable_trace 3 100 _ (by decide) (by decide)
  have h := no_runnable_thread_stranded 3 _ hr
  ⟨hr, h.1 1 ⟨1, 1, State.READY⟩ (by decide) (by decide) (by decide), by decide,
    match h.2 2 ⟨2, 1, State.READY⟩ (by decide) (by decide) with
    | Or.inl h1 => absurd h1 (by decide)
    | Or.inr (Or.inl h2) => absurd h2 (by decide)
    | Or.inr (Or.inr h3) => h3.1⟩

end Uthreads
